import Mathlib

/-!
Player-Tracking: blob extraction and torso inference

A shallow embedding of `BlobPlayerExtractor::extract_player_from_frame`
(`src/sources/blob_player_extractor.cpp`) and of the torso inference of
`DPMDetector` (`src/sources/dpm_detector.cpp`), and theorems about them.

Conventions of the embedding.

* `int` values are integers without a width; the sentinels
  `std::numeric_limits<int>::max()` / `min()` keep their 32-bit values
  (`INT_MAX`, `INT_MIN`), and a mask carries the fact that its two dimensions
  are `int`s.
* A `std::set<int>` is the strictly ascending list of its elements, a
  `std::map<int, T>` the list of its entries in ascending key order; iteration
  over either is iteration over the list.
* The two nested `for` loops over a grid are `rasterFold`.
* `cv::Mat::at` is only ever called inside the grid, so a grid is a function of
  its two indices.
* A pointer that may be `NULL` is an `Option`; a function that may throw returns
  the object after the call together with an `Except`.
* The views `img(rect)` are taken by the image library, which throws
  `cv::Exception` when the rectangle does not lie inside the image
  (`insideImage`). The extractor model carries the headers of the two frame
  images and applies that check; the detector model takes the view operation as
  a parameter that may refuse a rectangle, and `matView` is that operation on
  image headers.
-/

namespace tmd

/-! ## Constants -/

/-- The macro `BUFFER_SIZE` (line 5). -/
def BUFFER_SIZE : Int := 20

/-- The macro `MIN_BLOB_SIZE` (line 6). -/
def MIN_BLOB_SIZE : Int := 800

/-- The value of `std::numeric_limits<int>::max()`. -/
def INT_MAX : Int := 2147483647

/-- The value of `std::numeric_limits<int>::min()`. -/
def INT_MIN : Int := -2147483648

/-! ## Containers -/

/-- The member `std::set<int>::insert`, on the ascending list of the elements. -/
def setInsert (x : Int) : List Int → List Int
  | [] => [x]
  | y :: t => if x < y then x :: y :: t else if x = y then y :: t else y :: setInsert x t

/-- The member `std::map::find`: the value stored under `k`, if any. -/
def mapFind {β : Type} (k : Int) : List (Int × β) → Option β
  | [] => none
  | (k', v) :: t => if k = k' then some v else mapFind k t

/-- The assignment `m[k] = v`: overwrite the entry of `k`, or add it at its
place in key order. -/
def mapAssign {β : Type} (k : Int) (v : β) : List (Int × β) → List (Int × β)
  | [] => [(k, v)]
  | (k', v') :: t =>
    if k < k' then (k, v) :: (k', v') :: t
    else if k = k' then (k, v) :: t
    else (k', v') :: mapAssign k v t

/-- The member `std::map::insert(pair)`: adds the entry unless the key is
already present. -/
def mapInsert {β : Type} (k : Int) (v : β) (m : List (Int × β)) : List (Int × β) :=
  match mapFind k m with
  | some _ => m
  | none => mapAssign k v m

/-- The statement `m[k].insert(x)` on a map of sets: `m[k]` is the stored set,
or a fresh empty one. -/
def mapSetInsert (k x : Int) (m : List (Int × List Int)) : List (Int × List Int) :=
  mapAssign k (setInsert x ((mapFind k m).getD [])) m

/-! ## Data model -/

/-- A single-channel `uchar` matrix (`frame->mask_frame`): its dimensions, which
are `int`s, and its cells. -/
structure Mask where
  rows : Nat
  cols : Nat
  px : Nat → Nat → Nat
  rows_le : rows ≤ 2147483647
  cols_le : cols ≤ 2147483647

/-- The `cv::Rect` record. -/
structure Rect where
  x : Int
  y : Int
  width : Int
  height : Int
deriving DecidableEq, Repr

/-- The header of a `cv::Mat`: its numbers of rows and columns. This is what
the image library reads of an image when a view of it is asked for. -/
structure Mat where
  rows : Nat
  cols : Nat
deriving DecidableEq, Repr

/-- The exception `cv::Exception`, thrown by the image library when the
rectangle of a view does not lie inside the image. -/
inductive cv_Exception where
  | roi_outside_image
deriving DecidableEq, Repr

/-- The range check of the image library on a view `img(r)` of an image of
`rows` rows and `cols` columns: `0 <= r.x`, `0 <= r.width`,
`r.x + r.width <= cols`, `0 <= r.y`, `0 <= r.height`, `r.y + r.height <= rows`.
The view is taken when the check holds, and `cv::Exception` is thrown when it
does not. -/
def insideImage (rows cols : Nat) (r : Rect) : Prop :=
  0 ≤ r.x ∧ 0 ≤ r.width ∧ r.x + r.width ≤ cols ∧
  0 ≤ r.y ∧ 0 ≤ r.height ∧ r.y + r.height ≤ rows

instance (rows cols : Nat) (r : Rect) : Decidable (insideImage rows cols r) := by
  unfold insideImage; infer_instance

/-- The view `img(r)` of the image library on image headers: the header of the
view, or `none` when the library throws `cv::Exception`. -/
def matView (img : Mat) (r : Rect) : Option Mat :=
  if insideImage img.rows img.cols r then some ⟨r.height.toNat, r.width.toNat⟩ else none

/-- The fields of `frame_t` read by the extractor. The colour image
`original_frame` is only handed to the image library for cropping (line 119),
which reads its header. -/
structure frame_t where
  mask_frame : Mask
  original_frame : Mat
  frame_index : Int

/-- The record `player_t` as filled by the extractor. `mask_image` and
`original_image` are the views of the two frame images under `pos_frame`
taken by the image library (lines 117 and 119); the record keeps the
rectangle. -/
structure player_t where
  pos_frame : Rect
  frame_index : Int
deriving DecidableEq, Repr

/-! ## Loops -/

/-- The loop `for (int b = lo; b <= hi; b++)`: the values of `b` in order. -/
def intRange (lo hi : Int) : List Int :=
  (List.range (hi + 1 - lo).toNat).map (fun (i : Nat) => lo + (i : Int))

/-- The loops `for row in [0, rows)`, `for col in [0, cols)` around `body`. -/
def rasterFold {σ : Type} (rows cols : Nat) (body : σ → Nat → Nat → σ) (s : σ) : σ :=
  (List.range rows).foldl
    (fun s row => (List.range cols).foldl (fun s col => body s row col) s) s

/-- The write `g.at<int>(row, col) = v`. -/
def setAt (g : Nat → Nat → Int) (row col : Nat) (v : Int) : Nat → Nat → Int :=
  fun r c => if r = row ∧ c = col then v else g r c

/-! ## First pass (lines 18-64) -/

/-- The function `BlobPlayerExtractor::clamp` (lines 128-130): true when the
cell lies outside the grid. -/
def clamp (rows cols row col : Int) : Bool :=
  decide (row < 0) || decide (row ≥ rows) || decide (col < 0) || decide (col ≥ cols)

/-- The variables that the first pass updates. -/
structure LabelState where
  currentLabel : Int
  labels : Nat → Nat → Int
  labelMap : List (Int × List Int)

/-- The body of the window scan (lines 36-42) on the pair
`(neighbours, smallestLabel)`. -/
def scanCell (rows cols : Nat) (labels : Nat → Nat → Int) (row col : Nat)
    (acc : List Int × Int) (bufferCol bufferRow : Int) : List Int × Int :=
  if !clamp rows cols (row + bufferRow) (col + bufferCol) then
    if labels (row + bufferRow).toNat (col + bufferCol).toNat ≠ 0 then
      let label := labels (row + bufferRow).toNat (col + bufferCol).toNat
      (setInsert label acc.1, if label < acc.2 then label else acc.2)
    else acc
  else acc

/-- The window scan (lines 31-44): `neighbours` and `smallestLabel` after the
two loops over the offsets, the column offset outermost. -/
def scanWindow (rows cols : Nat) (labels : Nat → Nat → Int) (row col : Nat) :
    List Int × Int :=
  (intRange (-BUFFER_SIZE / 2) (BUFFER_SIZE / 2)).foldl
    (fun acc bufferCol =>
      (intRange (-BUFFER_SIZE / 2) (BUFFER_SIZE / 2)).foldl
        (fun acc bufferRow => scanCell rows cols labels row col acc bufferCol bufferRow) acc)
    ([], INT_MAX)

/-- The recording of equivalences (lines 54-60). -/
def mergeNeighbours (neighbours : List Int) (smallestLabel : Int)
    (labelMap : List (Int × List Int)) : List (Int × List Int) :=
  mapSetInsert smallestLabel smallestLabel
    (neighbours.foldl
      (fun lm tmp =>
        mapSetInsert tmp smallestLabel
          (neighbours.foldl (fun lm tmp2 => mapSetInsert tmp tmp2 lm) lm))
      labelMap)

/-- The body of the first pass at one pixel (lines 30-62). -/
def firstPassPixel (m : Mask) (s : LabelState) (row col : Nat) : LabelState :=
  if m.px row col ≠ 0 then
    let w := scanWindow m.rows m.cols s.labels row col
    if w.1.isEmpty then
      { currentLabel := s.currentLabel + 1
        labels := setAt s.labels row col s.currentLabel
        labelMap := mapInsert s.currentLabel [s.currentLabel] s.labelMap }
    else
      { currentLabel := s.currentLabel
        labels := setAt s.labels row col w.2
        labelMap := mergeNeighbours w.1 w.2 s.labelMap }
  else s

/-- The first pass (lines 18-64), from `currentLabel = 1`, an all-zero label
grid and an empty `labelMap`. -/
def firstPass (m : Mask) : LabelState :=
  rasterFold m.rows m.cols (firstPassPixel m) ⟨1, fun _ _ => 0, []⟩

/-! ## Second pass (lines 66-87) -/

/-- The variables that the second pass updates. -/
structure SizeState where
  labels : Nat → Nat → Int
  blobSizes : List (Int × Int)

/-- The value `*labelMap[l].begin()` (lines 71-73). The standard gives no value
to `*begin()` of an empty set; the embedding yields 0 there, and
`firstPass_inv` shows that the second pass never reads an empty set. -/
def canonical (labelMap : List (Int × List Int)) (l : Int) : Int :=
  ((mapFind l labelMap).getD []).headD 0

/-- The body of the second pass at one pixel (lines 70-85). -/
def secondPassPixel (m : Mask) (labelMap : List (Int × List Int)) (s : SizeState)
    (row col : Nat) : SizeState :=
  if m.px row col ≠ 0 then
    let label := canonical labelMap (s.labels row col)
    let currentSize : Int :=
      match mapFind label s.blobSizes with
      | some v => v
      | none => 0
    { labels := setAt s.labels row col label
      blobSizes := mapAssign label (currentSize + 1) s.blobSizes }
  else s

/-- The second pass (lines 66-87) on the result of the first. -/
def secondPass (m : Mask) : SizeState :=
  rasterFold m.rows m.cols (secondPassPixel m (firstPass m).labelMap)
    ⟨(firstPass m).labels, []⟩

/-! ## Extraction (lines 89-125) -/

/-- The four variables `minRow`, `minCol`, `maxRow`, `maxCol`. -/
structure Box where
  minRow : Int
  minCol : Int
  maxRow : Int
  maxCol : Int
deriving DecidableEq, Repr

/-- The body of the bounding-box scan (lines 100-113). -/
def boxCell (labels : Nat → Nat → Int) (label : Int) (b : Box) (row col : Nat) : Box :=
  if labels row col = label then
    { minRow := if (row : Int) < b.minRow then row else b.minRow
      minCol := if (col : Int) < b.minCol then col else b.minCol
      maxRow := if (row : Int) > b.maxRow then row else b.maxRow
      maxCol := if (col : Int) > b.maxCol then col else b.maxCol }
  else b

/-- The bounding-box scan for one label (lines 94-115). -/
def boundingBox (rows cols : Nat) (labels : Nat → Nat → Int) (label : Int) : Box :=
  rasterFold rows cols (boxCell labels label) ⟨INT_MAX, INT_MAX, INT_MIN, INT_MIN⟩

/-- The rectangle `myRect` (line 116). -/
def paddedRect (b : Box) : Rect :=
  ⟨b.minCol - 20, b.minRow - 20, b.maxCol - b.minCol + 40, b.maxRow - b.minRow + 40⟩

/-- The body of the loop over `blobSizes` (lines 91-122). The view of the mask
(line 117) and the view of the colour image (line 119) are taken under
`myRect`; when either leaves its image the library throws `cv::Exception`,
which nothing catches, before the candidate is pushed (line 121). -/
def extractEntry (frame : frame_t) (labels : Nat → Nat → Int) (players : List player_t)
    (it : Int × Int) : Except cv_Exception (List player_t) :=
  if it.2 ≥ MIN_BLOB_SIZE then
    let myRect := paddedRect
      (boundingBox frame.mask_frame.rows frame.mask_frame.cols labels it.1)
    if insideImage frame.mask_frame.rows frame.mask_frame.cols myRect then
      if insideImage frame.original_frame.rows frame.original_frame.cols myRect then
        Except.ok (players ++ [{ pos_frame := myRect, frame_index := frame.frame_index }])
      else Except.error cv_Exception.roi_outside_image
    else Except.error cv_Exception.roi_outside_image
  else Except.ok players

/-- The loop over `blobSizes` (lines 90-123): the entries are visited in the
order of the table, and the first exception ends the call. -/
def extractLoop (frame : frame_t) (labels : Nat → Nat → Int) :
    List (Int × Int) → List player_t → Except cv_Exception (List player_t)
  | [], players => Except.ok players
  | it :: rest, players =>
    match extractEntry frame labels players it with
    | Except.ok players1 => extractLoop frame labels rest players1
    | Except.error e => Except.error e

/-- The function `BlobPlayerExtractor::extract_player_from_frame` (lines 11-126):
the list it returns, or the exception that leaves it. -/
def extract_player_from_frame (frame : frame_t) : Except cv_Exception (List player_t) :=
  extractLoop frame (secondPass frame.mask_frame).labels
    (secondPass frame.mask_frame).blobSizes []

/-! ## Torso inference (`src/sources/dpm_detector.cpp`) -/

namespace DPMDetector

/-- The record `features_t`, with the fields that `dpm_detector.cpp` reads and
writes. `Img` stands for `cv::Mat`. -/
structure features_t (Img : Type) where
  body_parts : List Rect
  torso : Img
  torso_mask : Img
  torso_pos : Rect

/-- The record `player_t` as the detector sees it: the two images that the
extractor cropped, and the features. -/
structure player_t (Img : Type) where
  original_image : Img
  mask_image : Img
  features : features_t Img

/-- The exception `std::invalid_argument`, by the statement that throws it:
line 32, line 336 and line 340. -/
inductive invalid_argument where
  | null_in_extractBodyParts
  | null_in_extractTorsoForPlayer
  | not_enough_body_parts
deriving DecidableEq, Repr

/-- What `extractTorsoForPlayer` and `extractBodyParts` can throw:
`std::invalid_argument` from their own tests, or `cv::Exception` from a view
taken by the image library. -/
inductive exception where
  | std (e : invalid_argument)
  | cv (e : cv_Exception)
deriving DecidableEq, Repr

/-- The element `v[i]` of a vector of rectangles; the code only indexes below
the size, so the fallback is never read. -/
def vectorAt (v : List Rect) (i : Nat) : Rect := v.getD i ⟨0, 0, 0, 0⟩

/-- The rectangle `mean` (lines 343-351). The division of two `int`s truncates
toward zero. -/
def meanRect (torso1 torso2 : Rect) : Rect :=
  { x := Int.tdiv (torso1.x + torso2.x) 2
    y := Int.tdiv (torso1.y + torso2.y) 2
    width := Int.tdiv ((torso1.x + torso1.width) + (torso2.x + torso2.width)) 2
      - Int.tdiv (torso1.x + torso2.x) 2
    height := Int.tdiv ((torso1.y + torso1.height) + (torso2.y + torso2.height)) 2
      - Int.tdiv (torso1.y + torso2.y) 2 }

/-- The function `DPMDetector::extractTorsoForPlayer` (lines 334-355). The
argument is the pointer (`none` for `NULL`); the result is the object after the
call and whether the call returned or threw. `roi img r` is the view `img(r)`
taken by the image library, `none` when the library throws `cv::Exception`
because `r` leaves `img`. The view of line 352 is assigned to `torso` before
the view of line 353 is taken. -/
def extractTorsoForPlayer {Img : Type} (roi : Img → Rect → Option Img)
    (player : Option (player_t Img)) :
    Option (player_t Img) × Except exception Unit :=
  match player with
  | none =>
    (none, Except.error (exception.std invalid_argument.null_in_extractTorsoForPlayer))
  | some p =>
    if p.features.body_parts.length < 3 then
      (some p, Except.error (exception.std invalid_argument.not_enough_body_parts))
    else
      let torso1 := vectorAt p.features.body_parts 1
      let torso2 := vectorAt p.features.body_parts 2
      let mean := meanRect torso1 torso2
      match roi p.original_image mean with
      | none => (some p, Except.error (exception.cv cv_Exception.roi_outside_image))
      | some torso =>
        let p1 : player_t Img := { p with features := { p.features with torso := torso } }
        match roi p.mask_image mean with
        | none => (some p1, Except.error (exception.cv cv_Exception.roi_outside_image))
        | some torso_mask =>
          (some { p1 with features :=
              { p1.features with torso_mask := torso_mask, torso_pos := mean } },
            Except.ok ())

/-- The function `DPMDetector::extractBodyParts` (lines 30-41), with the
detector call `getPartBoxesForImage` as a function from the image to the list
of rectangles it returns. -/
def extractBodyParts {Img : Type} (getPartBoxesForImage : Img → List Rect)
    (roi : Img → Rect → Option Img) (player : Option (player_t Img)) :
    Option (player_t Img) × Except exception Unit :=
  match player with
  | none => (none, Except.error (exception.std invalid_argument.null_in_extractBodyParts))
  | some p =>
    let p1 : player_t Img :=
      { p with features :=
          { p.features with body_parts := getPartBoxesForImage p.original_image } }
    if p1.features.body_parts.length > 0 then
      extractTorsoForPlayer roi (some p1)
    else (some p1, Except.ok ())

end DPMDetector

/-! ## Notions used to state the properties -/

/-- Cell `(r, c)` lies in the mask and is foreground (nonzero). -/
def fg (m : Mask) (r c : Nat) : Prop := r < m.rows ∧ c < m.cols ∧ m.px r c ≠ 0

instance (m : Mask) (r c : Nat) : Decidable (fg m r c) := by
  unfold fg; infer_instance

/-- Tolerant adjacency: the row offset and the column offset between the two
cells are both at most 10 in absolute value. -/
def near (r c r' c' : Nat) : Prop := r ≤ r' + 10 ∧ r' ≤ r + 10 ∧ c ≤ c' + 10 ∧ c' ≤ c + 10

instance (r c r' c' : Nat) : Decidable (near r c r' c') := by
  unfold near; infer_instance

/-- Raster order: `(r', c')` is visited strictly earlier than `(r, c)`. -/
def before (r' c' r c : Nat) : Prop := r' < r ∨ (r' = r ∧ c' < c)

instance (r' c' r c : Nat) : Decidable (before r' c' r c) := by
  unfold before; infer_instance

/-- The cells of a `rows` by `cols` grid in raster order. -/
def pixels (rows cols : Nat) : List (Nat × Nat) := List.range rows ×ˢ List.range cols

/-- The relation recorded by a map of sets: `b` is in the set stored under `a`. -/
def related (labelMap : List (Int × List Int)) (a b : Int) : Prop :=
  b ∈ (mapFind a labelMap).getD []

instance (labelMap : List (Int × List Int)) (a b : Int) : Decidable (related labelMap a b) := by
  unfold related; infer_instance

/-- Cell `(r', c')` is a foreground pixel visited before `(r, c)` and inside
the window of `(r, c)`. -/
def seen (m : Mask) (r c r' c' : Nat) : Prop :=
  fg m r' c' ∧ before r' c' r c ∧ near r c r' c'

instance (m : Mask) (r c r' c' : Nat) : Decidable (seen m r c r' c') := by
  unfold seen; infer_instance

/-- A foreground pixel with no earlier foreground pixel in its window. -/
def isRoot (m : Mask) (r c : Nat) : Prop :=
  fg m r c ∧ ∀ r' c', ¬ seen m r c r' c'

/-- The invariant of the first pass: `pre` is the part of the raster order
already visited and `s` the state reached. -/
structure FirstInv (m : Mask) (pre : List (Nat × Nat)) (s : LabelState) : Prop where
  zero : ∀ r c, s.labels r c ≠ 0 → (r, c) ∈ pre ∧ m.px r c ≠ 0
  pos : ∀ r c, (r, c) ∈ pre → m.px r c ≠ 0 →
    0 < s.labels r c ∧ s.labels r c < s.currentLabel
  cur_pos : 1 ≤ s.currentLabel
  wf : ∀ k set, mapFind k s.labelMap = some set → set.Pairwise (· < ·) ∧ set ≠ []
  rel_range : ∀ a b, related s.labelMap a b →
    0 < a ∧ a < s.currentLabel ∧ 0 < b ∧ b < s.currentLabel
  self : ∀ r c, (r, c) ∈ pre → m.px r c ≠ 0 →
    related s.labelMap (s.labels r c) (s.labels r c)
  min_le : ∀ r c, (r, c) ∈ pre → m.px r c ≠ 0 → ∀ r' c', seen m r c r' c' →
    s.labels r c ≤ s.labels r' c'
  min_mem : ∀ r c, (r, c) ∈ pre → m.px r c ≠ 0 → ∀ r' c', seen m r c r' c' →
    s.labels r c ≤ INT_MAX ∧
    (s.labels r c = INT_MAX ∨
      ∃ r'' c'', seen m r c r'' c'' ∧ s.labels r'' c'' = s.labels r c)
  link : ∀ r c, (r, c) ∈ pre → m.px r c ≠ 0 → ∀ r' c', seen m r c r' c' →
    related s.labelMap (s.labels r' c') (s.labels r c) ∧
    ∀ r'' c'', seen m r c r'' c'' → related s.labelMap (s.labels r' c') (s.labels r'' c'')
  fresh : ∀ j, 1 ≤ j → j < s.currentLabel →
    ∃ r c, (r, c) ∈ pre ∧ isRoot m r c ∧ s.labels r c = j
  root_gt : ∀ r c, (r, c) ∈ pre → isRoot m r c → ∀ r' c', fg m r' c' → before r' c' r c →
    s.labels r' c' < s.labels r c
  root_next : ∀ r c, (r, c) ∈ pre → isRoot m r c → ∀ j, 1 ≤ j → j < s.labels r c →
    ∃ r' c', isRoot m r' c' ∧ before r' c' r c ∧ s.labels r' c' = j
  rel_only : ∀ a b, related s.labelMap a b →
    (a = b ∧ ∃ r c, (r, c) ∈ pre ∧ m.px r c ≠ 0 ∧ s.labels r c = a) ∨
    (∃ r c, (r, c) ∈ pre ∧ m.px r c ≠ 0 ∧ ∃ r' c', seen m r c r' c' ∧ s.labels r' c' = a ∧
      (s.labels r c = b ∨ ∃ r'' c'', seen m r c r'' c'' ∧ s.labels r'' c'' = b))

/-- The number of cells of the grid that carry the label `l`. -/
def cellCount (rows cols : Nat) (labels : Nat → Nat → Int) (l : Int) : Nat :=
  (pixels rows cols).countP (fun p => decide (labels p.1 p.2 = l))

/-- The test of the second pass that a visited cell is foreground and resolves
to the label `l`. -/
def resolvesTo (m : Mask) (l : Int) (p : Nat × Nat) : Bool :=
  decide (m.px p.1 p.2 ≠ 0) &&
    decide (canonical (firstPass m).labelMap ((firstPass m).labels p.1 p.2) = l)

/-- The invariant of the second pass: `pre` is the part of the raster order
already visited and `s` the state reached. -/
structure SecondInv (m : Mask) (pre : List (Nat × Nat)) (s : SizeState) : Prop where
  done : ∀ r c, (r, c) ∈ pre → m.px r c ≠ 0 →
    s.labels r c = canonical (firstPass m).labelMap ((firstPass m).labels r c)
  todo : ∀ r c, ¬ ((r, c) ∈ pre ∧ m.px r c ≠ 0) → s.labels r c = (firstPass m).labels r c
  keys : (s.blobSizes.map Prod.fst).Pairwise (· < ·)
  sizes : ∀ l, mapFind l s.blobSizes
    = if pre.countP (resolvesTo m l) = 0 then none
      else some ((pre.countP (resolvesTo m l) : Nat) : Int)
  total : (s.blobSizes.map Prod.snd).sum
    = ((pre.countP (fun p => decide (m.px p.1 p.2 ≠ 0)) : Nat) : Int)

/-- The naturals `minRow`, `maxRow`, `minCol`, `maxCol` span the tightest
axis-aligned box around the cells that carry `label`: every such cell lies
within them and each of the four is attained by such a cell. -/
def tightBox (rows cols : Nat) (labels : Nat → Nat → Int) (label : Int)
    (minRow maxRow minCol maxCol : Nat) : Prop :=
  (∀ r c, r < rows → c < cols → labels r c = label →
    minRow ≤ r ∧ r ≤ maxRow ∧ minCol ≤ c ∧ c ≤ maxCol) ∧
  (∃ c, minRow < rows ∧ c < cols ∧ labels minRow c = label) ∧
  (∃ c, maxRow < rows ∧ c < cols ∧ labels maxRow c = label) ∧
  (∃ r, r < rows ∧ minCol < cols ∧ labels r minCol = label) ∧
  (∃ r, r < rows ∧ maxCol < cols ∧ labels r maxCol = label)

/-- The invariant of the bounding-box scan. -/
structure BoxInv (labels : Nat → Nat → Int) (label : Int) (pre : List (Nat × Nat))
    (b : Box) : Prop where
  bound : ∀ r c, (r, c) ∈ pre → labels r c = label →
    b.minRow ≤ r ∧ (r : Int) ≤ b.maxRow ∧ b.minCol ≤ c ∧ (c : Int) ≤ b.maxCol
  minRow : b.minRow = INT_MAX ∨ ∃ r c, (r, c) ∈ pre ∧ labels r c = label ∧ (r : Int) = b.minRow
  maxRow : b.maxRow = INT_MIN ∨ ∃ r c, (r, c) ∈ pre ∧ labels r c = label ∧ (r : Int) = b.maxRow
  minCol : b.minCol = INT_MAX ∨ ∃ r c, (r, c) ∈ pre ∧ labels r c = label ∧ (c : Int) = b.minCol
  maxCol : b.maxCol = INT_MIN ∨ ∃ r c, (r, c) ∈ pre ∧ labels r c = label ∧ (c : Int) = b.maxCol

/-- The labels of the blobs that pass the size test of line 91, in the order
of the table. -/
def survivors (frame : frame_t) : List Int :=
  ((secondPass frame.mask_frame).blobSizes.filter
    (fun it => decide (it.2 ≥ MIN_BLOB_SIZE))).map Prod.fst

/-- The rectangle `myRect` built for one label (lines 93-116). -/
def rectFor (frame : frame_t) (label : Int) : Rect :=
  paddedRect (boundingBox frame.mask_frame.rows frame.mask_frame.cols
    (secondPass frame.mask_frame).labels label)

/-- A rectangle lies inside both images of the frame, so that the views of
lines 117 and 119 under it are taken. -/
def viewsInside (frame : frame_t) (r : Rect) : Prop :=
  insideImage frame.mask_frame.rows frame.mask_frame.cols r ∧
  insideImage frame.original_frame.rows frame.original_frame.cols r

instance (frame : frame_t) (r : Rect) : Decidable (viewsInside frame r) := by
  unfold viewsInside; infer_instance

/-- The state of `labelMap` inside the loops of lines 54-59, when the outer
loop has run for the neighbours in `done`, an initial part of `neighbours`, and
line 60 has not run yet. -/
def mergeOuter (done neighbours : List Int) (smallestLabel : Int)
    (labelMap : List (Int × List Int)) : List (Int × List Int) :=
  done.foldl
    (fun lm tmp =>
      mapSetInsert tmp smallestLabel
        (neighbours.foldl (fun lm2 tmp2 => mapSetInsert tmp tmp2 lm2) lm))
    labelMap

/-- The candidate built for one label (lines 92-120). -/
def candidateFor (frame : frame_t) (label : Int) : player_t :=
  { pos_frame := paddedRect (boundingBox frame.mask_frame.rows frame.mask_frame.cols
      (secondPass frame.mask_frame).labels label)
    frame_index := frame.frame_index }

/-- Cell `(r, c)` lies in the rectangle of `h` rows and `w` columns whose top
left cell is `(r0, c0)`. -/
def inRect (r0 c0 h w r c : Nat) : Prop := r0 ≤ r ∧ r < r0 + h ∧ c0 ≤ c ∧ c < c0 + w

instance (r0 c0 h w r c : Nat) : Decidable (inRect r0 c0 h w r c) := by
  unfold inRect; infer_instance

/-- One step between two foreground pixels that are tolerantly adjacent. -/
def tolerantStep (m : Mask) (p q : Nat × Nat) : Prop :=
  fg m p.1 p.2 ∧ fg m q.1 q.2 ∧ near p.1 p.2 q.1 q.2

/-- Two pixels lie in the same tolerant-connected component of the foreground:
a chain of steps between tolerantly adjacent foreground pixels joins them. -/
def connected (m : Mask) (p q : Nat × Nat) : Prop :=
  Relation.ReflTransGen (tolerantStep m) p q

/-- One step between two tolerantly adjacent cells of the grid that both carry
the label `l`. -/
def labelStep (rows cols : Nat) (labels : Nat → Nat → Int) (l : Int) (p q : Nat × Nat) : Prop :=
  (p.1 < rows ∧ p.2 < cols ∧ labels p.1 p.2 = l) ∧
  (q.1 < rows ∧ q.2 < cols ∧ labels q.1 q.2 = l) ∧ near p.1 p.2 q.1 q.2

/-- The state of the first pass when it has visited the cells of `pre`, an
initial part of the raster order. -/
def firstPassUpTo (m : Mask) (pre : List (Nat × Nat)) : LabelState :=
  pre.foldl (fun s p => firstPassPixel m s p.1 p.2) ⟨1, fun _ _ => 0, []⟩

/-- The counter `currentLabel` stays within `int` during the first pass: its
last value is at most `INT_MAX`. -/
def NoOverflow (m : Mask) : Prop := (firstPass m).currentLabel ≤ INT_MAX

instance (m : Mask) : Decidable (NoOverflow m) := by
  unfold NoOverflow; infer_instance

/-- The test that a cell is a foreground pixel with no earlier foreground pixel
in its window, decided over the cells of the grid. -/
def opensLabel (m : Mask) (p : Nat × Nat) : Bool :=
  decide (fg m p.1 p.2) &&
    (pixels m.rows m.cols).all (fun q => !decide (seen m p.1 p.2 q.1 q.2))

/-- The neighbour set in the words of the specification: the set of the labels
that `labels` gives to the foreground pixels strictly earlier than `(r, c)` in
raster order whose row and column offsets from `(r, c)` are at most 10. -/
def earlierNeighbours (m : Mask) (labels : Nat → Nat → Int) (r c : Nat) : List Int :=
  ((pixels m.rows m.cols).filter (fun q => decide (seen m r c q.1 q.2))).foldl
    (fun acc q => setInsert (labels q.1 q.2) acc) []

/-! ## Concrete inputs -/

/-- A 2 by 23 mask with five foreground pixels: three in row 0, at columns 0,
11 and 22, and two in row 1, at columns 5 and 16. -/
def chainMask : Mask where
  rows := 2
  cols := 23
  px := fun r c =>
    if (r = 0 ∧ (c = 0 ∨ c = 11 ∨ c = 22)) ∨ (r = 1 ∧ (c = 5 ∨ c = 16)) then 255 else 0
  rows_le := by decide
  cols_le := by decide

/-- A 14 by 28 mask with eight foreground pixels, at (0,0), (0,11), (0,22),
(1,5), (1,16), (11,16), (12,27) and (13,22). -/
def hubMask : Mask where
  rows := 14
  cols := 28
  px := fun r c =>
    if (r = 0 ∧ (c = 0 ∨ c = 11 ∨ c = 22)) ∨ (r = 1 ∧ (c = 5 ∨ c = 16)) ∨
        (r = 11 ∧ c = 16) ∨ (r = 12 ∧ c = 27) ∨ (r = 13 ∧ c = 22) then 255 else 0
  rows_le := by decide
  cols_le := by decide

/-- An all-zero mask of the given dimensions. -/
def zeroMask (rows cols : Nat) (hr : rows ≤ 2147483647) (hc : cols ≤ 2147483647) : Mask where
  rows := rows
  cols := cols
  px := fun _ _ => 0
  rows_le := hr
  cols_le := hc

/-- The 100 by 100 mask that is zero except on the filled square over rows and
columns 10 to 39. -/
def squareMask : Mask where
  rows := 100
  cols := 100
  px := fun r c => if 10 ≤ r ∧ r ≤ 39 ∧ 10 ≤ c ∧ c ≤ 39 then 255 else 0
  rows_le := by decide
  cols_le := by decide

/-- A 5 by 5 mask whose only foreground pixel is (2, 3). -/
def dotMask : Mask where
  rows := 5
  cols := 5
  px := fun r c => if r = 2 ∧ c = 3 then 1 else 0
  rows_le := by decide
  cols_le := by decide

/-- A frame around `dotMask`. -/
def dotFrame : frame_t := ⟨dotMask, ⟨5, 5⟩, 0⟩

/-- A 4 by 12 mask with two filled rectangles: rows 0-1, columns 0-2 and rows
1-2, columns 8-9. The column gap between them is 6. -/
def nearMask : Mask where
  rows := 4
  cols := 12
  px := fun r c => if inRect 0 0 2 3 r c ∨ inRect 1 8 2 2 r c then 255 else 0
  rows_le := by decide
  cols_le := by decide

/-- A 1 by 15 mask with two filled rectangles: columns 0-1 and columns 13-14
of row 0. The column gap between them is 12. -/
def farMask : Mask where
  rows := 1
  cols := 15
  px := fun r c => if inRect 0 0 1 2 r c ∨ inRect 0 13 1 2 r c then 255 else 0
  rows_le := by decide
  cols_le := by decide

/-- A frame around `squareMask`, with a colour image of 100 by 100. -/
def squareFrame : frame_t := ⟨squareMask, ⟨100, 100⟩, 0⟩

/-- The 100 by 100 mask that is zero except on the filled square over rows and
columns 30 to 59. -/
def centreMask : Mask where
  rows := 100
  cols := 100
  px := fun r c => if 30 ≤ r ∧ r ≤ 59 ∧ 30 ≤ c ∧ c ≤ 59 then 255 else 0
  rows_le := by decide
  cols_le := by decide

/-- A frame around `centreMask`, with a colour image of 100 by 100. -/
def centreFrame : frame_t := ⟨centreMask, ⟨100, 100⟩, 3⟩

/-- The cells of `chainMask` visited before (1, 16). -/
def chainPre : List (Nat × Nat) := (pixels 2 23).take 39

/-- The cells of `chainMask` visited after (1, 16). -/
def chainSuf : List (Nat × Nat) := (pixels 2 23).drop 40

/-- A player with images of 8 by 8 and three body parts; parts 1 and 2 start
at the abscissas -1 and 0. -/
def negPlayer : DPMDetector.player_t Mat :=
  { original_image := ⟨8, 8⟩
    mask_image := ⟨8, 8⟩
    features :=
      { body_parts := [⟨0, 0, 8, 8⟩, ⟨-1, 0, 4, 4⟩, ⟨0, 0, 4, 4⟩]
        torso := ⟨0, 0⟩
        torso_mask := ⟨0, 0⟩
        torso_pos := ⟨0, 0, 0, 0⟩ } }

/-- A player with images of 90 rows and 40 columns and three body parts of
nonnegative coordinates. -/
def posPlayer : DPMDetector.player_t Mat :=
  { original_image := ⟨90, 40⟩
    mask_image := ⟨90, 40⟩
    features :=
      { body_parts := [⟨0, 0, 40, 90⟩, ⟨10, 20, 20, 30⟩, ⟨13, 25, 21, 31⟩]
        torso := ⟨0, 0⟩
        torso_mask := ⟨0, 0⟩
        torso_pos := ⟨0, 0, 0, 0⟩ } }

/-- A player with images of 8 by 8 and three body parts; parts 1 and 2 start
at the abscissas -3 and 0, so that the rectangle `mean` starts at -1. -/
def outPlayer : DPMDetector.player_t Mat :=
  { original_image := ⟨8, 8⟩
    mask_image := ⟨8, 8⟩
    features :=
      { body_parts := [⟨0, 0, 8, 8⟩, ⟨-3, 0, 2, 2⟩, ⟨0, 0, 2, 2⟩]
        torso := ⟨0, 0⟩
        torso_mask := ⟨0, 0⟩
        torso_pos := ⟨0, 0, 0, 0⟩ } }

/-! ## Sets and maps -/

theorem mem_setInsert {x y : Int} {s : List Int} :
    y ∈ setInsert x s ↔ y = x ∨ y ∈ s := by
  induction s with
  | nil => simp [setInsert]
  | cons a t ih =>
    unfold setInsert
    split_ifs with h1 h2
    · simp
    · subst h2; simp
    · simp only [List.mem_cons, ih]; tauto

theorem setInsert_pairwise {x : Int} {s : List Int} (h : s.Pairwise (· < ·)) :
    (setInsert x s).Pairwise (· < ·) := by
  induction s with
  | nil => simp [setInsert]
  | cons a t ih =>
    rw [List.pairwise_cons] at h
    unfold setInsert
    split_ifs with h1 h2
    · refine List.pairwise_cons.2 ⟨?_, List.pairwise_cons.2 h⟩
      intro b hb
      rcases List.mem_cons.1 hb with rfl | hb
      · exact h1
      · exact lt_trans h1 (h.1 b hb)
    · exact List.pairwise_cons.2 h
    · refine List.pairwise_cons.2 ⟨?_, ih h.2⟩
      intro b hb
      rcases mem_setInsert.1 hb with rfl | hb
      · omega
      · exact h.1 b hb

theorem setInsert_ne_nil (x : Int) (s : List Int) : setInsert x s ≠ [] := by
  intro h
  have : x ∈ setInsert x s := mem_setInsert.2 (Or.inl rfl)
  rw [h] at this
  exact List.not_mem_nil _ this

theorem headD_mem {s : List Int} (h : s ≠ []) : s.headD 0 ∈ s := by
  cases s with
  | nil => exact absurd rfl h
  | cons a t => simp

theorem headD_le {s : List Int} (h : s.Pairwise (· < ·)) {x : Int} (hx : x ∈ s) :
    s.headD 0 ≤ x := by
  cases s with
  | nil => exact absurd hx (List.not_mem_nil _)
  | cons a t =>
    rw [List.pairwise_cons] at h
    rcases List.mem_cons.1 hx with rfl | hx
    · simp
    · exact le_of_lt (h.1 x hx)

theorem mapFind_mapAssign {β : Type} (k k' : Int) (v : β) (m : List (Int × β)) :
    mapFind k' (mapAssign k v m) = if k' = k then some v else mapFind k' m := by
  induction m with
  | nil => simp [mapAssign, mapFind]
  | cons e t ih =>
    obtain ⟨a, w⟩ := e
    unfold mapAssign
    by_cases h1 : k < a
    · rw [if_pos h1]
      by_cases h3 : k' = k
      · simp [mapFind, h3]
      · simp [mapFind, h3]
    · rw [if_neg h1]
      by_cases h2 : k = a
      · rw [if_pos h2]
        subst h2
        by_cases h3 : k' = k
        · simp [mapFind, h3]
        · simp [mapFind, h3]
      · rw [if_neg h2]
        by_cases h3 : k' = k
        · subst h3
          simp [mapFind, h2, ih]
        · by_cases h4 : k' = a
          · subst h4
            simp [mapFind, h3]
          · simp [mapFind, h4, h3, ih]

theorem mem_keys_mapAssign {β : Type} (k k' : Int) (v : β) (m : List (Int × β)) :
    k' ∈ (mapAssign k v m).map Prod.fst ↔ k' = k ∨ k' ∈ m.map Prod.fst := by
  induction m with
  | nil => simp [mapAssign]
  | cons e t ih =>
    obtain ⟨a, w⟩ := e
    unfold mapAssign
    split_ifs with h1 h2
    · simp
    · subst h2; simp
    · simp only [List.map_cons, List.mem_cons, ih]; tauto

theorem mapAssign_keys_pairwise {β : Type} (k : Int) (v : β) {m : List (Int × β)}
    (h : (m.map Prod.fst).Pairwise (· < ·)) :
    ((mapAssign k v m).map Prod.fst).Pairwise (· < ·) := by
  induction m with
  | nil => simp [mapAssign]
  | cons e t ih =>
    obtain ⟨a, w⟩ := e
    rw [List.map_cons, List.pairwise_cons] at h
    unfold mapAssign
    split_ifs with h1 h2
    · refine List.pairwise_cons.2 ⟨?_, List.pairwise_cons.2 h⟩
      intro b hb
      rcases List.mem_cons.1 hb with rfl | hb
      · exact h1
      · exact lt_trans h1 (h.1 b hb)
    · subst h2; exact List.pairwise_cons.2 h
    · refine List.pairwise_cons.2 ⟨?_, ih h.2⟩
      intro b hb
      rcases (mem_keys_mapAssign k b v t).1 hb with rfl | hb
      · show a < b
        omega
      · exact h.1 b hb

theorem mapFind_eq_none_iff {β : Type} (k : Int) (m : List (Int × β)) :
    mapFind k m = none ↔ k ∉ m.map Prod.fst := by
  induction m with
  | nil => simp [mapFind]
  | cons e t ih =>
    obtain ⟨a, w⟩ := e
    by_cases h : k = a
    · simp [mapFind, h]
    · simp [mapFind, h, ih]

theorem mem_of_mapFind {β : Type} {k : Int} {v : β} {m : List (Int × β)}
    (h : mapFind k m = some v) : (k, v) ∈ m := by
  induction m with
  | nil => simp [mapFind] at h
  | cons e t ih =>
    obtain ⟨a, w⟩ := e
    by_cases h1 : k = a
    · subst h1
      simp [mapFind] at h
      subst h
      exact List.mem_cons_self _ _
    · simp [mapFind, h1] at h
      exact List.mem_cons_of_mem _ (ih h)

theorem mapFind_of_mem {β : Type} {k : Int} {v : β} {m : List (Int × β)}
    (hs : (m.map Prod.fst).Pairwise (· < ·)) (h : (k, v) ∈ m) : mapFind k m = some v := by
  induction m with
  | nil => exact absurd h (List.not_mem_nil _)
  | cons e t ih =>
    obtain ⟨a, w⟩ := e
    rw [List.map_cons, List.pairwise_cons] at hs
    rcases List.mem_cons.1 h with h1 | h1
    · injection h1 with h2 h3
      subst h2; subst h3
      simp [mapFind]
    · have hk : k ∈ t.map Prod.fst := List.mem_map.2 ⟨(k, v), h1, rfl⟩
      have hlt : a < k := hs.1 k hk
      have hne : ¬ k = a := by omega
      simp [mapFind, hne, ih hs.2 h1]

theorem mapFind_mapSetInsert (k x k' : Int) (m : List (Int × List Int)) :
    mapFind k' (mapSetInsert k x m)
      = if k' = k then some (setInsert x ((mapFind k m).getD [])) else mapFind k' m := by
  unfold mapSetInsert
  exact mapFind_mapAssign _ _ _ _

theorem mapFind_mapInsert_absent {β : Type} (k k' : Int) (v : β) (m : List (Int × β))
    (h : mapFind k m = none) :
    mapFind k' (mapInsert k v m) = if k' = k then some v else mapFind k' m := by
  unfold mapInsert
  rw [h]
  exact mapFind_mapAssign _ _ _ _

theorem sum_mapAssign (k v : Int) {m : List (Int × Int)}
    (hs : (m.map Prod.fst).Pairwise (· < ·)) :
    ((mapAssign k v m).map Prod.snd).sum
      = (m.map Prod.snd).sum - (mapFind k m).getD 0 + v := by
  induction m with
  | nil => simp [mapAssign, mapFind]
  | cons e t ih =>
    obtain ⟨a, w⟩ := e
    rw [List.map_cons, List.pairwise_cons] at hs
    unfold mapAssign
    split_ifs with h1 h2
    · have hne : ¬ k = a := by omega
      have hnone : mapFind k t = none := by
        rw [mapFind_eq_none_iff]
        intro hk
        have := hs.1 k hk
        omega
      simp [mapFind, hne, hnone]
      ring
    · subst h2
      simp [mapFind]
      ring
    · simp [mapFind, h2, ih hs.2]
      ring

/-! ## Raster loops -/

theorem foldl_product {α β σ : Type} (f : σ → α → β → σ) (l1 : List α) (l2 : List β) (s : σ) :
    l1.foldl (fun s a => l2.foldl (fun s b => f s a b) s) s
      = (l1 ×ˢ l2).foldl (fun s p => f s p.1 p.2) s := by
  induction l1 generalizing s with
  | nil => simp
  | cons a t ih =>
    rw [List.foldl_cons, ih, List.product_cons, List.foldl_append, List.foldl_map]

theorem rasterFold_eq {σ : Type} (rows cols : Nat) (body : σ → Nat → Nat → σ) (s : σ) :
    rasterFold rows cols body s = (pixels rows cols).foldl (fun s p => body s p.1 p.2) s :=
  foldl_product body _ _ s

theorem mem_pixels {rows cols r c : Nat} : (r, c) ∈ pixels rows cols ↔ r < rows ∧ c < cols := by
  unfold pixels
  rw [List.mem_product, List.mem_range, List.mem_range]

theorem product_pairwise_before {l1 l2 : List Nat} (h1 : l1.Pairwise (· < ·))
    (h2 : l2.Pairwise (· < ·)) :
    (l1 ×ˢ l2).Pairwise (fun p q => before p.1 p.2 q.1 q.2) := by
  induction l1 with
  | nil => simp
  | cons a t ih =>
    rw [List.pairwise_cons] at h1
    rw [List.product_cons, List.pairwise_append]
    refine ⟨?_, ih h1.2, ?_⟩
    · rw [List.pairwise_map]
      exact h2.imp (fun h => Or.inr ⟨rfl, h⟩)
    · intro p hp q hq
      obtain ⟨b, _, rfl⟩ := List.mem_map.1 hp
      obtain ⟨qr, qc⟩ := q
      rw [List.mem_product] at hq
      exact Or.inl (h1.1 qr hq.1)

theorem pixels_pairwise (rows cols : Nat) :
    (pixels rows cols).Pairwise (fun p q => before p.1 p.2 q.1 q.2) :=
  product_pairwise_before (List.pairwise_lt_range _) (List.pairwise_lt_range _)

theorem before_irrefl (r c : Nat) : ¬ before r c r c := by
  unfold before; omega

theorem before_asymm {r c r' c' : Nat} (h : before r c r' c') : ¬ before r' c' r c := by
  unfold before at *; omega

theorem before_total (r c r' c' : Nat) :
    before r c r' c' ∨ (r = r' ∧ c = c') ∨ before r' c' r c := by
  unfold before; omega

/-- When the raster list is cut at a cell, the part before it holds exactly the
cells of the grid that come earlier in raster order. -/
theorem pixels_split {rows cols : Nat} {pre suf : List (Nat × Nat)} {r c : Nat}
    (h : pixels rows cols = pre ++ (r, c) :: suf) :
    (r < rows ∧ c < cols) ∧
    (∀ r' c', (r', c') ∈ pre ↔ r' < rows ∧ c' < cols ∧ before r' c' r c) := by
  have hpw := pixels_pairwise rows cols
  rw [h, List.pairwise_append, List.pairwise_cons] at hpw
  obtain ⟨_, ⟨hsuf, _⟩, hcross⟩ := hpw
  have hin : (r, c) ∈ pixels rows cols := by rw [h]; simp
  refine ⟨mem_pixels.1 hin, ?_⟩
  intro r' c'
  constructor
  · intro hm
    have hg : (r', c') ∈ pixels rows cols := by rw [h]; exact List.mem_append_left _ hm
    have hg2 := mem_pixels.1 hg
    exact ⟨hg2.1, hg2.2, hcross _ hm _ (List.mem_cons_self _ _)⟩
  · rintro ⟨hr, hc, hb⟩
    have hg : (r', c') ∈ pixels rows cols := mem_pixels.2 ⟨hr, hc⟩
    rw [h] at hg
    rcases List.mem_append.1 hg with hg | hg
    · exact hg
    · exfalso
      rcases List.mem_cons.1 hg with hg | hg
      · injection hg with e1 e2
        subst e1; subst e2
        exact before_irrefl _ _ hb
      · exact before_asymm hb (hsuf _ hg)

/-- Invariant rule for a loop over a list: the invariant speaks about the part
of the list already visited. -/
theorem foldl_invariant {α σ : Type} (f : σ → α → σ) (P : List α → σ → Prop) (l : List α)
    (s0 : σ) (h0 : P [] s0)
    (hstep : ∀ pre a suf s, l = pre ++ a :: suf → P pre s → P (pre ++ [a]) (f s a)) :
    P l (l.foldl f s0) := by
  suffices H : ∀ suf pre s, l = pre ++ suf → P pre s → P l (suf.foldl f s) by
    exact H l [] s0 rfl h0
  intro suf
  induction suf with
  | nil =>
    intro pre s hl hp
    rw [List.append_nil] at hl
    subst hl
    exact hp
  | cons a t ih =>
    intro pre s hl hp
    rw [List.foldl_cons]
    apply ih (pre ++ [a]) (f s a)
    · rw [hl, List.append_assoc]; rfl
    · exact hstep pre a t s hl hp

/-- Invariant rule for the raster loops. -/
theorem rasterFold_invariant {σ : Type} (rows cols : Nat) (body : σ → Nat → Nat → σ)
    (P : List (Nat × Nat) → σ → Prop) (s0 : σ) (h0 : P [] s0)
    (hstep : ∀ pre r c suf s, pixels rows cols = pre ++ (r, c) :: suf → P pre s →
      P (pre ++ [(r, c)]) (body s r c)) :
    P (pixels rows cols) (rasterFold rows cols body s0) := by
  rw [rasterFold_eq]
  apply foldl_invariant (fun s p => body s p.1 p.2) P (pixels rows cols) s0 h0
  intro pre a suf s hl hp
  obtain ⟨r, c⟩ := a
  exact hstep pre r c suf s hl hp

theorem mem_intRange {lo hi x : Int} : x ∈ intRange lo hi ↔ lo ≤ x ∧ x ≤ hi := by
  unfold intRange
  constructor
  · intro h
    obtain ⟨i, hi', hx⟩ := List.mem_map.1 h
    have := List.mem_range.1 hi'
    omega
  · rintro ⟨h1, h2⟩
    apply List.mem_map.2
    refine ⟨(x - lo).toNat, List.mem_range.2 (by omega), by omega⟩

/-! ## The window scan and the recording of equivalences -/

theorem buffer_lo : -BUFFER_SIZE / 2 = -10 := by decide

theorem buffer_hi : BUFFER_SIZE / 2 = 10 := by decide

theorem clamp_eq_false {rows cols : Nat} {row col : Int} :
    clamp rows cols row col = false ↔ 0 ≤ row ∧ row < rows ∧ 0 ≤ col ∧ col < cols := by
  unfold clamp
  simp only [Bool.or_eq_false_iff, decide_eq_false_iff_not]
  omega

theorem scanCell_hit {rows cols : Nat} {labels : Nat → Nat → Int} {row col : Nat}
    (acc : List Int × Int) {bc br : Int}
    (hc : clamp rows cols (row + br) (col + bc) = false)
    (hl : labels (row + br).toNat (col + bc).toNat ≠ 0) :
    scanCell rows cols labels row col acc bc br
      = (setInsert (labels (row + br).toNat (col + bc).toNat) acc.1,
          if labels (row + br).toNat (col + bc).toNat < acc.2
            then labels (row + br).toNat (col + bc).toNat else acc.2) := by
  unfold scanCell
  rw [hc]
  simp only [Bool.not_false, if_true]
  rw [if_pos hl]

theorem scanCell_miss {rows cols : Nat} {labels : Nat → Nat → Int} {row col : Nat}
    (acc : List Int × Int) {bc br : Int}
    (h : clamp rows cols (row + br) (col + bc) = false →
      labels (row + br).toNat (col + bc).toNat = 0) :
    scanCell rows cols labels row col acc bc br = acc := by
  unfold scanCell
  cases hc : clamp rows cols (row + br) (col + bc)
  · simp only [Bool.not_false, if_true]
    rw [if_neg (not_not.2 (h hc))]
  · simp

/-- The window scan collects exactly the nonzero labels of the grid cells whose
offsets from the pixel are at most 10, and tracks their minimum, capped by
`INT_MAX`. -/
theorem scanWindow_spec (rows cols : Nat) (labels : Nat → Nat → Int) (row col : Nat) :
    (∀ x, x ∈ (scanWindow rows cols labels row col).1 ↔
      x ≠ 0 ∧ ∃ r' c', r' < rows ∧ c' < cols ∧ near row col r' c' ∧ labels r' c' = x) ∧
    (scanWindow rows cols labels row col).1.Pairwise (· < ·) ∧
    (∀ x ∈ (scanWindow rows cols labels row col).1,
      (scanWindow rows cols labels row col).2 ≤ x) ∧
    (scanWindow rows cols labels row col).2 ≤ INT_MAX ∧
    ((scanWindow rows cols labels row col).2 = INT_MAX ∨
      (scanWindow rows cols labels row col).2 ∈ (scanWindow rows cols labels row col).1) := by
  have key : ∀ l : List (Int × Int),
      (∀ x, x ∈ (l.foldl (fun acc p => scanCell rows cols labels row col acc p.1 p.2)
          ([], INT_MAX)).1 ↔
        x ≠ 0 ∧ ∃ bc br, (bc, br) ∈ l ∧ clamp rows cols (row + br) (col + bc) = false ∧
          labels (row + br).toNat (col + bc).toNat = x) ∧
      (l.foldl (fun acc p => scanCell rows cols labels row col acc p.1 p.2)
          ([], INT_MAX)).1.Pairwise (· < ·) ∧
      (∀ x ∈ (l.foldl (fun acc p => scanCell rows cols labels row col acc p.1 p.2)
          ([], INT_MAX)).1,
        (l.foldl (fun acc p => scanCell rows cols labels row col acc p.1 p.2)
          ([], INT_MAX)).2 ≤ x) ∧
      (l.foldl (fun acc p => scanCell rows cols labels row col acc p.1 p.2)
          ([], INT_MAX)).2 ≤ INT_MAX ∧
      ((l.foldl (fun acc p => scanCell rows cols labels row col acc p.1 p.2)
          ([], INT_MAX)).2 = INT_MAX ∨
        (l.foldl (fun acc p => scanCell rows cols labels row col acc p.1 p.2)
          ([], INT_MAX)).2 ∈
        (l.foldl (fun acc p => scanCell rows cols labels row col acc p.1 p.2)
          ([], INT_MAX)).1) := by
    intro l
    apply foldl_invariant (fun acc p => scanCell rows cols labels row col acc p.1 p.2)
      (fun pre acc =>
        (∀ x, x ∈ acc.1 ↔
          x ≠ 0 ∧ ∃ bc br, (bc, br) ∈ pre ∧ clamp rows cols (row + br) (col + bc) = false ∧
            labels (row + br).toNat (col + bc).toNat = x) ∧
        acc.1.Pairwise (· < ·) ∧ (∀ x ∈ acc.1, acc.2 ≤ x) ∧ acc.2 ≤ INT_MAX ∧
        (acc.2 = INT_MAX ∨ acc.2 ∈ acc.1)) l
    · refine ⟨?_, List.Pairwise.nil, ?_, le_refl _, Or.inl rfl⟩
      · intro x
        simp
      · intro x hx
        exact absurd hx (List.not_mem_nil _)
    · rintro pre ⟨bc, br⟩ suf ⟨nb, sm⟩ _ ⟨h1, h2, h3, h4, h5⟩
      simp only at h1 h2 h3 h4 h5
      by_cases hc : clamp rows cols (row + br) (col + bc) = false ∧
          labels (row + br).toNat (col + bc).toNat ≠ 0
      · obtain ⟨hc, hl⟩ := hc
        rw [scanCell_hit _ hc hl]
        refine ⟨?_, setInsert_pairwise h2, ?_, ?_, ?_⟩
        · intro x
          show x ∈ setInsert _ nb ↔ _
          rw [mem_setInsert, h1 x]
          constructor
          · rintro (rfl | ⟨hx, bc', br', hm, hcl, hlab⟩)
            · exact ⟨hl, bc, br, List.mem_append_right _ (List.mem_singleton.2 rfl), hc, rfl⟩
            · exact ⟨hx, bc', br', List.mem_append_left _ hm, hcl, hlab⟩
          · rintro ⟨hx, bc', br', hm, hcl, hlab⟩
            rcases List.mem_append.1 hm with hm | hm
            · exact Or.inr ⟨hx, bc', br', hm, hcl, hlab⟩
            · rw [List.mem_singleton] at hm
              injection hm with e1 e2
              subst e1; subst e2
              exact Or.inl hlab.symm
        · intro x hx
          show (if _ < sm then _ else sm) ≤ x
          rcases mem_setInsert.1 hx with rfl | hx
          · split_ifs <;> omega
          · have := h3 x hx
            split_ifs <;> omega
        · show (if _ < sm then _ else sm) ≤ INT_MAX
          split_ifs <;> omega
        · show (if _ < sm then _ else sm) = INT_MAX ∨ (if _ < sm then _ else sm) ∈ setInsert _ nb
          split_ifs with hlt
          · exact Or.inr (mem_setInsert.2 (Or.inl rfl))
          · rcases h5 with h5 | h5
            · exact Or.inl h5
            · exact Or.inr (mem_setInsert.2 (Or.inr h5))
      · rw [scanCell_miss]
        swap
        · intro h
          by_contra h'
          exact hc ⟨h, h'⟩
        refine ⟨?_, h2, h3, h4, h5⟩
        intro x
        rw [h1 x]
        constructor
        · rintro ⟨hx, bc', br', hm, hcl, hlab⟩
          exact ⟨hx, bc', br', List.mem_append_left _ hm, hcl, hlab⟩
        · rintro ⟨hx, bc', br', hm, hcl, hlab⟩
          refine ⟨hx, bc', br', ?_, hcl, hlab⟩
          rcases List.mem_append.1 hm with hm | hm
          · exact hm
          · exfalso
            rw [List.mem_singleton] at hm
            injection hm with e1 e2
            subst e1; subst e2
            exact hc ⟨hcl, hlab ▸ hx⟩
  have hsw : scanWindow rows cols labels row col
      = ((intRange (-10) 10) ×ˢ (intRange (-10) 10)).foldl
          (fun acc p => scanCell rows cols labels row col acc p.1 p.2) ([], INT_MAX) := by
    unfold scanWindow
    rw [buffer_lo, buffer_hi]
    exact foldl_product (fun acc bc br => scanCell rows cols labels row col acc bc br) _ _ _
  rw [hsw]
  obtain ⟨k1, k2, k3, k4, k5⟩ := key ((intRange (-10) 10) ×ˢ (intRange (-10) 10))
  refine ⟨?_, k2, k3, k4, k5⟩
  intro x
  rw [k1 x]
  constructor
  · rintro ⟨hx, bc, br, hm, hcl, hlab⟩
    rw [List.mem_product, mem_intRange, mem_intRange] at hm
    rw [clamp_eq_false] at hcl
    refine ⟨hx, (row + br).toNat, (col + bc).toNat, ?_, ?_, ?_, hlab⟩
    · omega
    · omega
    · unfold near; omega
  · rintro ⟨hx, r', c', hr, hc, hn, hlab⟩
    unfold near at hn
    refine ⟨hx, (c' : Int) - col, (r' : Int) - row, ?_, ?_, ?_⟩
    · rw [List.mem_product, mem_intRange, mem_intRange]
      omega
    · rw [clamp_eq_false]
      omega
    · have e1 : ((row : Int) + ((r' : Int) - row)).toNat = r' := by omega
      have e2 : ((col : Int) + ((c' : Int) - col)).toNat = c' := by omega
      rw [e1, e2]
      exact hlab

theorem related_mapSetInsert (k x a b : Int) (lm : List (Int × List Int)) :
    related (mapSetInsert k x lm) a b ↔ related lm a b ∨ (a = k ∧ b = x) := by
  unfold related
  rw [mapFind_mapSetInsert]
  by_cases h : a = k
  · subst h
    simp only [if_true, Option.getD_some, mem_setInsert]
    tauto
  · simp only [h, if_false, false_and, or_false]

theorem related_foldl_inner (t a b : Int) (l : List Int) (lm : List (Int × List Int)) :
    related (l.foldl (fun lm tmp2 => mapSetInsert t tmp2 lm) lm) a b
      ↔ related lm a b ∨ (a = t ∧ b ∈ l) := by
  induction l generalizing lm with
  | nil => simp
  | cons y l ih =>
    rw [List.foldl_cons, ih, related_mapSetInsert, List.mem_cons]
    tauto

theorem related_foldl_outer (nb : List Int) (sm a b : Int) (l : List Int)
    (lm : List (Int × List Int)) :
    related (l.foldl (fun lm tmp =>
        mapSetInsert tmp sm (nb.foldl (fun lm tmp2 => mapSetInsert tmp tmp2 lm) lm)) lm) a b
      ↔ related lm a b ∨ (a ∈ l ∧ (b ∈ nb ∨ b = sm)) := by
  induction l generalizing lm with
  | nil => simp
  | cons y l ih =>
    rw [List.foldl_cons, ih, related_mapSetInsert, related_foldl_inner, List.mem_cons]
    tauto

/-- What lines 54-60 record: every neighbour is related to every neighbour and
to `smallestLabel`, and `smallestLabel` to itself. -/
theorem related_mergeNeighbours (nb : List Int) (sm a b : Int) (lm : List (Int × List Int)) :
    related (mergeNeighbours nb sm lm) a b
      ↔ related lm a b ∨ (a ∈ nb ∧ (b ∈ nb ∨ b = sm)) ∨ (a = sm ∧ b = sm) := by
  unfold mergeNeighbours
  rw [related_mapSetInsert, related_foldl_outer]
  tauto

/-- Every set stored in the map is ascending and not empty. -/
theorem wf_mapSetInsert {k x : Int} {lm : List (Int × List Int)}
    (h : ∀ a s, mapFind a lm = some s → s.Pairwise (· < ·) ∧ s ≠ []) :
    ∀ a s, mapFind a (mapSetInsert k x lm) = some s → s.Pairwise (· < ·) ∧ s ≠ [] := by
  intro a s hs
  rw [mapFind_mapSetInsert] at hs
  by_cases hk : a = k
  · rw [if_pos hk] at hs
    injection hs with hs
    subst hs
    refine ⟨setInsert_pairwise ?_, setInsert_ne_nil _ _⟩
    cases hf : mapFind k lm with
    | none => simp
    | some s' => exact (h k s' hf).1
  · rw [if_neg hk] at hs
    exact h a s hs

theorem wf_foldl_inner (t : Int) (l : List Int) {lm : List (Int × List Int)}
    (h : ∀ a s, mapFind a lm = some s → s.Pairwise (· < ·) ∧ s ≠ []) :
    ∀ a s, mapFind a (l.foldl (fun lm tmp2 => mapSetInsert t tmp2 lm) lm) = some s →
      s.Pairwise (· < ·) ∧ s ≠ [] := by
  induction l generalizing lm with
  | nil => exact h
  | cons y l ih =>
    rw [List.foldl_cons]
    exact ih (wf_mapSetInsert h)

theorem wf_foldl_outer (nb : List Int) (sm : Int) (l : List Int) {lm : List (Int × List Int)}
    (h : ∀ a s, mapFind a lm = some s → s.Pairwise (· < ·) ∧ s ≠ []) :
    ∀ a s, mapFind a (l.foldl (fun lm tmp =>
        mapSetInsert tmp sm (nb.foldl (fun lm tmp2 => mapSetInsert tmp tmp2 lm) lm)) lm)
        = some s → s.Pairwise (· < ·) ∧ s ≠ [] := by
  induction l generalizing lm with
  | nil => exact h
  | cons y l ih =>
    rw [List.foldl_cons]
    exact ih (wf_mapSetInsert (wf_foldl_inner y nb h))

theorem wf_mergeNeighbours (nb : List Int) (sm : Int) {lm : List (Int × List Int)}
    (h : ∀ a s, mapFind a lm = some s → s.Pairwise (· < ·) ∧ s ≠ []) :
    ∀ a s, mapFind a (mergeNeighbours nb sm lm) = some s → s.Pairwise (· < ·) ∧ s ≠ [] := by
  unfold mergeNeighbours
  exact wf_mapSetInsert (wf_foldl_outer nb sm nb h)

/-! ## The first pass -/

theorem mem_snoc {pre : List (Nat × Nat)} {r c r' c' : Nat} :
    (r', c') ∈ pre ++ [(r, c)] ↔ (r', c') ∈ pre ∨ (r' = r ∧ c' = c) := by
  rw [List.mem_append, List.mem_singleton, Prod.mk.injEq]

theorem setAt_same (g : Nat → Nat → Int) (r c : Nat) (v : Int) : setAt g r c v r c = v := by
  unfold setAt
  simp

theorem setAt_other (g : Nat → Nat → Int) (r c : Nat) (v : Int) {r' c' : Nat}
    (h : ¬ (r' = r ∧ c' = c)) : setAt g r c v r' c' = g r' c' := by
  unfold setAt
  rw [if_neg h]

theorem before_trans {r1 c1 r2 c2 r3 c3 : Nat} (h1 : before r1 c1 r2 c2)
    (h2 : before r2 c2 r3 c3) : before r1 c1 r3 c3 := by
  unfold before at *
  omega

theorem firstInv_init (m : Mask) : FirstInv m [] ⟨1, fun _ _ => 0, []⟩ where
  zero := by intro r c h; exact absurd rfl h
  pos := by intro r c h; exact absurd h (List.not_mem_nil _)
  cur_pos := le_refl _
  wf := by intro k set h; simp [mapFind] at h
  rel_range := by intro a b h; simp [related, mapFind] at h
  self := by intro r c h; exact absurd h (List.not_mem_nil _)
  min_le := by intro r c h; exact absurd h (List.not_mem_nil _)
  min_mem := by intro r c h; exact absurd h (List.not_mem_nil _)
  link := by intro r c h; exact absurd h (List.not_mem_nil _)
  fresh := by intro j h1 h2; simp only at h2; omega
  root_gt := by intro r c h; exact absurd h (List.not_mem_nil _)
  root_next := by intro r c h; exact absurd h (List.not_mem_nil _)
  rel_only := by intro a b h; simp [related, mapFind] at h

/-- A background pixel leaves the state as it is. -/
theorem firstInv_skip (m : Mask) {pre suf : List (Nat × Nat)} {r c : Nat} {s : LabelState}
    (_hsplit : pixels m.rows m.cols = pre ++ (r, c) :: suf) (hpx : m.px r c = 0)
    (inv : FirstInv m pre s) : FirstInv m (pre ++ [(r, c)]) s := by
  have hold : ∀ r' c', (r', c') ∈ pre ++ [(r, c)] → m.px r' c' ≠ 0 → (r', c') ∈ pre := by
    intro r' c' h hne
    rcases mem_snoc.1 h with h | ⟨rfl, rfl⟩
    · exact h
    · exact absurd hpx hne
  have holdr : ∀ r' c', (r', c') ∈ pre ++ [(r, c)] → isRoot m r' c' → (r', c') ∈ pre :=
    fun r' c' h hr => hold r' c' h hr.1.2.2
  refine
    { zero := ?_, pos := ?_, cur_pos := inv.cur_pos, wf := inv.wf, rel_range := inv.rel_range,
      self := ?_, min_le := ?_, min_mem := ?_, link := ?_, fresh := ?_, root_gt := ?_,
      root_next := ?_, rel_only := ?_ }
  · intro r' c' h
    exact ⟨List.mem_append_left _ (inv.zero r' c' h).1, (inv.zero r' c' h).2⟩
  · intro r' c' h hne
    exact inv.pos r' c' (hold r' c' h hne) hne
  · intro r' c' h hne
    exact inv.self r' c' (hold r' c' h hne) hne
  · intro r' c' h hne
    exact inv.min_le r' c' (hold r' c' h hne) hne
  · intro r' c' h hne
    exact inv.min_mem r' c' (hold r' c' h hne) hne
  · intro r' c' h hne
    exact inv.link r' c' (hold r' c' h hne) hne
  · intro j h1 h2
    obtain ⟨r', c', h3, h4, h5⟩ := inv.fresh j h1 h2
    exact ⟨r', c', List.mem_append_left _ h3, h4, h5⟩
  · intro r' c' h hr
    exact inv.root_gt r' c' (holdr r' c' h hr) hr
  · intro r' c' h hr
    exact inv.root_next r' c' (holdr r' c' h hr) hr
  · intro a b h
    rcases inv.rel_only a b h with ⟨h1, r', c', h2, h3⟩ | ⟨r', c', h2, h3⟩
    · exact Or.inl ⟨h1, r', c', List.mem_append_left _ h2, h3⟩
    · exact Or.inr ⟨r', c', List.mem_append_left _ h2, h3⟩

theorem split_facts (m : Mask) {pre suf : List (Nat × Nat)} {r c : Nat}
    (hsplit : pixels m.rows m.cols = pre ++ (r, c) :: suf) :
    (r < m.rows ∧ c < m.cols) ∧ (∀ r' c', (r', c') ∈ pre → ¬ (r' = r ∧ c' = c)) ∧
    (∀ r' c' r'' c'', (r', c') ∈ pre ++ [(r, c)] → fg m r'' c'' → before r'' c'' r' c' →
      (r'', c'') ∈ pre) := by
  obtain ⟨hin, hpre⟩ := pixels_split hsplit
  refine ⟨hin, ?_, ?_⟩
  · rintro r' c' h ⟨rfl, rfl⟩
    exact before_irrefl _ _ ((hpre _ _).1 h).2.2
  · intro r' c' r'' c'' h hf hb
    rw [hpre]
    refine ⟨hf.1, hf.2.1, ?_⟩
    rcases mem_snoc.1 h with h | ⟨rfl, rfl⟩
    · exact before_trans hb ((hpre _ _).1 h).2.2
    · exact hb

/-- A foreground pixel that sees no earlier foreground pixel takes a new label. -/
theorem firstInv_root (m : Mask) {pre suf : List (Nat × Nat)} {r c : Nat} {s : LabelState}
    (hsplit : pixels m.rows m.cols = pre ++ (r, c) :: suf) (hpx : m.px r c ≠ 0)
    (hroot : ∀ r' c', ¬ seen m r c r' c') (inv : FirstInv m pre s) :
    FirstInv m (pre ++ [(r, c)])
      ⟨s.currentLabel + 1, setAt s.labels r c s.currentLabel,
        mapInsert s.currentLabel [s.currentLabel] s.labelMap⟩ := by
  obtain ⟨hin, hnot, hbef⟩ := split_facts m hsplit
  have hfg : fg m r c := ⟨hin.1, hin.2, hpx⟩
  have hisroot : isRoot m r c := ⟨hfg, hroot⟩
  have hcur := inv.cur_pos
  have hLold : ∀ r' c', (r', c') ∈ pre →
      setAt s.labels r c s.currentLabel r' c' = s.labels r' c' :=
    fun r' c' h => setAt_other _ _ _ _ (hnot r' c' h)
  have hLnew : setAt s.labels r c s.currentLabel r c = s.currentLabel := setAt_same _ _ _ _
  have hseenpre : ∀ r' c' r'' c'', (r', c') ∈ pre → seen m r' c' r'' c'' → (r'', c'') ∈ pre :=
    fun r' c' r'' c'' h hs => hbef r' c' r'' c'' (List.mem_append_left _ h) hs.1 hs.2.1
  have hnone : mapFind s.currentLabel s.labelMap = none := by
    cases hf : mapFind s.currentLabel s.labelMap with
    | none => rfl
    | some set =>
      exfalso
      have hne := (inv.wf _ _ hf).2
      have hmem := headD_mem hne
      have hrel : related s.labelMap s.currentLabel (set.headD 0) := by
        unfold related
        rw [hf]
        exact hmem
      have := (inv.rel_range _ _ hrel).2.1
      omega
  have hfind : ∀ k, mapFind k (mapInsert s.currentLabel [s.currentLabel] s.labelMap)
      = if k = s.currentLabel then some [s.currentLabel] else mapFind k s.labelMap :=
    fun k => mapFind_mapInsert_absent _ _ _ _ hnone
  have hrel : ∀ a b, related (mapInsert s.currentLabel [s.currentLabel] s.labelMap) a b ↔
      related s.labelMap a b ∨ (a = s.currentLabel ∧ b = s.currentLabel) := by
    intro a b
    unfold related
    rw [hfind]
    by_cases h : a = s.currentLabel
    · subst h
      rw [if_pos rfl, hnone]
      simp
    · rw [if_neg h]
      simp [h]
  refine
    { zero := ?_, pos := ?_, cur_pos := ?_, wf := ?_, rel_range := ?_,
      self := ?_, min_le := ?_, min_mem := ?_, link := ?_, fresh := ?_, root_gt := ?_,
      root_next := ?_, rel_only := ?_ }
  · intro r' c' h
    by_cases e : r' = r ∧ c' = c
    · obtain ⟨rfl, rfl⟩ := e
      exact ⟨mem_snoc.2 (Or.inr ⟨rfl, rfl⟩), hpx⟩
    · have h' : s.labels r' c' ≠ 0 := by
        rw [← setAt_other s.labels r c s.currentLabel e]
        exact h
      exact ⟨List.mem_append_left _ (inv.zero _ _ h').1, (inv.zero _ _ h').2⟩
  · intro r' c' h hne
    show 0 < setAt s.labels r c s.currentLabel r' c' ∧
      setAt s.labels r c s.currentLabel r' c' < s.currentLabel + 1
    rcases mem_snoc.1 h with h | ⟨rfl, rfl⟩
    · rw [hLold _ _ h]
      have := inv.pos _ _ h hne
      omega
    · rw [hLnew]
      omega
  · show 1 ≤ s.currentLabel + 1
    omega
  · intro k set h
    rw [hfind] at h
    by_cases e : k = s.currentLabel
    · rw [if_pos e] at h
      injection h with h
      subst h
      simp
    · rw [if_neg e] at h
      exact inv.wf k set h
  · intro a b h
    show 0 < a ∧ a < s.currentLabel + 1 ∧ 0 < b ∧ b < s.currentLabel + 1
    rcases (hrel a b).1 h with h | ⟨rfl, rfl⟩
    · have := inv.rel_range a b h
      omega
    · omega
  · intro r' c' h hne
    show related _ (setAt s.labels r c s.currentLabel r' c')
      (setAt s.labels r c s.currentLabel r' c')
    rw [hrel]
    rcases mem_snoc.1 h with h | ⟨rfl, rfl⟩
    · rw [hLold _ _ h]
      exact Or.inl (inv.self _ _ h hne)
    · rw [hLnew]
      exact Or.inr ⟨rfl, rfl⟩
  · intro r' c' h hne r'' c'' hs
    show setAt s.labels r c s.currentLabel r' c' ≤ setAt s.labels r c s.currentLabel r'' c''
    rcases mem_snoc.1 h with h | ⟨rfl, rfl⟩
    · rw [hLold _ _ h, hLold _ _ (hseenpre _ _ _ _ h hs)]
      exact inv.min_le _ _ h hne _ _ hs
    · exact absurd hs (hroot _ _)
  · intro r' c' h hne r'' c'' hs
    show setAt s.labels r c s.currentLabel r' c' ≤ INT_MAX ∧
      (setAt s.labels r c s.currentLabel r' c' = INT_MAX ∨
        ∃ r3 c3, seen m r' c' r3 c3 ∧
          setAt s.labels r c s.currentLabel r3 c3 = setAt s.labels r c s.currentLabel r' c')
    rcases mem_snoc.1 h with h | ⟨rfl, rfl⟩
    · rw [hLold _ _ h]
      obtain ⟨h1, h2⟩ := inv.min_mem _ _ h hne _ _ hs
      refine ⟨h1, ?_⟩
      rcases h2 with h2 | ⟨r3, c3, h3, h4⟩
      · exact Or.inl h2
      · exact Or.inr ⟨r3, c3, h3, by rw [hLold _ _ (hseenpre _ _ _ _ h h3)]; exact h4⟩
    · exact absurd hs (hroot _ _)
  · intro r' c' h hne r'' c'' hs
    show related _ (setAt s.labels r c s.currentLabel r'' c'')
        (setAt s.labels r c s.currentLabel r' c') ∧
      ∀ r3 c3, seen m r' c' r3 c3 →
        related _ (setAt s.labels r c s.currentLabel r'' c'')
          (setAt s.labels r c s.currentLabel r3 c3)
    rcases mem_snoc.1 h with h | ⟨rfl, rfl⟩
    · rw [hLold _ _ h, hLold _ _ (hseenpre _ _ _ _ h hs)]
      obtain ⟨h1, h2⟩ := inv.link _ _ h hne _ _ hs
      refine ⟨(hrel _ _).2 (Or.inl h1), ?_⟩
      intro r3 c3 h3
      rw [hLold _ _ (hseenpre _ _ _ _ h h3)]
      exact (hrel _ _).2 (Or.inl (h2 _ _ h3))
    · exact absurd hs (hroot _ _)
  · intro j h1 h2
    have h2' : j < s.currentLabel + 1 := h2
    by_cases e : j < s.currentLabel
    · obtain ⟨r', c', h3, h4, h5⟩ := inv.fresh j h1 e
      exact ⟨r', c', List.mem_append_left _ h3, h4, by
        show setAt s.labels r c s.currentLabel r' c' = j
        rw [hLold _ _ h3]; exact h5⟩
    · refine ⟨r, c, mem_snoc.2 (Or.inr ⟨rfl, rfl⟩), hisroot, ?_⟩
      show setAt s.labels r c s.currentLabel r c = j
      rw [hLnew]
      omega
  · intro r' c' h hr r'' c'' hf hb
    show setAt s.labels r c s.currentLabel r'' c'' < setAt s.labels r c s.currentLabel r' c'
    have hpre2 := hbef _ _ _ _ h hf hb
    rw [hLold _ _ hpre2]
    rcases mem_snoc.1 h with h | ⟨rfl, rfl⟩
    · rw [hLold _ _ h]
      exact inv.root_gt _ _ h hr _ _ hf hb
    · rw [hLnew]
      exact (inv.pos _ _ hpre2 hf.2.2).2
  · intro r' c' h hr j h1 h2
    have h2' : j < setAt s.labels r c s.currentLabel r' c' := h2
    rcases mem_snoc.1 h with h | ⟨rfl, rfl⟩
    · rw [hLold _ _ h] at h2'
      obtain ⟨r3, c3, h3, h4, h5⟩ := inv.root_next _ _ h hr j h1 h2'
      refine ⟨r3, c3, h3, h4, ?_⟩
      show setAt s.labels r c s.currentLabel r3 c3 = j
      rw [hLold _ _ (hbef _ _ _ _ (List.mem_append_left _ h) h3.1 h4)]
      exact h5
    · rw [hLnew] at h2'
      obtain ⟨r3, c3, h3, h4, h5⟩ := inv.fresh j h1 h2'
      have hb : before r3 c3 r' c' := ((pixels_split hsplit).2 _ _).1 h3 |>.2.2
      refine ⟨r3, c3, h4, hb, ?_⟩
      show setAt s.labels r' c' s.currentLabel r3 c3 = j
      rw [hLold _ _ h3]
      exact h5
  · intro a b h
    rcases (hrel a b).1 h with h | ⟨rfl, rfl⟩
    · rcases inv.rel_only a b h with ⟨h1, r', c', h2, h3, h4⟩ | ⟨r', c', h2, h3, r3, c3, h4, h5, h6⟩
      · exact Or.inl ⟨h1, r', c', List.mem_append_left _ h2, h3, by
          show setAt s.labels r c s.currentLabel r' c' = a
          rw [hLold _ _ h2]; exact h4⟩
      · refine Or.inr ⟨r', c', List.mem_append_left _ h2, h3, r3, c3, h4, ?_, ?_⟩
        · show setAt s.labels r c s.currentLabel r3 c3 = a
          rw [hLold _ _ (hseenpre _ _ _ _ h2 h4)]; exact h5
        · rcases h6 with h6 | ⟨r4, c4, h7, h8⟩
          · left
            show setAt s.labels r c s.currentLabel r' c' = b
            rw [hLold _ _ h2]; exact h6
          · right
            refine ⟨r4, c4, h7, ?_⟩
            show setAt s.labels r c s.currentLabel r4 c4 = b
            rw [hLold _ _ (hseenpre _ _ _ _ h2 h7)]; exact h8
    · refine Or.inl ⟨rfl, r, c, mem_snoc.2 (Or.inr ⟨rfl, rfl⟩), hpx, ?_⟩
      show setAt s.labels r c s.currentLabel r c = s.currentLabel
      exact hLnew

/-- A foreground pixel that sees earlier foreground pixels takes `smallestLabel`
and records the equivalences of its window. -/
theorem firstInv_join (m : Mask) {pre suf : List (Nat × Nat)} {r c : Nat} {s : LabelState}
    (hsplit : pixels m.rows m.cols = pre ++ (r, c) :: suf) (hpx : m.px r c ≠ 0)
    (inv : FirstInv m pre s) (nb : List Int) (sm : Int)
    (hnb : ∀ x, x ∈ nb ↔ ∃ r' c', seen m r c r' c' ∧ s.labels r' c' = x)
    (hne : nb ≠ []) (hsm1 : ∀ x ∈ nb, sm ≤ x) (hsm2 : sm ≤ INT_MAX)
    (hsm3 : sm = INT_MAX ∨ sm ∈ nb) :
    FirstInv m (pre ++ [(r, c)])
      ⟨s.currentLabel, setAt s.labels r c sm, mergeNeighbours nb sm s.labelMap⟩ := by
  obtain ⟨hin, hnot, hbef⟩ := split_facts m hsplit
  have hLold : ∀ r' c', (r', c') ∈ pre → setAt s.labels r c sm r' c' = s.labels r' c' :=
    fun r' c' h => setAt_other _ _ _ _ (hnot r' c' h)
  have hLnew : setAt s.labels r c sm r c = sm := setAt_same _ _ _ _
  have hseenpre : ∀ r' c' r'' c'', (r', c') ∈ pre → seen m r' c' r'' c'' → (r'', c'') ∈ pre :=
    fun r' c' r'' c'' h hs => hbef r' c' r'' c'' (List.mem_append_left _ h) hs.1 hs.2.1
  have hseencur : ∀ r'' c'', seen m r c r'' c'' → (r'', c'') ∈ pre :=
    fun r'' c'' hs => hbef r c r'' c'' (mem_snoc.2 (Or.inr ⟨rfl, rfl⟩)) hs.1 hs.2.1
  have hnbrange : ∀ x ∈ nb, 0 < x ∧ x < s.currentLabel := by
    intro x hx
    obtain ⟨r', c', h1, h2⟩ := (hnb x).1 hx
    rw [← h2]
    exact inv.pos _ _ (hseencur _ _ h1) h1.1.2.2
  obtain ⟨x0, hx0⟩ : ∃ x0, x0 ∈ nb := by
    cases nb with
    | nil => exact absurd rfl hne
    | cons a t => exact ⟨a, List.mem_cons_self _ _⟩
  have hsm_lt : sm < s.currentLabel := by
    have := hsm1 x0 hx0
    have := (hnbrange x0 hx0).2
    omega
  have hsm_pos : 0 < sm := by
    rcases hsm3 with h | h
    · rw [h]; decide
    · exact (hnbrange sm h).1
  have hrel := fun a b => related_mergeNeighbours nb sm a b s.labelMap
  refine
    { zero := ?_, pos := ?_, cur_pos := inv.cur_pos, wf := wf_mergeNeighbours nb sm inv.wf,
      rel_range := ?_, self := ?_, min_le := ?_, min_mem := ?_, link := ?_, fresh := ?_,
      root_gt := ?_, root_next := ?_, rel_only := ?_ }
  · intro r' c' h
    by_cases e : r' = r ∧ c' = c
    · obtain ⟨rfl, rfl⟩ := e
      exact ⟨mem_snoc.2 (Or.inr ⟨rfl, rfl⟩), hpx⟩
    · have h' : s.labels r' c' ≠ 0 := by
        rw [← setAt_other s.labels r c sm e]
        exact h
      exact ⟨List.mem_append_left _ (inv.zero _ _ h').1, (inv.zero _ _ h').2⟩
  · intro r' c' h hne'
    show 0 < setAt s.labels r c sm r' c' ∧ setAt s.labels r c sm r' c' < s.currentLabel
    rcases mem_snoc.1 h with h | ⟨rfl, rfl⟩
    · rw [hLold _ _ h]
      exact inv.pos _ _ h hne'
    · rw [hLnew]
      exact ⟨hsm_pos, hsm_lt⟩
  · intro a b h
    show 0 < a ∧ a < s.currentLabel ∧ 0 < b ∧ b < s.currentLabel
    rcases (hrel a b).1 h with h | ⟨ha, hb | rfl⟩ | ⟨rfl, rfl⟩
    · exact inv.rel_range a b h
    · exact ⟨(hnbrange a ha).1, (hnbrange a ha).2, (hnbrange b hb).1, (hnbrange b hb).2⟩
    · exact ⟨(hnbrange a ha).1, (hnbrange a ha).2, hsm_pos, hsm_lt⟩
    · exact ⟨hsm_pos, hsm_lt, hsm_pos, hsm_lt⟩
  · intro r' c' h hne'
    show related _ (setAt s.labels r c sm r' c') (setAt s.labels r c sm r' c')
    rw [hrel]
    rcases mem_snoc.1 h with h | ⟨rfl, rfl⟩
    · rw [hLold _ _ h]
      exact Or.inl (inv.self _ _ h hne')
    · rw [hLnew]
      exact Or.inr (Or.inr ⟨rfl, rfl⟩)
  · intro r' c' h hne' r'' c'' hs
    show setAt s.labels r c sm r' c' ≤ setAt s.labels r c sm r'' c''
    rcases mem_snoc.1 h with h | ⟨rfl, rfl⟩
    · rw [hLold _ _ h, hLold _ _ (hseenpre _ _ _ _ h hs)]
      exact inv.min_le _ _ h hne' _ _ hs
    · rw [hLnew, hLold _ _ (hseencur _ _ hs)]
      exact hsm1 _ ((hnb _).2 ⟨r'', c'', hs, rfl⟩)
  · intro r' c' h hne' r'' c'' hs
    show setAt s.labels r c sm r' c' ≤ INT_MAX ∧
      (setAt s.labels r c sm r' c' = INT_MAX ∨
        ∃ r3 c3, seen m r' c' r3 c3 ∧
          setAt s.labels r c sm r3 c3 = setAt s.labels r c sm r' c')
    rcases mem_snoc.1 h with h | ⟨rfl, rfl⟩
    · rw [hLold _ _ h]
      obtain ⟨h1, h2⟩ := inv.min_mem _ _ h hne' _ _ hs
      refine ⟨h1, ?_⟩
      rcases h2 with h2 | ⟨r3, c3, h3, h4⟩
      · exact Or.inl h2
      · exact Or.inr ⟨r3, c3, h3, by rw [hLold _ _ (hseenpre _ _ _ _ h h3)]; exact h4⟩
    · rw [hLnew]
      refine ⟨hsm2, ?_⟩
      rcases hsm3 with h3 | h3
      · exact Or.inl h3
      · obtain ⟨r3, c3, h4, h5⟩ := (hnb sm).1 h3
        exact Or.inr ⟨r3, c3, h4, by rw [hLold _ _ (hseencur _ _ h4)]; exact h5⟩
  · intro r' c' h hne' r'' c'' hs
    show related _ (setAt s.labels r c sm r'' c'') (setAt s.labels r c sm r' c') ∧
      ∀ r3 c3, seen m r' c' r3 c3 →
        related _ (setAt s.labels r c sm r'' c'') (setAt s.labels r c sm r3 c3)
    rcases mem_snoc.1 h with h | ⟨rfl, rfl⟩
    · rw [hLold _ _ h, hLold _ _ (hseenpre _ _ _ _ h hs)]
      obtain ⟨h1, h2⟩ := inv.link _ _ h hne' _ _ hs
      refine ⟨(hrel _ _).2 (Or.inl h1), ?_⟩
      intro r3 c3 h3
      rw [hLold _ _ (hseenpre _ _ _ _ h h3)]
      exact (hrel _ _).2 (Or.inl (h2 _ _ h3))
    · rw [hLnew, hLold _ _ (hseencur _ _ hs)]
      have hmem : s.labels r'' c'' ∈ nb := (hnb _).2 ⟨r'', c'', hs, rfl⟩
      refine ⟨(hrel _ _).2 (Or.inr (Or.inl ⟨hmem, Or.inr rfl⟩)), ?_⟩
      intro r3 c3 h3
      rw [hLold _ _ (hseencur _ _ h3)]
      exact (hrel _ _).2 (Or.inr (Or.inl ⟨hmem, Or.inl ((hnb _).2 ⟨r3, c3, h3, rfl⟩)⟩))
  · intro j h1 h2
    obtain ⟨r', c', h3, h4, h5⟩ := inv.fresh j h1 h2
    exact ⟨r', c', List.mem_append_left _ h3, h4, by
      show setAt s.labels r c sm r' c' = j
      rw [hLold _ _ h3]; exact h5⟩
  · intro r' c' h hr r'' c'' hf hb
    show setAt s.labels r c sm r'' c'' < setAt s.labels r c sm r' c'
    have hpre2 := hbef _ _ _ _ h hf hb
    rw [hLold _ _ hpre2]
    rcases mem_snoc.1 h with h | ⟨rfl, rfl⟩
    · rw [hLold _ _ h]
      exact inv.root_gt _ _ h hr _ _ hf hb
    · obtain ⟨r3, c3, h4, _⟩ := (hnb x0).1 hx0
      exact absurd h4 (hr.2 _ _)
  · intro r' c' h hr j h1 h2
    have h2' : j < setAt s.labels r c sm r' c' := h2
    rcases mem_snoc.1 h with h | ⟨rfl, rfl⟩
    · rw [hLold _ _ h] at h2'
      obtain ⟨r3, c3, h3, h4, h5⟩ := inv.root_next _ _ h hr j h1 h2'
      refine ⟨r3, c3, h3, h4, ?_⟩
      show setAt s.labels r c sm r3 c3 = j
      rw [hLold _ _ (hbef _ _ _ _ (List.mem_append_left _ h) h3.1 h4)]
      exact h5
    · obtain ⟨r3, c3, h4, _⟩ := (hnb x0).1 hx0
      exact absurd h4 (hr.2 _ _)
  · intro a b h
    have hcur : (r, c) ∈ pre ++ [(r, c)] := mem_snoc.2 (Or.inr ⟨rfl, rfl⟩)
    rcases (hrel a b).1 h with h | ⟨ha, hb⟩ | ⟨rfl, rfl⟩
    · rcases inv.rel_only a b h with ⟨h1, r', c', h2, h3, h4⟩ | ⟨r', c', h2, h3, r3, c3, h4, h5, h6⟩
      · exact Or.inl ⟨h1, r', c', List.mem_append_left _ h2, h3, by
          show setAt s.labels r c sm r' c' = a
          rw [hLold _ _ h2]; exact h4⟩
      · refine Or.inr ⟨r', c', List.mem_append_left _ h2, h3, r3, c3, h4, ?_, ?_⟩
        · show setAt s.labels r c sm r3 c3 = a
          rw [hLold _ _ (hseenpre _ _ _ _ h2 h4)]; exact h5
        · rcases h6 with h6 | ⟨r4, c4, h7, h8⟩
          · left
            show setAt s.labels r c sm r' c' = b
            rw [hLold _ _ h2]; exact h6
          · right
            refine ⟨r4, c4, h7, ?_⟩
            show setAt s.labels r c sm r4 c4 = b
            rw [hLold _ _ (hseenpre _ _ _ _ h2 h7)]; exact h8
    · obtain ⟨r3, c3, h4, h5⟩ := (hnb a).1 ha
      refine Or.inr ⟨r, c, hcur, hpx, r3, c3, h4, ?_, ?_⟩
      · show setAt s.labels r c sm r3 c3 = a
        rw [hLold _ _ (hseencur _ _ h4)]; exact h5
      · rcases hb with hb | rfl
        · obtain ⟨r4, c4, h6, h7⟩ := (hnb b).1 hb
          right
          refine ⟨r4, c4, h6, ?_⟩
          show setAt s.labels r c sm r4 c4 = b
          rw [hLold _ _ (hseencur _ _ h6)]; exact h7
        · left
          exact hLnew
    · exact Or.inl ⟨rfl, r, c, hcur, hpx, hLnew⟩

/-- The window scan of the first pass, read on the mask: the neighbours at a
pixel are the labels of the earlier foreground pixels in its window. -/
theorem scanWindow_seen (m : Mask) {pre suf : List (Nat × Nat)} {r c : Nat} {s : LabelState}
    (hsplit : pixels m.rows m.cols = pre ++ (r, c) :: suf) (inv : FirstInv m pre s) (x : Int) :
    x ∈ (scanWindow m.rows m.cols s.labels r c).1 ↔
      ∃ r' c', seen m r c r' c' ∧ s.labels r' c' = x := by
  obtain ⟨_, hpre⟩ := pixels_split hsplit
  rw [(scanWindow_spec m.rows m.cols s.labels r c).1 x]
  constructor
  · rintro ⟨hx, r', c', hr, hc, hn, hl⟩
    have hz := inv.zero r' c' (by rw [hl]; exact hx)
    exact ⟨r', c', ⟨⟨hr, hc, hz.2⟩, ((hpre _ _).1 hz.1).2.2, hn⟩, hl⟩
  · rintro ⟨r', c', ⟨hf, hb, hn⟩, hl⟩
    have hm : (r', c') ∈ pre := (hpre _ _).2 ⟨hf.1, hf.2.1, hb⟩
    have := (inv.pos _ _ hm hf.2.2).1
    refine ⟨by omega, r', c', hf.1, hf.2.1, hn, hl⟩

theorem firstInv_step (m : Mask) {pre suf : List (Nat × Nat)} {r c : Nat} {s : LabelState}
    (hsplit : pixels m.rows m.cols = pre ++ (r, c) :: suf) (inv : FirstInv m pre s) :
    FirstInv m (pre ++ [(r, c)]) (firstPassPixel m s r c) := by
  by_cases hpx : m.px r c = 0
  · have e : firstPassPixel m s r c = s := by
      unfold firstPassPixel
      rw [if_neg (not_not.2 hpx)]
    rw [e]
    exact firstInv_skip m hsplit hpx inv
  · have hseen := scanWindow_seen m hsplit inv
    obtain ⟨_, _, k3, k4, k5⟩ := scanWindow_spec m.rows m.cols s.labels r c
    by_cases hemp : (scanWindow m.rows m.cols s.labels r c).1 = []
    · have e : firstPassPixel m s r c
          = ⟨s.currentLabel + 1, setAt s.labels r c s.currentLabel,
              mapInsert s.currentLabel [s.currentLabel] s.labelMap⟩ := by
        unfold firstPassPixel
        rw [if_pos hpx]
        simp only [hemp, List.isEmpty_nil, if_true]
      rw [e]
      apply firstInv_root m hsplit hpx _ inv
      intro r' c' hs
      have := (hseen _).2 ⟨r', c', hs, rfl⟩
      rw [hemp] at this
      exact List.not_mem_nil _ this
    · have e : firstPassPixel m s r c
          = ⟨s.currentLabel, setAt s.labels r c (scanWindow m.rows m.cols s.labels r c).2,
              mergeNeighbours (scanWindow m.rows m.cols s.labels r c).1
                (scanWindow m.rows m.cols s.labels r c).2 s.labelMap⟩ := by
        unfold firstPassPixel
        rw [if_pos hpx]
        have : (scanWindow m.rows m.cols s.labels r c).1.isEmpty = false := by
          cases h : (scanWindow m.rows m.cols s.labels r c).1 with
          | nil => exact absurd h hemp
          | cons a t => rfl
        simp only [this]
        rfl
      rw [e]
      exact firstInv_join m hsplit hpx inv _ _ hseen hemp k3 k4 k5

/-- The invariant holds at the end of the first pass. -/
theorem firstPass_inv (m : Mask) : FirstInv m (pixels m.rows m.cols) (firstPass m) := by
  unfold firstPass
  apply rasterFold_invariant m.rows m.cols (firstPassPixel m) (FirstInv m)
  · exact firstInv_init m
  · intro pre r c suf s hsplit inv
    exact firstInv_step m hsplit inv

/-! ## The second pass -/

theorem secondInv_init (m : Mask) : SecondInv m [] ⟨(firstPass m).labels, []⟩ where
  done := by intro r c h; exact absurd h (List.not_mem_nil _)
  todo := by intro r c _; rfl
  keys := by simp
  sizes := by intro l; simp [mapFind]
  total := by simp

theorem secondInv_step (m : Mask) {pre suf : List (Nat × Nat)} {r c : Nat} {s : SizeState}
    (hsplit : pixels m.rows m.cols = pre ++ (r, c) :: suf) (inv : SecondInv m pre s) :
    SecondInv m (pre ++ [(r, c)]) (secondPassPixel m (firstPass m).labelMap s r c) := by
  obtain ⟨_, hnot, _⟩ := split_facts m hsplit
  by_cases hpx : m.px r c = 0
  · have e : secondPassPixel m (firstPass m).labelMap s r c = s := by
      unfold secondPassPixel
      rw [if_neg (not_not.2 hpx)]
    rw [e]
    have hres : ∀ l, resolvesTo m l (r, c) = false := by
      intro l
      unfold resolvesTo
      simp [hpx]
    refine { done := ?_, todo := ?_, keys := inv.keys, sizes := ?_, total := ?_ }
    · intro r' c' h hne
      rcases mem_snoc.1 h with h | ⟨rfl, rfl⟩
      · exact inv.done _ _ h hne
      · exact absurd hpx hne
    · intro r' c' h
      apply inv.todo
      rintro ⟨h1, h2⟩
      exact h ⟨List.mem_append_left _ h1, h2⟩
    · intro l
      rw [List.countP_append, List.countP_singleton, hres l]
      simpa using inv.sizes l
    · rw [List.countP_append, List.countP_singleton]
      simpa [hpx] using inv.total
  · have hcur : s.labels r c = (firstPass m).labels r c := by
      apply inv.todo
      rintro ⟨h1, _⟩
      exact hnot _ _ h1 ⟨rfl, rfl⟩
    have e : secondPassPixel m (firstPass m).labelMap s r c
        = ⟨setAt s.labels r c (canonical (firstPass m).labelMap (s.labels r c)),
            mapAssign (canonical (firstPass m).labelMap (s.labels r c))
              (((pre.countP (resolvesTo m (canonical (firstPass m).labelMap (s.labels r c)))
                : Nat) : Int) + 1) s.blobSizes⟩ := by
      unfold secondPassPixel
      rw [if_pos hpx]
      simp only []
      rw [inv.sizes]
      split_ifs with h0
      · simp [h0]
      · simp
    rw [e]
    have hres : ∀ l, resolvesTo m l (r, c)
        = decide (canonical (firstPass m).labelMap (s.labels r c) = l) := by
      intro l
      unfold resolvesTo
      simp [hpx, hcur]
    refine { done := ?_, todo := ?_, keys := ?_, sizes := ?_, total := ?_ }
    · intro r' c' h hne
      show setAt s.labels r c _ r' c' = _
      rcases mem_snoc.1 h with h | ⟨rfl, rfl⟩
      · rw [setAt_other _ _ _ _ (hnot _ _ h)]
        exact inv.done _ _ h hne
      · rw [setAt_same, hcur]
    · intro r' c' h
      show setAt s.labels r c _ r' c' = _
      have hne : ¬ (r' = r ∧ c' = c) := by
        rintro ⟨rfl, rfl⟩
        exact h ⟨mem_snoc.2 (Or.inr ⟨rfl, rfl⟩), hpx⟩
      rw [setAt_other _ _ _ _ hne]
      apply inv.todo
      rintro ⟨h1, h2⟩
      exact h ⟨List.mem_append_left _ h1, h2⟩
    · exact mapAssign_keys_pairwise _ _ inv.keys
    · intro l
      show mapFind l (mapAssign _ _ s.blobSizes) = _
      rw [mapFind_mapAssign, List.countP_append, List.countP_singleton, hres l]
      by_cases hl : l = canonical (firstPass m).labelMap (s.labels r c)
      · subst hl
        simp
      · have hl' : decide (canonical (firstPass m).labelMap (s.labels r c) = l) = false := by
          simpa using fun h => hl h.symm
        rw [if_neg hl, inv.sizes l, hl']
        simp
    · show ((mapAssign _ _ s.blobSizes).map Prod.snd).sum = _
      have hget : (mapFind (canonical (firstPass m).labelMap (s.labels r c)) s.blobSizes).getD 0
          = ((pre.countP (resolvesTo m (canonical (firstPass m).labelMap (s.labels r c)))
              : Nat) : Int) := by
        rw [inv.sizes]
        split_ifs with h0
        · simp [h0]
        · simp
      have hd : decide (m.px (r, c).1 (r, c).2 ≠ 0) = true := by simpa using hpx
      rw [sum_mapAssign _ _ inv.keys, hget, inv.total, List.countP_append,
        List.countP_singleton, hd, if_pos rfl]
      push_cast
      ring

/-- The invariant holds at the end of the second pass. -/
theorem secondPass_inv (m : Mask) : SecondInv m (pixels m.rows m.cols) (secondPass m) := by
  unfold secondPass
  apply rasterFold_invariant m.rows m.cols (secondPassPixel m (firstPass m).labelMap)
    (SecondInv m)
  · exact secondInv_init m
  · intro pre r c suf s hsplit inv
    exact secondInv_step m hsplit inv

/-! ## The two passes, read on the mask -/

theorem fg_iff_mem (m : Mask) (r c : Nat) :
    fg m r c ↔ (r, c) ∈ pixels m.rows m.cols ∧ m.px r c ≠ 0 := by
  unfold fg
  rw [mem_pixels]
  tauto

theorem prov_zero (m : Mask) {r c : Nat} (h : ¬ fg m r c) : (firstPass m).labels r c = 0 := by
  by_contra hne
  exact h ((fg_iff_mem m r c).2 ((firstPass_inv m).zero r c hne))

theorem prov_pos (m : Mask) {r c : Nat} (h : fg m r c) : 0 < (firstPass m).labels r c :=
  ((firstPass_inv m).pos r c ((fg_iff_mem m r c).1 h).1 h.2.2).1

theorem prov_self (m : Mask) {r c : Nat} (h : fg m r c) :
    related (firstPass m).labelMap ((firstPass m).labels r c) ((firstPass m).labels r c) :=
  (firstPass_inv m).self r c ((fg_iff_mem m r c).1 h).1 h.2.2

/-- When the set of a label holds some label, its first element is in the set
and is at most every element. -/
theorem canonical_spec (m : Mask) {a b : Int} (h : related (firstPass m).labelMap a b) :
    related (firstPass m).labelMap a (canonical (firstPass m).labelMap a) ∧
    canonical (firstPass m).labelMap a ≤ b ∧ 0 < canonical (firstPass m).labelMap a := by
  unfold related at h
  cases hf : mapFind a (firstPass m).labelMap with
  | none =>
    rw [hf] at h
    exact absurd h (List.not_mem_nil _)
  | some set =>
    rw [hf] at h
    have hwf := (firstPass_inv m).wf a set hf
    have hrel : related (firstPass m).labelMap a (canonical (firstPass m).labelMap a) := by
      unfold related canonical
      rw [hf]
      exact headD_mem hwf.2
    refine ⟨hrel, ?_, ((firstPass_inv m).rel_range _ _ hrel).2.2.1⟩
    unfold canonical
    rw [hf]
    exact headD_le hwf.1 h

theorem final_fg (m : Mask) {r c : Nat} (h : fg m r c) :
    (secondPass m).labels r c
      = canonical (firstPass m).labelMap ((firstPass m).labels r c) :=
  (secondPass_inv m).done r c ((fg_iff_mem m r c).1 h).1 h.2.2

theorem final_bg (m : Mask) {r c : Nat} (h : ¬ fg m r c) : (secondPass m).labels r c = 0 := by
  rw [(secondPass_inv m).todo r c (fun h' => h ((fg_iff_mem m r c).2 h'))]
  exact prov_zero m h

theorem final_pos (m : Mask) {r c : Nat} (h : fg m r c) : 0 < (secondPass m).labels r c := by
  rw [final_fg m h]
  exact (canonical_spec m (prov_self m h)).2.2

theorem final_le_prov (m : Mask) {r c : Nat} (h : fg m r c) :
    (secondPass m).labels r c ≤ (firstPass m).labels r c := by
  rw [final_fg m h]
  exact (canonical_spec m (prov_self m h)).2.1

theorem resolvesTo_iff (m : Mask) (l : Int) (hl : l ≠ 0) {r c : Nat}
    (h : (r, c) ∈ pixels m.rows m.cols) :
    resolvesTo m l (r, c) = decide ((secondPass m).labels r c = l) := by
  unfold resolvesTo
  by_cases hpx : m.px r c = 0
  · have hb : ¬ fg m r c := fun hf => hf.2.2 hpx
    rw [final_bg m hb]
    have : ¬ (0 : Int) = l := fun e => hl e.symm
    simp [hpx, this]
  · have hf : fg m r c := (fg_iff_mem m r c).2 ⟨h, hpx⟩
    rw [final_fg m hf]
    simp [hpx]

theorem count_resolvesTo (m : Mask) (l : Int) (hl : l ≠ 0) :
    (pixels m.rows m.cols).countP (resolvesTo m l)
      = cellCount m.rows m.cols (secondPass m).labels l := by
  unfold cellCount
  apply List.countP_congr
  rintro ⟨r, c⟩ hp
  rw [resolvesTo_iff m l hl hp]

theorem resolvesTo_ne_zero (m : Mask) {l : Int} {p : Nat × Nat}
    (hp : p ∈ pixels m.rows m.cols) (h : resolvesTo m l p = true) : l ≠ 0 := by
  obtain ⟨r, c⟩ := p
  unfold resolvesTo at h
  rw [Bool.and_eq_true, decide_eq_true_eq, decide_eq_true_eq] at h
  have hf : fg m r c := (fg_iff_mem m r c).2 ⟨hp, h.1⟩
  have := (canonical_spec m (prov_self m hf)).2.2
  rw [← h.2]
  exact fun e => by
    simp only at e
    omega

/-- The entry of a label in the size table is the number of cells that carry
the label, when there is one. -/
theorem blobSizes_find (m : Mask) (l : Int) :
    mapFind l (secondPass m).blobSizes
      = if l = 0 ∨ cellCount m.rows m.cols (secondPass m).labels l = 0 then none
        else some ((cellCount m.rows m.cols (secondPass m).labels l : Nat) : Int) := by
  rw [(secondPass_inv m).sizes l]
  by_cases hl : l = 0
  · subst hl
    have : (pixels m.rows m.cols).countP (resolvesTo m 0) = 0 := by
      rw [List.countP_eq_zero]
      intro p hp h
      exact resolvesTo_ne_zero m hp h rfl
    simp [this]
  · rw [count_resolvesTo m l hl]
    simp [hl]

theorem blobSizes_keys (m : Mask) (l : Int) :
    l ∈ (secondPass m).blobSizes.map Prod.fst ↔
      l ≠ 0 ∧ ∃ r c, r < m.rows ∧ c < m.cols ∧ (secondPass m).labels r c = l := by
  have h1 := mapFind_eq_none_iff l (secondPass m).blobSizes
  rw [blobSizes_find] at h1
  constructor
  · intro h
    have hcond : ¬ (l = 0 ∨ cellCount m.rows m.cols (secondPass m).labels l = 0) := by
      intro hc
      rw [if_pos hc] at h1
      exact (h1.1 rfl) h
    rw [not_or] at hcond
    refine ⟨hcond.1, ?_⟩
    have hpos : 0 < cellCount m.rows m.cols (secondPass m).labels l := Nat.pos_of_ne_zero hcond.2
    unfold cellCount at hpos
    rw [List.countP_pos_iff] at hpos
    obtain ⟨⟨r, c⟩, hp, hd⟩ := hpos
    rw [mem_pixels] at hp
    exact ⟨r, c, hp.1, hp.2, by simpa using hd⟩
  · rintro ⟨hl, r, c, hr, hc, hlab⟩
    by_contra hk
    have hnone := h1.2 hk
    have hcond : ¬ (l = 0 ∨ cellCount m.rows m.cols (secondPass m).labels l = 0) := by
      rw [not_or]
      refine ⟨hl, ?_⟩
      apply Nat.pos_iff_ne_zero.1
      unfold cellCount
      rw [List.countP_pos_iff]
      exact ⟨(r, c), mem_pixels.2 ⟨hr, hc⟩, by simpa using hlab⟩
    rw [if_neg hcond] at hnone
    exact Option.noConfusion hnone

/-! ## Bounding boxes and extraction -/

theorem boxInv_step (labels : Nat → Nat → Int) (label : Int) {pre : List (Nat × Nat)}
    {r c : Nat} {b : Box} (inv : BoxInv labels label pre b) :
    BoxInv labels label (pre ++ [(r, c)]) (boxCell labels label b r c) := by
  have hcur : (r, c) ∈ pre ++ [(r, c)] := mem_snoc.2 (Or.inr ⟨rfl, rfl⟩)
  unfold boxCell
  by_cases hl : labels r c = label
  · rw [if_pos hl]
    refine { bound := ?_, minRow := ?_, maxRow := ?_, minCol := ?_, maxCol := ?_ }
    · intro r' c' h hlab
      simp only
      rcases mem_snoc.1 h with h | ⟨rfl, rfl⟩
      · have := inv.bound r' c' h hlab
        refine ⟨?_, ?_, ?_, ?_⟩ <;> split_ifs <;> omega
      · refine ⟨?_, ?_, ?_, ?_⟩ <;> split_ifs <;> omega
    · simp only
      split_ifs with h
      · exact Or.inr ⟨r, c, hcur, hl, rfl⟩
      · rcases inv.minRow with h1 | ⟨r', c', h1, h2, h3⟩
        · exact Or.inl h1
        · exact Or.inr ⟨r', c', List.mem_append_left _ h1, h2, h3⟩
    · simp only
      split_ifs with h
      · exact Or.inr ⟨r, c, hcur, hl, rfl⟩
      · rcases inv.maxRow with h1 | ⟨r', c', h1, h2, h3⟩
        · exact Or.inl h1
        · exact Or.inr ⟨r', c', List.mem_append_left _ h1, h2, h3⟩
    · simp only
      split_ifs with h
      · exact Or.inr ⟨r, c, hcur, hl, rfl⟩
      · rcases inv.minCol with h1 | ⟨r', c', h1, h2, h3⟩
        · exact Or.inl h1
        · exact Or.inr ⟨r', c', List.mem_append_left _ h1, h2, h3⟩
    · simp only
      split_ifs with h
      · exact Or.inr ⟨r, c, hcur, hl, rfl⟩
      · rcases inv.maxCol with h1 | ⟨r', c', h1, h2, h3⟩
        · exact Or.inl h1
        · exact Or.inr ⟨r', c', List.mem_append_left _ h1, h2, h3⟩
  · rw [if_neg hl]
    refine { bound := ?_, minRow := ?_, maxRow := ?_, minCol := ?_, maxCol := ?_ }
    · intro r' c' h hlab
      rcases mem_snoc.1 h with h | ⟨rfl, rfl⟩
      · exact inv.bound r' c' h hlab
      · exact absurd hlab hl
    · rcases inv.minRow with h1 | ⟨r', c', h1, h2, h3⟩
      · exact Or.inl h1
      · exact Or.inr ⟨r', c', List.mem_append_left _ h1, h2, h3⟩
    · rcases inv.maxRow with h1 | ⟨r', c', h1, h2, h3⟩
      · exact Or.inl h1
      · exact Or.inr ⟨r', c', List.mem_append_left _ h1, h2, h3⟩
    · rcases inv.minCol with h1 | ⟨r', c', h1, h2, h3⟩
      · exact Or.inl h1
      · exact Or.inr ⟨r', c', List.mem_append_left _ h1, h2, h3⟩
    · rcases inv.maxCol with h1 | ⟨r', c', h1, h2, h3⟩
      · exact Or.inl h1
      · exact Or.inr ⟨r', c', List.mem_append_left _ h1, h2, h3⟩

theorem boundingBox_inv (rows cols : Nat) (labels : Nat → Nat → Int) (label : Int) :
    BoxInv labels label (pixels rows cols) (boundingBox rows cols labels label) := by
  unfold boundingBox
  apply rasterFold_invariant rows cols (boxCell labels label) (BoxInv labels label)
  · refine { bound := ?_, minRow := Or.inl rfl, maxRow := Or.inl rfl, minCol := Or.inl rfl,
             maxCol := Or.inl rfl }
    intro r c h
    exact absurd h (List.not_mem_nil _)
  · intro pre r c suf s _ inv
    exact boxInv_step labels label inv

/-- When some cell of a grid with `int` dimensions carries the label, the scan
ends with the tightest box around the cells that carry it. -/
theorem boundingBox_spec (rows cols : Nat) (labels : Nat → Nat → Int) (label : Int)
    (hrows : rows ≤ 2147483647) (hcols : cols ≤ 2147483647)
    (hex : ∃ r c, r < rows ∧ c < cols ∧ labels r c = label) :
    ∃ minRow maxRow minCol maxCol : Nat,
      tightBox rows cols labels label minRow maxRow minCol maxCol ∧
      boundingBox rows cols labels label = ⟨minRow, minCol, maxRow, maxCol⟩ := by
  obtain ⟨r0, c0, hr0, hc0, hl0⟩ := hex
  have inv := boundingBox_inv rows cols labels label
  have hb0 := inv.bound r0 c0 (mem_pixels.2 ⟨hr0, hc0⟩) hl0
  have hmax : INT_MAX = 2147483647 := rfl
  have hmin : INT_MIN = -2147483648 := rfl
  obtain ⟨r1, c1, h1, l1, e1⟩ : ∃ r c, (r, c) ∈ pixels rows cols ∧ labels r c = label ∧
      (r : Int) = (boundingBox rows cols labels label).minRow := by
    rcases inv.minRow with h | h
    · omega
    · exact h
  obtain ⟨r2, c2, h2, l2, e2⟩ : ∃ r c, (r, c) ∈ pixels rows cols ∧ labels r c = label ∧
      (r : Int) = (boundingBox rows cols labels label).maxRow := by
    rcases inv.maxRow with h | h
    · omega
    · exact h
  obtain ⟨r3, c3, h3, l3, e3⟩ : ∃ r c, (r, c) ∈ pixels rows cols ∧ labels r c = label ∧
      (c : Int) = (boundingBox rows cols labels label).minCol := by
    rcases inv.minCol with h | h
    · omega
    · exact h
  obtain ⟨r4, c4, h4, l4, e4⟩ : ∃ r c, (r, c) ∈ pixels rows cols ∧ labels r c = label ∧
      (c : Int) = (boundingBox rows cols labels label).maxCol := by
    rcases inv.maxCol with h | h
    · omega
    · exact h
  rw [mem_pixels] at h1 h2 h3 h4
  refine ⟨r1, r2, c3, c4, ⟨?_, ⟨c1, h1.1, h1.2, l1⟩, ⟨c2, h2.1, h2.2, l2⟩,
    ⟨r3, h3.1, h3.2, l3⟩, ⟨r4, h4.1, h4.2, l4⟩⟩, ?_⟩
  · intro r c hr hc hl
    have := inv.bound r c (mem_pixels.2 ⟨hr, hc⟩) hl
    omega
  · rw [e1, e2, e3, e4]

theorem extractEntry_small (frame : frame_t) (labels : Nat → Nat → Int)
    (players : List player_t) (it : Int × Int) (h : ¬ it.2 ≥ MIN_BLOB_SIZE) :
    extractEntry frame labels players it = Except.ok players := by
  unfold extractEntry
  rw [if_neg h]

theorem extractEntry_inside (frame : frame_t) (players : List player_t) (it : Int × Int)
    (h : it.2 ≥ MIN_BLOB_SIZE) (hv : viewsInside frame (rectFor frame it.1)) :
    extractEntry frame (secondPass frame.mask_frame).labels players it
      = Except.ok (players ++ [candidateFor frame it.1]) := by
  unfold extractEntry
  rw [if_pos h]
  simp only
  have h1 : insideImage frame.mask_frame.rows frame.mask_frame.cols
      (paddedRect (boundingBox frame.mask_frame.rows frame.mask_frame.cols
        (secondPass frame.mask_frame).labels it.1)) := hv.1
  have h2 : insideImage frame.original_frame.rows frame.original_frame.cols
      (paddedRect (boundingBox frame.mask_frame.rows frame.mask_frame.cols
        (secondPass frame.mask_frame).labels it.1)) := hv.2
  rw [if_pos h1, if_pos h2]
  rfl

theorem extractEntry_outside (frame : frame_t) (players : List player_t) (it : Int × Int)
    (h : it.2 ≥ MIN_BLOB_SIZE) (hv : ¬ viewsInside frame (rectFor frame it.1)) :
    extractEntry frame (secondPass frame.mask_frame).labels players it
      = Except.error cv_Exception.roi_outside_image := by
  unfold extractEntry
  rw [if_pos h]
  simp only
  by_cases h1 : insideImage frame.mask_frame.rows frame.mask_frame.cols
      (paddedRect (boundingBox frame.mask_frame.rows frame.mask_frame.cols
        (secondPass frame.mask_frame).labels it.1))
  · rw [if_pos h1]
    by_cases h2 : insideImage frame.original_frame.rows frame.original_frame.cols
        (paddedRect (boundingBox frame.mask_frame.rows frame.mask_frame.cols
          (secondPass frame.mask_frame).labels it.1))
    · exact absurd ⟨h1, h2⟩ hv
    · rw [if_neg h2]
  · rw [if_neg h1]

/-- The loop over the table: it returns the candidates of the entries that pass
the size test when the rectangle of each of them lies inside both images, and
throws otherwise. -/
theorem extractLoop_eq (frame : frame_t) (l : List (Int × Int)) (acc : List player_t) :
    extractLoop frame (secondPass frame.mask_frame).labels l acc
      = if ∀ k ∈ (l.filter (fun it => decide (it.2 ≥ MIN_BLOB_SIZE))).map Prod.fst,
            viewsInside frame (rectFor frame k)
        then Except.ok (acc ++
          ((l.filter (fun it => decide (it.2 ≥ MIN_BLOB_SIZE))).map Prod.fst).map
            (candidateFor frame))
        else Except.error cv_Exception.roi_outside_image := by
  induction l generalizing acc with
  | nil =>
    unfold extractLoop
    simp
  | cons it t ih =>
    unfold extractLoop
    by_cases h : it.2 ≥ MIN_BLOB_SIZE
    · rw [List.filter_cons_of_pos (by simpa using h)]
      by_cases hv : viewsInside frame (rectFor frame it.1)
      · rw [extractEntry_inside frame acc it h hv]
        simp only
        rw [ih]
        by_cases hall : ∀ k ∈ (t.filter (fun it => decide (it.2 ≥ MIN_BLOB_SIZE))).map Prod.fst,
            viewsInside frame (rectFor frame k)
        · rw [if_pos hall, if_pos]
          · simp
          · intro k hk
            rw [List.map_cons, List.mem_cons] at hk
            rcases hk with rfl | hk
            · exact hv
            · exact hall k hk
        · rw [if_neg hall, if_neg]
          intro hall2
          apply hall
          intro k hk
          apply hall2
          rw [List.map_cons, List.mem_cons]
          exact Or.inr hk
      · rw [extractEntry_outside frame acc it h hv]
        simp only
        rw [if_neg]
        intro hall
        apply hv
        apply hall
        rw [List.map_cons, List.mem_cons]
        exact Or.inl rfl
    · rw [List.filter_cons_of_neg (by simpa using h), extractEntry_small frame _ acc it h]
      simp only
      rw [ih]

/-- The call returns the candidates of the surviving labels when the rectangle
of each of them lies inside both images of the frame, and throws otherwise. -/
theorem extract_eq (frame : frame_t) :
    extract_player_from_frame frame
      = if ∀ l ∈ survivors frame, viewsInside frame (rectFor frame l)
        then Except.ok ((survivors frame).map (candidateFor frame))
        else Except.error cv_Exception.roi_outside_image := by
  unfold extract_player_from_frame survivors
  rw [extractLoop_eq]
  simp

theorem extract_ok_iff (frame : frame_t) (players : List player_t) :
    extract_player_from_frame frame = Except.ok players ↔
      (∀ l ∈ survivors frame, viewsInside frame (rectFor frame l)) ∧
      players = (survivors frame).map (candidateFor frame) := by
  rw [extract_eq]
  by_cases hall : ∀ l ∈ survivors frame, viewsInside frame (rectFor frame l)
  · rw [if_pos hall]
    constructor
    · intro h
      injection h with h
      exact ⟨hall, h.symm⟩
    · rintro ⟨_, h⟩
      rw [h]
  · rw [if_neg hall]
    constructor
    · intro h
      exact Except.noConfusion h
    · rintro ⟨h, _⟩
      exact absurd h hall

theorem extract_error_iff (frame : frame_t) :
    extract_player_from_frame frame = Except.error cv_Exception.roi_outside_image ↔
      ∃ l ∈ survivors frame, ¬ viewsInside frame (rectFor frame l) := by
  rw [extract_eq]
  by_cases hall : ∀ l ∈ survivors frame, viewsInside frame (rectFor frame l)
  · rw [if_pos hall]
    constructor
    · intro h
      exact Except.noConfusion h
    · rintro ⟨l, hl, hv⟩
      exact absurd (hall l hl) hv
  · rw [if_neg hall]
    constructor
    · intro _
      by_contra hne
      apply hall
      intro l hl
      by_contra hv
      exact hne ⟨l, hl, hv⟩
    · intro _
      rfl

theorem mem_survivors (frame : frame_t) (l : Int) :
    l ∈ survivors frame ↔
      l ≠ 0 ∧ 800 ≤ cellCount frame.mask_frame.rows frame.mask_frame.cols
        (secondPass frame.mask_frame).labels l := by
  unfold survivors
  rw [List.mem_map]
  have hfind := blobSizes_find frame.mask_frame l
  constructor
  · rintro ⟨⟨k, n⟩, hm, rfl⟩
    rw [List.mem_filter] at hm
    obtain ⟨hm, hn⟩ := hm
    have hn' : MIN_BLOB_SIZE ≤ n := by simpa using hn
    have hf := mapFind_of_mem (secondPass_inv frame.mask_frame).keys hm
    simp only at hf hfind
    rw [hf] at hfind
    by_cases hc : k = 0 ∨ cellCount frame.mask_frame.rows frame.mask_frame.cols
        (secondPass frame.mask_frame).labels k = 0
    · rw [if_pos hc] at hfind
      exact Option.noConfusion hfind
    · rw [if_neg hc] at hfind
      injection hfind with hfind
      rw [not_or] at hc
      refine ⟨hc.1, ?_⟩
      unfold MIN_BLOB_SIZE at hn'
      simp only
      omega
  · rintro ⟨hl, hn⟩
    have hc : ¬ (l = 0 ∨ cellCount frame.mask_frame.rows frame.mask_frame.cols
        (secondPass frame.mask_frame).labels l = 0) := by
      rw [not_or]
      exact ⟨hl, by omega⟩
    rw [if_neg hc] at hfind
    refine ⟨(l, ((cellCount frame.mask_frame.rows frame.mask_frame.cols
      (secondPass frame.mask_frame).labels l : Nat) : Int)), ?_, rfl⟩
    rw [List.mem_filter]
    refine ⟨mem_of_mapFind hfind, ?_⟩
    unfold MIN_BLOB_SIZE
    simp only [ge_iff_le, decide_eq_true_eq]
    omega

/-! ## The first pass on the whole mask -/

theorem near_symm {r c r' c' : Nat} (h : near r c r' c') : near r' c' r c := by
  unfold near at *
  omega

theorem near_self (r c : Nat) : near r c r c := by
  unfold near
  omega

/-- Induction along the raster order. -/
theorem before_induction {P : Nat → Nat → Prop}
    (h : ∀ r c, (∀ r' c', before r' c' r c → P r' c') → P r c) : ∀ r c, P r c := by
  intro r
  induction r using Nat.strong_induction_on with
  | _ r ihr =>
    intro c
    induction c using Nat.strong_induction_on with
    | _ c ihc =>
      apply h
      intro r' c' hb
      rcases hb with hlt | ⟨rfl, hlt⟩
      · exact ihr r' hlt c'
      · exact ihc c' hlt

theorem prov_min_le (m : Mask) {r c r' c' : Nat} (hf : fg m r c) (hs : seen m r c r' c') :
    (firstPass m).labels r c ≤ (firstPass m).labels r' c' :=
  (firstPass_inv m).min_le r c ((fg_iff_mem m r c).1 hf).1 hf.2.2 r' c' hs

theorem prov_min_mem (m : Mask) {r c r' c' : Nat} (hf : fg m r c) (hs : seen m r c r' c') :
    (firstPass m).labels r c ≤ INT_MAX ∧
    ((firstPass m).labels r c = INT_MAX ∨
      ∃ r'' c'', seen m r c r'' c'' ∧ (firstPass m).labels r'' c'' = (firstPass m).labels r c) :=
  (firstPass_inv m).min_mem r c ((fg_iff_mem m r c).1 hf).1 hf.2.2 r' c' hs

theorem prov_link (m : Mask) {r c r' c' : Nat} (hf : fg m r c) (hs : seen m r c r' c') :
    related (firstPass m).labelMap ((firstPass m).labels r' c') ((firstPass m).labels r c) ∧
    ∀ r'' c'', seen m r c r'' c'' →
      related (firstPass m).labelMap ((firstPass m).labels r' c')
        ((firstPass m).labels r'' c'') :=
  (firstPass_inv m).link r c ((fg_iff_mem m r c).1 hf).1 hf.2.2 r' c' hs

/-- Every label in the grid is the label of a root. -/
theorem prov_of_root (m : Mask) {r c : Nat} (hf : fg m r c) :
    ∃ r' c', isRoot m r' c' ∧ (firstPass m).labels r' c' = (firstPass m).labels r c := by
  have hp := (firstPass_inv m).pos r c ((fg_iff_mem m r c).1 hf).1 hf.2.2
  obtain ⟨r', c', _, h2, h3⟩ := (firstPass_inv m).fresh _ (by omega) hp.2
  exact ⟨r', c', h2, h3⟩

theorem root_gt (m : Mask) {r c r' c' : Nat} (hr : isRoot m r c) (hf : fg m r' c')
    (hb : before r' c' r c) : (firstPass m).labels r' c' < (firstPass m).labels r c :=
  (firstPass_inv m).root_gt r c ((fg_iff_mem m r c).1 hr.1).1 hr r' c' hf hb

theorem root_next (m : Mask) {r c : Nat} (hr : isRoot m r c) {j : Int} (h1 : 1 ≤ j)
    (h2 : j < (firstPass m).labels r c) :
    ∃ r' c', isRoot m r' c' ∧ before r' c' r c ∧ (firstPass m).labels r' c' = j :=
  (firstPass_inv m).root_next r c ((fg_iff_mem m r c).1 hr.1).1 hr j h1 h2

theorem rel_only (m : Mask) {a b : Int} (h : related (firstPass m).labelMap a b) :
    (a = b ∧ ∃ r c, fg m r c ∧ (firstPass m).labels r c = a) ∨
    (∃ r c, fg m r c ∧ ∃ r' c', seen m r c r' c' ∧ (firstPass m).labels r' c' = a ∧
      ((firstPass m).labels r c = b ∨
        ∃ r'' c'', seen m r c r'' c'' ∧ (firstPass m).labels r'' c'' = b)) := by
  rcases (firstPass_inv m).rel_only a b h with ⟨h1, r, c, h2, h3, h4⟩ | ⟨r, c, h2, h3, h4⟩
  · exact Or.inl ⟨h1, r, c, (fg_iff_mem m r c).2 ⟨h2, h3⟩, h4⟩
  · exact Or.inr ⟨r, c, (fg_iff_mem m r c).2 ⟨h2, h3⟩, h4⟩

/-- The first foreground pixel in raster order takes label 1. -/
theorem first_label (m : Mask) {r c : Nat} (hf : fg m r c)
    (hfirst : ∀ r' c', fg m r' c' → ¬ before r' c' r c) : (firstPass m).labels r c = 1 := by
  have hroot : isRoot m r c := ⟨hf, fun r' c' hs => hfirst r' c' hs.1 hs.2.1⟩
  have hpos := prov_pos m hf
  by_contra hne
  obtain ⟨r', c', h1, h2, _⟩ := root_next m hroot (le_refl 1) (by omega)
  exact hfirst r' c' h1.1 h2

/-- The second root in raster order takes label 2. -/
theorem second_label (m : Mask) {r c r' c' : Nat} (h1 : (firstPass m).labels r c = 1)
    (hf : fg m r c) (hroot : isRoot m r' c') (hb : before r c r' c')
    (honly : ∀ a b, isRoot m a b → before a b r' c' → a = r ∧ b = c) :
    (firstPass m).labels r' c' = 2 := by
  have hgt := root_gt m hroot hf hb
  by_contra hne
  obtain ⟨a, b, h2, h3, h4⟩ := root_next m hroot (by omega : (1 : Int) ≤ 2) (by omega)
  obtain ⟨rfl, rfl⟩ := honly a b h2 h3
  omega

/-- The resolved label of a pixel whose provisional label has a set of one
element is the provisional label. -/
theorem final_of_rel_eq (m : Mask) {r c : Nat} (hf : fg m r c)
    (h : ∀ b, related (firstPass m).labelMap ((firstPass m).labels r c) b →
      b = (firstPass m).labels r c) :
    (secondPass m).labels r c = (firstPass m).labels r c := by
  rw [final_fg m hf]
  exact h _ (canonical_spec m (prov_self m hf)).1

/-! ## Filled rectangles -/

theorem rect_pred {m : Mask} {r0 c0 h w : Nat}
    (hX : ∀ r c, inRect r0 c0 h w r c → fg m r c) {r c : Nat}
    (hin : inRect r0 c0 h w r c) (hne : ¬ (r = r0 ∧ c = c0)) :
    ∃ r' c', inRect r0 c0 h w r' c' ∧ seen m r c r' c' := by
  unfold inRect at hin
  by_cases hc : c0 < c
  · have hin' : inRect r0 c0 h w r (c - 1) := by unfold inRect; omega
    refine ⟨r, c - 1, hin', hX _ _ hin', ?_, ?_⟩
    · unfold before; omega
    · unfold near; omega
  · have hin' : inRect r0 c0 h w (r - 1) c := by unfold inRect; omega
    refine ⟨r - 1, c, hin', hX _ _ hin', ?_, ?_⟩
    · unfold before; omega
    · unfold near; omega

theorem rect_first {r0 c0 h w r c : Nat} (hin : inRect r0 c0 h w r c) :
    ¬ before r c r0 c0 := by
  unfold inRect at hin
  unfold before
  omega

theorem rect_corner {r0 c0 h w : Nat} (hh : 0 < h) (hw : 0 < w) : inRect r0 c0 h w r0 c0 := by
  unfold inRect
  omega

/-- A filled rectangle that contains every foreground pixel seen from its
pixels carries the label of its top left pixel throughout. -/
theorem rect_uniform (m : Mask) {r0 c0 h w : Nat}
    (hX : ∀ r c, inRect r0 c0 h w r c → fg m r c)
    (hclosed : ∀ r c r' c', inRect r0 c0 h w r c → seen m r c r' c' → inRect r0 c0 h w r' c')
    (hsmall : (firstPass m).labels r0 c0 < INT_MAX) :
    ∀ r c, inRect r0 c0 h w r c → (firstPass m).labels r c = (firstPass m).labels r0 c0 := by
  apply before_induction
  intro r c ih hin
  by_cases hne : r = r0 ∧ c = c0
  · obtain ⟨rfl, rfl⟩ := hne
    rfl
  · obtain ⟨r', c', hin', hs⟩ := rect_pred hX hin hne
    have hle := prov_min_le m (hX _ _ hin) hs
    rw [ih r' c' hs.2.1 hin'] at hle
    obtain ⟨_, hmem⟩ := prov_min_mem m (hX _ _ hin) hs
    rcases hmem with hmem | ⟨r2, c2, hs2, h2⟩
    · omega
    · rw [← h2]
      exact ih r2 c2 hs2.2.1 (hclosed _ _ _ _ hin hs2)

theorem pairwise_eq_singleton {l : List Int} {a : Int} (hp : l.Pairwise (· < ·))
    (hm : ∀ x, x ∈ l ↔ x = a) : l = [a] := by
  cases l with
  | nil => exact absurd ((hm a).2 rfl) (List.not_mem_nil _)
  | cons x t =>
    have hx : x = a := (hm x).1 (List.mem_cons_self _ _)
    subst hx
    cases t with
    | nil => rfl
    | cons y t' =>
      exfalso
      have hy : y = x := (hm y).1 (List.mem_cons_of_mem _ (List.mem_cons_self _ _))
      rw [List.pairwise_cons] at hp
      have := hp.1 y (List.mem_cons_self _ _)
      omega

theorem countP_product (P1 P2 : Nat → Bool) (l1 l2 : List Nat) :
    (l1 ×ˢ l2).countP (fun p => P1 p.1 && P2 p.2) = l1.countP P1 * l2.countP P2 := by
  induction l1 with
  | nil => simp
  | cons a t ih =>
    rw [List.product_cons, List.countP_append, ih, List.countP_cons, List.countP_map]
    cases ha : P1 a
    · have : ((fun p : Nat × Nat => P1 p.1 && P2 p.2) ∘ fun b => (a, b)) = fun _ => false := by
        funext b
        simp [ha]
      rw [this]
      simp
    · have : ((fun p : Nat × Nat => P1 p.1 && P2 p.2) ∘ fun b => (a, b)) = P2 := by
        funext b
        simp [ha]
      rw [this]
      simp
      ring

theorem countP_range_interval (a h n : Nat) (hn : a + h ≤ n) :
    (List.range n).countP (fun x => decide (a ≤ x ∧ x < a + h)) = h := by
  have key : ∀ k, (List.range k).countP (fun x => decide (a ≤ x ∧ x < a + h))
      = if k ≤ a then 0 else if k ≤ a + h then k - a else h := by
    intro k
    induction k with
    | zero => simp
    | succ k ih =>
      rw [List.range_succ, List.countP_append, ih, List.countP_singleton]
      by_cases h1 : a ≤ k ∧ k < a + h
      · rw [decide_eq_true h1]
        simp only [if_true]
        split_ifs <;> omega
      · rw [decide_eq_false h1]
        simp only [Bool.false_eq_true, if_false]
        split_ifs <;> omega
  rw [key n]
  split_ifs <;> omega

theorem count_rect (rows cols r0 c0 h w : Nat) (hr : r0 + h ≤ rows) (hc : c0 + w ≤ cols) :
    (pixels rows cols).countP (fun p => decide (inRect r0 c0 h w p.1 p.2)) = h * w := by
  have e : (fun p : Nat × Nat => decide (inRect r0 c0 h w p.1 p.2))
      = fun p => (fun x => decide (r0 ≤ x ∧ x < r0 + h)) p.1 &&
          (fun x => decide (c0 ≤ x ∧ x < c0 + w)) p.2 := by
    funext p
    unfold inRect
    simp only [Bool.decide_and, Bool.and_assoc]
  have hp := countP_product (fun x => decide (r0 ≤ x ∧ x < r0 + h))
    (fun x => decide (c0 ≤ x ∧ x < c0 + w)) (List.range rows) (List.range cols)
  rw [countP_range_interval _ _ _ hr, countP_range_interval _ _ _ hc] at hp
  unfold pixels
  rw [e]
  exact hp

/-- A mask whose foreground is one filled rectangle: every pixel of the
rectangle keeps label 1 through both passes, the size table has the single
entry of label 1 with the area of the rectangle, and the bounding-box scan for
label 1 ends on the rectangle. -/
theorem one_rect (m : Mask) (r0 c0 h w : Nat) (hh : 0 < h) (hw : 0 < w)
    (hfg : ∀ r c, fg m r c ↔ inRect r0 c0 h w r c) :
    (∀ r c, inRect r0 c0 h w r c → (firstPass m).labels r c = 1) ∧
    (∀ r c, inRect r0 c0 h w r c → (secondPass m).labels r c = 1) ∧
    (secondPass m).blobSizes = [(1, ((h * w : Nat) : Int))] ∧
    boundingBox m.rows m.cols (secondPass m).labels 1
      = ⟨(r0 : Nat), (c0 : Nat), ((r0 + h - 1 : Nat) : Int), ((c0 + w - 1 : Nat) : Int)⟩ := by
  have hX : ∀ r c, inRect r0 c0 h w r c → fg m r c := fun r c hin => (hfg r c).2 hin
  have hcorner : inRect r0 c0 h w r0 c0 := rect_corner hh hw
  have hfar : inRect r0 c0 h w (r0 + h - 1) (c0 + w - 1) := by unfold inRect; omega
  have hrows : r0 + h ≤ m.rows := by have := (hX _ _ hfar).1; omega
  have hcols : c0 + w ≤ m.cols := by have := (hX _ _ hfar).2.1; omega
  have ht : (firstPass m).labels r0 c0 = 1 :=
    first_label m (hX _ _ hcorner) (fun r' c' hf => rect_first ((hfg r' c').1 hf))
  have hL : ∀ r c, inRect r0 c0 h w r c → (firstPass m).labels r c = 1 := by
    intro r c hin
    rw [← ht]
    refine rect_uniform m hX ?_ ?_ r c hin
    · intro r1 c1 r2 c2 _ hs
      exact (hfg r2 c2).1 hs.1
    · rw [ht]; decide
  have hLfg : ∀ r c, fg m r c → (firstPass m).labels r c = 1 :=
    fun r c hf => hL r c ((hfg r c).1 hf)
  have hrel : ∀ a b, related (firstPass m).labelMap a b → a = 1 ∧ b = 1 := by
    intro a b hab
    rcases rel_only m hab with ⟨h1, r, c, h2, h3⟩ | ⟨r, c, h2, r', c', h3, h4, h5⟩
    · rw [hLfg r c h2] at h3
      omega
    · rw [hLfg r' c' h3.1] at h4
      rcases h5 with h5 | ⟨r2, c2, h6, h7⟩
      · rw [hLfg r c h2] at h5
        omega
      · rw [hLfg r2 c2 h6.1] at h7
        omega
  have hfin : ∀ r c, inRect r0 c0 h w r c → (secondPass m).labels r c = 1 := by
    intro r c hin
    rw [final_of_rel_eq m (hX r c hin), hL r c hin]
    intro b hb
    rw [hL r c hin]
    exact (hrel _ _ hb).2
  have hconv : ∀ r c, (secondPass m).labels r c = 1 → inRect r0 c0 h w r c := by
    intro r c h1
    by_contra hn
    have hbg : ¬ fg m r c := fun hf => hn ((hfg r c).1 hf)
    rw [final_bg m hbg] at h1
    omega
  have hkeys : (secondPass m).blobSizes.map Prod.fst = [1] := by
    apply pairwise_eq_singleton (secondPass_inv m).keys
    intro l
    rw [blobSizes_keys]
    constructor
    · rintro ⟨hl0, r, c, _, _, hlab⟩
      by_cases hf : fg m r c
      · rw [hfin r c ((hfg r c).1 hf)] at hlab
        exact hlab.symm
      · rw [final_bg m hf] at hlab
        exact absurd hlab.symm hl0
    · rintro rfl
      exact ⟨by omega, r0, c0, (hX _ _ hcorner).1, (hX _ _ hcorner).2.1, hfin _ _ hcorner⟩
  have hcount : cellCount m.rows m.cols (secondPass m).labels 1 = h * w := by
    rw [← count_rect m.rows m.cols r0 c0 h w hrows hcols]
    unfold cellCount
    apply List.countP_congr
    rintro ⟨r, c⟩ _
    simp only [decide_eq_true_eq]
    exact ⟨hconv r c, hfin r c⟩
  refine ⟨hL, hfin, ?_, ?_⟩
  · cases hbs : (secondPass m).blobSizes with
    | nil => rw [hbs] at hkeys; simp at hkeys
    | cons e t =>
      obtain ⟨k, n⟩ := e
      rw [hbs] at hkeys
      simp only [List.map_cons, List.cons.injEq, List.map_eq_nil_iff] at hkeys
      obtain ⟨hk, ht'⟩ := hkeys
      subst ht'
      have hk' : k = 1 := hk
      subst hk'
      have hmem : ((1 : Int), n) ∈ (secondPass m).blobSizes := by rw [hbs]; simp
      have hf := mapFind_of_mem (secondPass_inv m).keys hmem
      rw [blobSizes_find, hcount] at hf
      have hne : ¬ ((1 : Int) = 0 ∨ h * w = 0) := by
        rw [not_or]
        exact ⟨by omega, Nat.mul_ne_zero (by omega) (by omega)⟩
      rw [if_neg hne] at hf
      injection hf with hf
      rw [hf]
  · obtain ⟨minRow, maxRow, minCol, maxCol, ⟨hb, ⟨ca, ha1, ha2, ha3⟩, ⟨cb, hb1, hb2, hb3⟩,
        ⟨rc, hc1, hc2, hc3⟩, ⟨rd, hd1, hd2, hd3⟩⟩, hbox⟩ :=
      boundingBox_spec m.rows m.cols (secondPass m).labels 1 m.rows_le m.cols_le
        ⟨r0, c0, (hX _ _ hcorner).1, (hX _ _ hcorner).2.1, hfin _ _ hcorner⟩
    have h1 := hb r0 c0 (hX _ _ hcorner).1 (hX _ _ hcorner).2.1 (hfin _ _ hcorner)
    have h2 := hb _ _ (hX _ _ hfar).1 (hX _ _ hfar).2.1 (hfin _ _ hfar)
    have h3 := hconv _ _ ha3
    have h4 := hconv _ _ hb3
    have h5 := hconv _ _ hc3
    have h6 := hconv _ _ hd3
    unfold inRect at h3 h4 h5 h6
    have e1 : minRow = r0 := by omega
    have e2 : maxRow = r0 + h - 1 := by omega
    have e3 : minCol = c0 := by omega
    have e4 : maxCol = c0 + w - 1 := by omega
    rw [hbox, e1, e2, e3, e4]

/-! ## Two filled rectangles -/

/-- When the label is the same along every edge from a pixel to a pixel it
sees, a filled rectangle carries the label of its top left pixel. -/
theorem rect_const (m : Mask) {r0 c0 h w : Nat}
    (hX : ∀ r c, inRect r0 c0 h w r c → fg m r c)
    (hedge : ∀ r c r' c', fg m r c → seen m r c r' c' →
      (firstPass m).labels r' c' = (firstPass m).labels r c) :
    ∀ r c, inRect r0 c0 h w r c → (firstPass m).labels r c = (firstPass m).labels r0 c0 := by
  apply before_induction
  intro r c ih hin
  by_cases hne : r = r0 ∧ c = c0
  · obtain ⟨rfl, rfl⟩ := hne
    rfl
  · obtain ⟨r', c', hin', hs⟩ := rect_pred hX hin hne
    rw [← hedge r c r' c' (hX _ _ hin) hs]
    exact ih r' c' hs.2.1 hin'

/-- Two filled rectangles, the first of which starts no later than the second
in raster order: the top left pixel of the first takes label 1, only the two
top left pixels can be roots, and every label is 1 or 2. -/
theorem two_rect_base (m : Mask) (r1 c1 h1 w1 r2 c2 h2 w2 : Nat)
    (hh1 : 0 < h1) (hw1 : 0 < w1) (_hh2 : 0 < h2) (_hw2 : 0 < w2)
    (hfg : ∀ r c, fg m r c ↔ inRect r1 c1 h1 w1 r c ∨ inRect r2 c2 h2 w2 r c)
    (hord : ¬ before r2 c2 r1 c1) :
    (firstPass m).labels r1 c1 = 1 ∧
    (∀ a b, isRoot m a b → (a = r1 ∧ b = c1) ∨ (a = r2 ∧ b = c2)) ∧
    (isRoot m r2 c2 → ¬ (r2 = r1 ∧ c2 = c1) → (firstPass m).labels r2 c2 = 2) ∧
    (∀ r c, fg m r c → (firstPass m).labels r c = 1 ∨ (firstPass m).labels r c = 2) := by
  have hX : ∀ r c, inRect r1 c1 h1 w1 r c → fg m r c := fun r c h => (hfg r c).2 (Or.inl h)
  have hY : ∀ r c, inRect r2 c2 h2 w2 r c → fg m r c := fun r c h => (hfg r c).2 (Or.inr h)
  have ht1 : fg m r1 c1 := hX _ _ (rect_corner hh1 hw1)
  have hL1 : (firstPass m).labels r1 c1 = 1 := by
    apply first_label m ht1
    intro r c hf hb
    rcases (hfg r c).1 hf with hin | hin
    · exact rect_first hin hb
    · have := rect_first hin
      unfold before at *
      omega
  have hroots : ∀ a b, isRoot m a b → (a = r1 ∧ b = c1) ∨ (a = r2 ∧ b = c2) := by
    intro a b hr
    rcases (hfg a b).1 hr.1 with hin | hin
    · left
      by_contra hne
      obtain ⟨r', c', _, hs⟩ := rect_pred hX hin hne
      exact hr.2 r' c' hs
    · right
      by_contra hne
      obtain ⟨r', c', _, hs⟩ := rect_pred hY hin hne
      exact hr.2 r' c' hs
  have hL2 : isRoot m r2 c2 → ¬ (r2 = r1 ∧ c2 = c1) → (firstPass m).labels r2 c2 = 2 := by
    intro hr hne
    have hb : before r1 c1 r2 c2 := by
      rcases before_total r1 c1 r2 c2 with h | ⟨e1, e2⟩ | h
      · exact h
      · exact absurd ⟨e1.symm, e2.symm⟩ hne
      · exact absurd h hord
    apply second_label m hL1 ht1 hr hb
    intro a b hab hbb
    rcases hroots a b hab with h | ⟨rfl, rfl⟩
    · exact h
    · exact absurd hbb (before_irrefl _ _)
  refine ⟨hL1, hroots, hL2, ?_⟩
  intro r c hf
  obtain ⟨a, b, hab, hlab⟩ := prov_of_root m hf
  rw [← hlab]
  rcases hroots a b hab with ⟨rfl, rfl⟩ | ⟨rfl, rfl⟩
  · exact Or.inl hL1
  · by_cases he : a = r1 ∧ b = c1
    · obtain ⟨rfl, rfl⟩ := he
      exact Or.inl hL1
    · exact Or.inr (hL2 hab he)

/-- Two filled rectangles with a pixel of one in the window of a pixel of the
other: every foreground pixel ends with label 1. -/
theorem two_rect_near (m : Mask) (r1 c1 h1 w1 r2 c2 h2 w2 : Nat)
    (hh1 : 0 < h1) (hw1 : 0 < w1) (hh2 : 0 < h2) (hw2 : 0 < w2)
    (hfg : ∀ r c, fg m r c ↔ inRect r1 c1 h1 w1 r c ∨ inRect r2 c2 h2 w2 r c)
    (hord : ¬ before r2 c2 r1 c1)
    (hadj : ∃ ra ca rb cb, inRect r1 c1 h1 w1 ra ca ∧ inRect r2 c2 h2 w2 rb cb ∧
      near ra ca rb cb) :
    ∀ r c, fg m r c → (secondPass m).labels r c = 1 := by
  obtain ⟨hL1, _, _, h12⟩ := two_rect_base m r1 c1 h1 w1 r2 c2 h2 w2 hh1 hw1 hh2 hw2 hfg hord
  have hX : ∀ r c, inRect r1 c1 h1 w1 r c → fg m r c := fun r c h => (hfg r c).2 (Or.inl h)
  have hY : ∀ r c, inRect r2 c2 h2 w2 r c → fg m r c := fun r c h => (hfg r c).2 (Or.inr h)
  have hcan1 : ∀ r c, fg m r c → (firstPass m).labels r c = 1 →
      (secondPass m).labels r c = 1 := by
    intro r c hf h1
    have hs := canonical_spec m (prov_self m hf)
    rw [final_fg m hf]
    rw [h1] at hs
    rw [h1]
    omega
  by_cases hall : ∀ r c, fg m r c → (firstPass m).labels r c = 1
  · intro r c hf
    exact hcan1 r c hf (hall r c hf)
  · have hrel21 : related (firstPass m).labelMap 2 1 := by
      by_contra hno
      have hedge : ∀ r c r' c', fg m r c → seen m r c r' c' →
          (firstPass m).labels r' c' = (firstPass m).labels r c := by
        intro r c r' c' hf hs
        have hlink := (prov_link m hf hs).1
        have hle := prov_min_le m hf hs
        rcases h12 r c hf with hp | hp <;> rcases h12 r' c' hs.1 with hq | hq
        · rw [hp, hq]
        · rw [hp, hq] at hlink
          exact absurd hlink hno
        · rw [hp, hq] at hle
          omega
        · rw [hp, hq]
      have hcX := rect_const m hX hedge
      have hcY := rect_const m hY hedge
      obtain ⟨ra, ca, rb, cb, hina, hinb, hn⟩ := hadj
      have hsame : (firstPass m).labels ra ca = (firstPass m).labels rb cb := by
        rcases before_total ra ca rb cb with hb | ⟨rfl, rfl⟩ | hb
        · exact hedge rb cb ra ca (hY _ _ hinb) ⟨hX _ _ hina, hb, near_symm hn⟩
        · rfl
        · exact (hedge ra ca rb cb (hX _ _ hina) ⟨hY _ _ hinb, hb, hn⟩).symm
      rw [hcX _ _ hina, hcY _ _ hinb] at hsame
      apply hall
      intro r c hf
      rcases (hfg r c).1 hf with hin | hin
      · rw [hcX _ _ hin, hL1]
      · rw [hcY _ _ hin, ← hsame, hL1]
    intro r c hf
    rcases h12 r c hf with hp | hp
    · exact hcan1 r c hf hp
    · have hs := canonical_spec m hrel21
      rw [final_fg m hf, hp]
      omega

/-- Two filled rectangles with no pixel of one in the window of a pixel of the
other: the pixels of the one that starts first end with label 1, those of the
other with label 2. -/
theorem two_rect_apart (m : Mask) (r1 c1 h1 w1 r2 c2 h2 w2 : Nat)
    (hh1 : 0 < h1) (hw1 : 0 < w1) (hh2 : 0 < h2) (hw2 : 0 < w2)
    (hfg : ∀ r c, fg m r c ↔ inRect r1 c1 h1 w1 r c ∨ inRect r2 c2 h2 w2 r c)
    (hord : ¬ before r2 c2 r1 c1)
    (hsep : ∀ ra ca rb cb, inRect r1 c1 h1 w1 ra ca → inRect r2 c2 h2 w2 rb cb →
      ¬ near ra ca rb cb) :
    (∀ r c, inRect r1 c1 h1 w1 r c → (secondPass m).labels r c = 1) ∧
    (∀ r c, inRect r2 c2 h2 w2 r c → (secondPass m).labels r c = 2) := by
  obtain ⟨hL1, _, hL2, _⟩ := two_rect_base m r1 c1 h1 w1 r2 c2 h2 w2 hh1 hw1 hh2 hw2 hfg hord
  have hX : ∀ r c, inRect r1 c1 h1 w1 r c → fg m r c := fun r c h => (hfg r c).2 (Or.inl h)
  have hY : ∀ r c, inRect r2 c2 h2 w2 r c → fg m r c := fun r c h => (hfg r c).2 (Or.inr h)
  have hclX : ∀ r c r' c', inRect r1 c1 h1 w1 r c → seen m r c r' c' →
      inRect r1 c1 h1 w1 r' c' := by
    intro r c r' c' hin hs
    rcases (hfg r' c').1 hs.1 with h | h
    · exact h
    · exact absurd hs.2.2 (hsep _ _ _ _ hin h)
  have hclY : ∀ r c r' c', inRect r2 c2 h2 w2 r c → seen m r c r' c' →
      inRect r2 c2 h2 w2 r' c' := by
    intro r c r' c' hin hs
    rcases (hfg r' c').1 hs.1 with h | h
    · exact absurd (near_symm hs.2.2) (hsep _ _ _ _ h hin)
    · exact h
  have hne : ¬ (r2 = r1 ∧ c2 = c1) := by
    rintro ⟨rfl, rfl⟩
    exact hsep _ _ _ _ (rect_corner hh1 hw1) (rect_corner hh2 hw2) (near_self _ _)
  have hroot2 : isRoot m r2 c2 := by
    refine ⟨hY _ _ (rect_corner hh2 hw2), ?_⟩
    intro r' c' hs
    exact rect_first (hclY _ _ _ _ (rect_corner hh2 hw2) hs) hs.2.1
  have hL2' := hL2 hroot2 hne
  have hLX : ∀ r c, inRect r1 c1 h1 w1 r c → (firstPass m).labels r c = 1 := by
    intro r c hin
    rw [← hL1]
    exact rect_uniform m hX hclX (by rw [hL1]; decide) r c hin
  have hLY : ∀ r c, inRect r2 c2 h2 w2 r c → (firstPass m).labels r c = 2 := by
    intro r c hin
    rw [← hL2']
    exact rect_uniform m hY hclY (by rw [hL2']; decide) r c hin
  have hrel : ∀ a b, related (firstPass m).labelMap a b → b = a := by
    intro a b hab
    rcases rel_only m hab with ⟨h1, _⟩ | ⟨r, c, hf, r', c', hs, ha, hb⟩
    · exact h1.symm
    · rcases (hfg r c).1 hf with hin | hin
      · rw [hLX _ _ (hclX _ _ _ _ hin hs)] at ha
        rcases hb with hb | ⟨r2', c2', hs2, hb⟩
        · rw [hLX _ _ hin] at hb
          omega
        · rw [hLX _ _ (hclX _ _ _ _ hin hs2)] at hb
          omega
      · rw [hLY _ _ (hclY _ _ _ _ hin hs)] at ha
        rcases hb with hb | ⟨r2', c2', hs2, hb⟩
        · rw [hLY _ _ hin] at hb
          omega
        · rw [hLY _ _ (hclY _ _ _ _ hin hs2)] at hb
          omega
  constructor
  · intro r c hin
    rw [final_of_rel_eq m (hX r c hin) (fun b hb => hrel _ b hb), hLX r c hin]
  · intro r c hin
    rw [final_of_rel_eq m (hY r c hin) (fun b hb => hrel _ b hb), hLY r c hin]

/-! ## Claims on extraction and the size table -/

/-- C2: for each label that passes the size test, the rectangle built at line
116 is `(minCol - 20, minRow - 20, (maxCol - minCol) + 40, (maxRow - minRow) + 40)`
for the tightest box `minRow, maxRow, minCol, maxCol` around the cells of the
final label grid that carry the label; nothing is clamped to the grid. When the
call returns, the candidates match these labels one to one, in order, and the
`pos_frame` of the candidate of a label is that rectangle. -/
theorem C2_pos_frame_is_padded_tight_box (frame : frame_t) :
    (∀ l ∈ survivors frame, ∃ minRow maxRow minCol maxCol : Nat,
      tightBox frame.mask_frame.rows frame.mask_frame.cols
        (secondPass frame.mask_frame).labels l minRow maxRow minCol maxCol ∧
      rectFor frame l = ⟨(minCol : Int) - 20, (minRow : Int) - 20,
        ((maxCol : Int) - minCol) + 40, ((maxRow : Int) - minRow) + 40⟩) ∧
    (∀ players, extract_player_from_frame frame = Except.ok players →
      List.Forall₂
        (fun p l => ∃ minRow maxRow minCol maxCol : Nat,
          tightBox frame.mask_frame.rows frame.mask_frame.cols
            (secondPass frame.mask_frame).labels l minRow maxRow minCol maxCol ∧
          p.pos_frame = ⟨(minCol : Int) - 20, (minRow : Int) - 20,
            ((maxCol : Int) - minCol) + 40, ((maxRow : Int) - minRow) + 40⟩)
        players (survivors frame)) := by
  have hbox : ∀ l ∈ survivors frame, ∃ minRow maxRow minCol maxCol : Nat,
      tightBox frame.mask_frame.rows frame.mask_frame.cols
        (secondPass frame.mask_frame).labels l minRow maxRow minCol maxCol ∧
      rectFor frame l = ⟨(minCol : Int) - 20, (minRow : Int) - 20,
        ((maxCol : Int) - minCol) + 40, ((maxRow : Int) - minRow) + 40⟩ := by
    intro l hl
    obtain ⟨hl0, hcount⟩ := (mem_survivors frame l).1 hl
    have hpos : 0 < cellCount frame.mask_frame.rows frame.mask_frame.cols
        (secondPass frame.mask_frame).labels l := by omega
    unfold cellCount at hpos
    rw [List.countP_pos_iff] at hpos
    obtain ⟨⟨r, c⟩, hp, hd⟩ := hpos
    rw [mem_pixels] at hp
    have hlab : (secondPass frame.mask_frame).labels r c = l := by simpa using hd
    obtain ⟨minRow, maxRow, minCol, maxCol, ht, hb⟩ :=
      boundingBox_spec frame.mask_frame.rows frame.mask_frame.cols
        (secondPass frame.mask_frame).labels l frame.mask_frame.rows_le
        frame.mask_frame.cols_le ⟨r, c, hp.1, hp.2, hlab⟩
    refine ⟨minRow, maxRow, minCol, maxCol, ht, ?_⟩
    unfold rectFor
    rw [hb]
    rfl
  refine ⟨hbox, ?_⟩
  intro players hret
  rw [((extract_ok_iff frame players).1 hret).2, List.forall₂_map_left_iff,
    List.forall₂_same]
  exact hbox

/-- C3: after both passes every foreground pixel of the mask carries a positive
label in the label grid and every background pixel carries 0. -/
theorem C3_foreground_labelled (m : Mask) (r c : Nat) (hr : r < m.rows) (hc : c < m.cols) :
    (m.px r c ≠ 0 → 0 < (secondPass m).labels r c) ∧
    (m.px r c = 0 → (secondPass m).labels r c = 0) :=
  ⟨fun h => final_pos m ⟨hr, hc, h⟩, fun h => final_bg m (fun hf => hf.2.2 h)⟩

/-- C3, at two cells of `chainMask`: the foreground pixel (1, 5) and the
background cell (1, 6). -/
theorem C3_foreground_labelled_witness :
    (chainMask.px 1 5 ≠ 0 ∧ 0 < (secondPass chainMask).labels 1 5) ∧
    (chainMask.px 1 6 = 0 ∧ (secondPass chainMask).labels 1 6 = 0) :=
  ⟨⟨by decide, (C3_foreground_labelled chainMask 1 5 (by decide) (by decide)).1 (by decide)⟩,
   ⟨by decide, (C3_foreground_labelled chainMask 1 6 (by decide) (by decide)).2 (by decide)⟩⟩

/-- C8: on a frame whose mask has no foreground pixel the call returns, and
the list it returns is empty. -/
theorem C8_no_foreground_no_candidates (frame : frame_t)
    (h : ∀ r < frame.mask_frame.rows, ∀ c < frame.mask_frame.cols,
      frame.mask_frame.px r c = 0) :
    extract_player_from_frame frame = Except.ok [] := by
  have hkeys : (secondPass frame.mask_frame).blobSizes.map Prod.fst = [] := by
    apply List.eq_nil_iff_forall_not_mem.2
    intro l hl
    obtain ⟨hl0, r, c, hr, hc, hlab⟩ := (blobSizes_keys frame.mask_frame l).1 hl
    have hbg : ¬ fg frame.mask_frame r c := fun hf => hf.2.2 (h r hr c hc)
    rw [final_bg frame.mask_frame hbg] at hlab
    exact hl0 hlab.symm
  have hbs : (secondPass frame.mask_frame).blobSizes = [] := List.map_eq_nil_iff.1 hkeys
  unfold extract_player_from_frame
  rw [hbs]
  rfl

/-- C8, on all-zero masks of 0 by 5, 4 by 0 and 3 by 3 cells. -/
theorem C8_no_foreground_no_candidates_witness :
    extract_player_from_frame ⟨zeroMask 0 5 (by decide) (by decide), ⟨0, 5⟩, 7⟩
      = Except.ok [] ∧
    extract_player_from_frame ⟨zeroMask 4 0 (by decide) (by decide), ⟨4, 0⟩, 7⟩
      = Except.ok [] ∧
    extract_player_from_frame ⟨zeroMask 3 3 (by decide) (by decide), ⟨3, 3⟩, 7⟩
      = Except.ok [] :=
  ⟨C8_no_foreground_no_candidates _ (by decide),
   C8_no_foreground_no_candidates _ (by decide),
   C8_no_foreground_no_candidates _ (by decide)⟩

/-! ## Claims on components and rectangles -/

set_option maxRecDepth 100000 in
/-- C4 (evaluation at `chainMask`): the five foreground pixels of `chainMask`
form one tolerant-connected component, and the size table ends with the two
keys 1 and 2: the pixel (0, 22) is split off with label 2. -/
theorem C4_chain_split :
    (∀ p q, fg chainMask p.1 p.2 → fg chainMask q.1 q.2 → connected chainMask p q) ∧
    (secondPass chainMask).blobSizes = [(1, 4), (2, 1)] ∧
    (secondPass chainMask).labels 0 22 = 2 := by
  refine ⟨?_, by decide, by decide⟩
  have hcases : ∀ r c, fg chainMask r c →
      (r = 0 ∧ c = 0) ∨ (r = 1 ∧ c = 5) ∨ (r = 0 ∧ c = 11) ∨ (r = 1 ∧ c = 16) ∨
        (r = 0 ∧ c = 22) := by
    intro r c hf
    have hpx : chainMask.px r c ≠ 0 := hf.2.2
    by_cases hcond : (r = 0 ∧ (c = 0 ∨ c = 11 ∨ c = 22)) ∨ (r = 1 ∧ (c = 5 ∨ c = 16))
    · omega
    · exact absurd (if_neg hcond) hpx
  have s1 : tolerantStep chainMask (0, 0) (1, 5) := ⟨by decide, by decide, by decide⟩
  have s2 : tolerantStep chainMask (1, 5) (0, 11) := ⟨by decide, by decide, by decide⟩
  have s3 : tolerantStep chainMask (0, 11) (1, 16) := ⟨by decide, by decide, by decide⟩
  have s4 : tolerantStep chainMask (1, 16) (0, 22) := ⟨by decide, by decide, by decide⟩
  have hsymm : ∀ a b, tolerantStep chainMask a b → tolerantStep chainMask b a :=
    fun a b h => ⟨h.2.1, h.1, near_symm h.2.2⟩
  have hfrom : ∀ p, fg chainMask p.1 p.2 → connected chainMask (0, 0) p := by
    rintro ⟨r, c⟩ hf
    have c1 : connected chainMask (0, 0) (1, 5) := Relation.ReflTransGen.single s1
    have c2 : connected chainMask (0, 0) (0, 11) := Relation.ReflTransGen.tail c1 s2
    have c3 : connected chainMask (0, 0) (1, 16) := Relation.ReflTransGen.tail c2 s3
    have c4 : connected chainMask (0, 0) (0, 22) := Relation.ReflTransGen.tail c3 s4
    rcases hcases r c hf with ⟨rfl, rfl⟩ | ⟨rfl, rfl⟩ | ⟨rfl, rfl⟩ | ⟨rfl, rfl⟩ |
      ⟨rfl, rfl⟩
    · exact Relation.ReflTransGen.refl
    · exact c1
    · exact c2
    · exact c3
    · exact c4
  intro p q hp hq
  have hback : connected chainMask p (0, 0) :=
    Relation.ReflTransGen.symmetric hsymm (hfrom p hp)
  exact Relation.ReflTransGen.trans hback (hfrom q hq)

/-- C5: for a mask whose foreground is exactly two filled rectangles, if some
pixel of one lies in the window of some pixel of the other (both offsets at
most 10) then all foreground pixels end with one and the same label; if there
is no such pair, the pixels of each rectangle end with one label and the two
labels differ. -/
theorem C5_two_rectangles (m : Mask) (r1 c1 h1 w1 r2 c2 h2 w2 : Nat)
    (hh1 : 0 < h1) (hw1 : 0 < w1) (hh2 : 0 < h2) (hw2 : 0 < w2)
    (hfg : ∀ r c, fg m r c ↔ inRect r1 c1 h1 w1 r c ∨ inRect r2 c2 h2 w2 r c) :
    ((∃ ra ca rb cb, inRect r1 c1 h1 w1 ra ca ∧ inRect r2 c2 h2 w2 rb cb ∧
        near ra ca rb cb) →
      ∃ l, ∀ r c, fg m r c → (secondPass m).labels r c = l) ∧
    ((¬ ∃ ra ca rb cb, inRect r1 c1 h1 w1 ra ca ∧ inRect r2 c2 h2 w2 rb cb ∧
        near ra ca rb cb) →
      ∃ la lb, la ≠ lb ∧
        (∀ r c, inRect r1 c1 h1 w1 r c → (secondPass m).labels r c = la) ∧
        (∀ r c, inRect r2 c2 h2 w2 r c → (secondPass m).labels r c = lb)) := by
  have hfg' : ∀ r c, fg m r c ↔ inRect r2 c2 h2 w2 r c ∨ inRect r1 c1 h1 w1 r c :=
    fun r c => (hfg r c).trans Or.comm
  by_cases hord : before r2 c2 r1 c1
  · have hord' : ¬ before r1 c1 r2 c2 := before_asymm hord
    constructor
    · rintro ⟨ra, ca, rb, cb, ha, hb, hn⟩
      exact ⟨1, two_rect_near m r2 c2 h2 w2 r1 c1 h1 w1 hh2 hw2 hh1 hw1 hfg' hord'
        ⟨rb, cb, ra, ca, hb, ha, near_symm hn⟩⟩
    · intro hno
      have hsep : ∀ ra ca rb cb, inRect r2 c2 h2 w2 ra ca → inRect r1 c1 h1 w1 rb cb →
          ¬ near ra ca rb cb :=
        fun ra ca rb cb ha hb hn => hno ⟨rb, cb, ra, ca, hb, ha, near_symm hn⟩
      obtain ⟨hY, hX⟩ := two_rect_apart m r2 c2 h2 w2 r1 c1 h1 w1 hh2 hw2 hh1 hw1 hfg' hord' hsep
      exact ⟨2, 1, by decide, hX, hY⟩
  · constructor
    · intro hadj
      exact ⟨1, two_rect_near m r1 c1 h1 w1 r2 c2 h2 w2 hh1 hw1 hh2 hw2 hfg hord hadj⟩
    · intro hno
      have hsep : ∀ ra ca rb cb, inRect r1 c1 h1 w1 ra ca → inRect r2 c2 h2 w2 rb cb →
          ¬ near ra ca rb cb :=
        fun ra ca rb cb ha hb hn => hno ⟨ra, ca, rb, cb, ha, hb, hn⟩
      obtain ⟨hX, hY⟩ := two_rect_apart m r1 c1 h1 w1 r2 c2 h2 w2 hh1 hw1 hh2 hw2 hfg hord hsep
      exact ⟨1, 2, by decide, hX, hY⟩

/-- C5, on `nearMask` (column gap 6, one label) and on `farMask` (column gap
12, two labels). -/
theorem C5_two_rectangles_witness :
    (∃ l, ∀ r c, fg nearMask r c → (secondPass nearMask).labels r c = l) ∧
    (∃ la lb, la ≠ lb ∧
      (∀ r c, inRect 0 0 1 2 r c → (secondPass farMask).labels r c = la) ∧
      (∀ r c, inRect 0 13 1 2 r c → (secondPass farMask).labels r c = lb)) := by
  have hnear : ∀ r c, fg nearMask r c ↔ inRect 0 0 2 3 r c ∨ inRect 1 8 2 2 r c := by
    intro r c
    constructor
    · intro hf
      by_contra hcond
      exact hf.2.2 (if_neg hcond)
    · intro hcond
      refine ⟨?_, ?_, ?_⟩
      · show r < 4
        unfold inRect at hcond; omega
      · show c < 12
        unfold inRect at hcond; omega
      · show (if inRect 0 0 2 3 r c ∨ inRect 1 8 2 2 r c then 255 else 0) ≠ 0
        rw [if_pos hcond]; decide
  have hfar : ∀ r c, fg farMask r c ↔ inRect 0 0 1 2 r c ∨ inRect 0 13 1 2 r c := by
    intro r c
    constructor
    · intro hf
      by_contra hcond
      exact hf.2.2 (if_neg hcond)
    · intro hcond
      refine ⟨?_, ?_, ?_⟩
      · show r < 1
        unfold inRect at hcond; omega
      · show c < 15
        unfold inRect at hcond; omega
      · show (if inRect 0 0 1 2 r c ∨ inRect 0 13 1 2 r c then 255 else 0) ≠ 0
        rw [if_pos hcond]; decide
  refine ⟨(C5_two_rectangles nearMask 0 0 2 3 1 8 2 2 (by decide) (by decide) (by decide)
      (by decide) hnear).1 ⟨0, 2, 1, 8, by decide, by decide, by decide⟩,
    (C5_two_rectangles farMask 0 0 1 2 0 13 1 2 (by decide) (by decide) (by decide)
      (by decide) hfar).2 ?_⟩
  rintro ⟨ra, ca, rb, cb, ha, hb, hn⟩
  unfold inRect at ha hb
  unfold near at hn
  omega

set_option maxRecDepth 100000 in
/-- C6 (evaluation at `hubMask`): the cells (0, 22) and (12, 27) both end with
label 2, and no chain of tolerantly adjacent cells that all carry label 2 joins
them. -/
theorem C6_label_not_connected :
    (secondPass hubMask).labels 0 22 = 2 ∧ (secondPass hubMask).labels 12 27 = 2 ∧
    ¬ Relation.ReflTransGen
        (labelStep hubMask.rows hubMask.cols (secondPass hubMask).labels 2) (0, 22) (12, 27) := by
  refine ⟨by decide, by decide, ?_⟩
  have hcells : ∀ r < 11, ∀ c < 28, (secondPass hubMask).labels r c = 2 → r = 0 ∧ c = 22 := by
    decide
  have hstay : ∀ q, Relation.ReflTransGen
      (labelStep hubMask.rows hubMask.cols (secondPass hubMask).labels 2) (0, 22) q →
      q = (0, 22) := by
    intro q hq
    induction hq with
    | refl => rfl
    | @tail b q' _ hstep ih =>
      subst ih
      obtain ⟨r, c⟩ := q'
      obtain ⟨_, ⟨_, hc, hl⟩, hn⟩ := hstep
      have hn' : near 0 22 r c := hn
      unfold near at hn'
      have hc' : c < 28 := hc
      obtain ⟨rfl, rfl⟩ := hcells r (by omega) c hc' hl
      rfl
  intro h
  have := hstay _ h
  simp at this

/-- C9: in a mask with exactly one foreground pixel, that pixel takes label 1 in
the first pass and keeps it in the second, the size table is `[(1, 1)]`, and
the call returns the empty list. -/
theorem C9_single_pixel (frame : frame_t) (r0 c0 : Nat)
    (h0 : fg frame.mask_frame r0 c0)
    (hone : ∀ r c, fg frame.mask_frame r c → r = r0 ∧ c = c0) :
    (firstPass frame.mask_frame).labels r0 c0 = 1 ∧
    (secondPass frame.mask_frame).labels r0 c0 = 1 ∧
    (secondPass frame.mask_frame).blobSizes = [(1, 1)] ∧
    extract_player_from_frame frame = Except.ok [] := by
  have hfg : ∀ r c, fg frame.mask_frame r c ↔ inRect r0 c0 1 1 r c := by
    intro r c
    constructor
    · intro hf
      have := hone r c hf
      unfold inRect
      omega
    · intro hin
      unfold inRect at hin
      have e1 : r = r0 := by omega
      have e2 : c = c0 := by omega
      rw [e1, e2]
      exact h0
  obtain ⟨hL, hfin, hbs, _⟩ :=
    one_rect frame.mask_frame r0 c0 1 1 (by decide) (by decide) hfg
  have hin : inRect r0 c0 1 1 r0 c0 := rect_corner (by decide) (by decide)
  have hbs' : (secondPass frame.mask_frame).blobSizes = [(1, 1)] := by
    rw [hbs]
    rfl
  refine ⟨hL _ _ hin, hfin _ _ hin, hbs', ?_⟩
  unfold extract_player_from_frame
  rw [hbs']
  unfold extractLoop
  rw [extractEntry_small _ _ _ _ (by unfold MIN_BLOB_SIZE; decide)]
  rfl

/-- C9, on `dotFrame`, whose mask has the only foreground pixel (2, 3). -/
theorem C9_single_pixel_witness :
    (firstPass dotFrame.mask_frame).labels 2 3 = 1 ∧
    (secondPass dotFrame.mask_frame).labels 2 3 = 1 ∧
    (secondPass dotFrame.mask_frame).blobSizes = [(1, 1)] ∧
    extract_player_from_frame dotFrame = Except.ok [] := by
  have hone : ∀ r c, fg dotFrame.mask_frame r c → r = 2 ∧ c = 3 := by
    intro r c hf
    by_contra hcond
    exact hf.2.2 (if_neg hcond)
  have h0 : fg dotFrame.mask_frame 2 3 := by decide
  exact C9_single_pixel dotFrame 2 3 h0 hone

theorem firstPass_eq_upTo (m : Mask) : firstPass m = firstPassUpTo m (pixels m.rows m.cols) := by
  unfold firstPass firstPassUpTo
  exact rasterFold_eq _ _ _ _

theorem firstPassUpTo_snoc (m : Mask) (pre : List (Nat × Nat)) (r c : Nat) :
    firstPassUpTo m (pre ++ [(r, c)]) = firstPassPixel m (firstPassUpTo m pre) r c := by
  unfold firstPassUpTo
  rw [List.foldl_append]
  rfl

theorem firstPass_eq_foldl (m : Mask) {pre suf : List (Nat × Nat)}
    (h : pixels m.rows m.cols = pre ++ suf) :
    firstPass m = suf.foldl (fun s p => firstPassPixel m s p.1 p.2) (firstPassUpTo m pre) := by
  rw [firstPass_eq_upTo, h]
  unfold firstPassUpTo
  rw [List.foldl_append]

/-- The invariant of the first pass holds at every point between two pixels. -/
theorem firstInv_upTo (m : Mask) :
    ∀ (pre suf : List (Nat × Nat)), pixels m.rows m.cols = pre ++ suf →
      FirstInv m pre (firstPassUpTo m pre) := by
  intro pre
  induction pre using List.reverseRecOn with
  | nil =>
    intro suf _
    exact firstInv_init m
  | append_singleton pre a ih =>
    intro suf h
    obtain ⟨r, c⟩ := a
    have h' : pixels m.rows m.cols = pre ++ (r, c) :: suf := by
      rw [h, List.append_assoc]
      rfl
    rw [firstPassUpTo_snoc]
    exact firstInv_step m h' (ih _ h')

theorem firstPassPixel_skip (m : Mask) (s : LabelState) {r c : Nat} (hpx : m.px r c = 0) :
    firstPassPixel m s r c = s := by
  unfold firstPassPixel
  rw [if_neg (not_not.2 hpx)]

theorem firstPassPixel_open (m : Mask) (s : LabelState) {r c : Nat} (hpx : m.px r c ≠ 0)
    (hemp : (scanWindow m.rows m.cols s.labels r c).1 = []) :
    firstPassPixel m s r c
      = ⟨s.currentLabel + 1, setAt s.labels r c s.currentLabel,
          mapInsert s.currentLabel [s.currentLabel] s.labelMap⟩ := by
  unfold firstPassPixel
  rw [if_pos hpx]
  simp only [hemp, List.isEmpty_nil, if_true]

theorem firstPassPixel_join (m : Mask) (s : LabelState) {r c : Nat} (hpx : m.px r c ≠ 0)
    (hemp : (scanWindow m.rows m.cols s.labels r c).1 ≠ []) :
    firstPassPixel m s r c
      = ⟨s.currentLabel, setAt s.labels r c (scanWindow m.rows m.cols s.labels r c).2,
          mergeNeighbours (scanWindow m.rows m.cols s.labels r c).1
            (scanWindow m.rows m.cols s.labels r c).2 s.labelMap⟩ := by
  unfold firstPassPixel
  rw [if_pos hpx]
  have : (scanWindow m.rows m.cols s.labels r c).1.isEmpty = false := by
    cases h : (scanWindow m.rows m.cols s.labels r c).1 with
    | nil => exact absurd h hemp
    | cons a t => rfl
  simp only [this]
  rfl

theorem firstPassPixel_labels_other (m : Mask) (s : LabelState) {r c r' c' : Nat}
    (h : ¬ (r' = r ∧ c' = c)) : (firstPassPixel m s r c).labels r' c' = s.labels r' c' := by
  by_cases hpx : m.px r c = 0
  · rw [firstPassPixel_skip m s hpx]
  · by_cases hemp : (scanWindow m.rows m.cols s.labels r c).1 = []
    · rw [firstPassPixel_open m s hpx hemp]
      exact setAt_other _ _ _ _ h
    · rw [firstPassPixel_join m s hpx hemp]
      exact setAt_other _ _ _ _ h

theorem currentLabel_le_step (m : Mask) (s : LabelState) (r c : Nat) :
    s.currentLabel ≤ (firstPassPixel m s r c).currentLabel ∧
    (firstPassPixel m s r c).currentLabel ≤ s.currentLabel + 1 := by
  by_cases hpx : m.px r c = 0
  · rw [firstPassPixel_skip m s hpx]
    omega
  · by_cases hemp : (scanWindow m.rows m.cols s.labels r c).1 = []
    · rw [firstPassPixel_open m s hpx hemp]
      simp only
      omega
    · rw [firstPassPixel_join m s hpx hemp]
      simp only
      omega

theorem foldl_labels_other (m : Mask) (l : List (Nat × Nat)) (s : LabelState) {r c : Nat}
    (h : (r, c) ∉ l) :
    (l.foldl (fun s p => firstPassPixel m s p.1 p.2) s).labels r c = s.labels r c := by
  induction l generalizing s with
  | nil => rfl
  | cons a t ih =>
    rw [List.foldl_cons, ih _ (fun h' => h (List.mem_cons_of_mem _ h'))]
    apply firstPassPixel_labels_other
    rintro ⟨e1, e2⟩
    apply h
    rw [e1, e2]
    exact List.mem_cons_self _ _

theorem foldl_currentLabel_le (m : Mask) (l : List (Nat × Nat)) (s : LabelState) :
    s.currentLabel ≤ (l.foldl (fun s p => firstPassPixel m s p.1 p.2) s).currentLabel ∧
    (l.foldl (fun s p => firstPassPixel m s p.1 p.2) s).currentLabel
      ≤ s.currentLabel + (l.length : Int) := by
  induction l generalizing s with
  | nil => simp
  | cons a t ih =>
    rw [List.foldl_cons]
    have h1 := ih (firstPassPixel m s a.1 a.2)
    have h2 := currentLabel_le_step m s a.1 a.2
    rw [List.length_cons]
    push_cast
    omega

/-- The label of a visited cell does not change during the rest of the first
pass, and the cells not yet visited still hold 0. -/
theorem upTo_labels (m : Mask) {pre suf : List (Nat × Nat)}
    (h : pixels m.rows m.cols = pre ++ suf) (r c : Nat) :
    (firstPassUpTo m pre).labels r c
      = if (r, c) ∈ pre then (firstPass m).labels r c else 0 := by
  by_cases hm : (r, c) ∈ pre
  · rw [if_pos hm, firstPass_eq_foldl m h, foldl_labels_other]
    intro hs
    have hpw := pixels_pairwise m.rows m.cols
    rw [h, List.pairwise_append] at hpw
    exact before_irrefl r c (hpw.2.2 _ hm _ hs)
  · rw [if_neg hm]
    by_contra hne
    exact hm ((firstInv_upTo m pre suf h).zero r c hne).1

theorem upTo_currentLabel_le (m : Mask) {pre suf : List (Nat × Nat)}
    (h : pixels m.rows m.cols = pre ++ suf) :
    (firstPassUpTo m pre).currentLabel ≤ (firstPass m).currentLabel := by
  rw [firstPass_eq_foldl m h]
  exact (foldl_currentLabel_le m suf _).1

theorem length_pixels (rows cols : Nat) : (pixels rows cols).length = rows * cols := by
  unfold pixels
  rw [List.length_product, List.length_range, List.length_range]

/-- A mask with fewer than `INT_MAX` cells cannot overflow the label counter. -/
theorem noOverflow_of_size (m : Mask) (h : m.rows * m.cols < 2147483647) : NoOverflow m := by
  unfold NoOverflow
  rw [firstPass_eq_upTo]
  have h1 := (foldl_currentLabel_le m (pixels m.rows m.cols) ⟨1, fun _ _ => 0, []⟩).2
  rw [length_pixels] at h1
  unfold firstPassUpTo
  have h2 : ((m.rows * m.cols : Nat) : Int) < 2147483647 := by exact_mod_cast h
  have h3 : INT_MAX = 2147483647 := rfl
  simp only at h1
  omega

theorem opensLabel_iff (m : Mask) (r c : Nat) : opensLabel m (r, c) = true ↔ isRoot m r c := by
  unfold opensLabel isRoot
  rw [Bool.and_eq_true, decide_eq_true_eq, List.all_eq_true]
  constructor
  · rintro ⟨hf, hall⟩
    refine ⟨hf, ?_⟩
    intro r' c' hs
    have := hall (r', c') (mem_pixels.2 ⟨hs.1.1, hs.1.2.1⟩)
    simp only [Bool.not_eq_true', decide_eq_false_iff_not] at this
    exact this hs
  · rintro ⟨hf, hall⟩
    refine ⟨hf, ?_⟩
    rintro ⟨r', c'⟩ _
    simp only [Bool.not_eq_true', decide_eq_false_iff_not]
    exact hall r' c'

/-- At a foreground pixel the neighbour set is empty exactly when the pixel
sees no earlier foreground pixel. -/
theorem scan_empty_iff (m : Mask) {pre suf : List (Nat × Nat)} {r c : Nat}
    (hsplit : pixels m.rows m.cols = pre ++ (r, c) :: suf) :
    (scanWindow m.rows m.cols (firstPassUpTo m pre).labels r c).1 = []
      ↔ ∀ r' c', ¬ seen m r c r' c' := by
  have inv := firstInv_upTo m pre _ hsplit
  have hseen := scanWindow_seen m hsplit inv
  constructor
  · intro hemp r' c' hs
    have := (hseen _).2 ⟨r', c', hs, rfl⟩
    rw [hemp] at this
    exact List.not_mem_nil _ this
  · intro hno
    apply List.eq_nil_iff_forall_not_mem.2
    intro x hx
    obtain ⟨r', c', hs, _⟩ := (hseen x).1 hx
    exact hno r' c' hs

/-- The label counter is one more than the number of visited pixels that
opened a label. -/
theorem upTo_currentLabel (m : Mask) :
    ∀ (pre suf : List (Nat × Nat)), pixels m.rows m.cols = pre ++ suf →
      (firstPassUpTo m pre).currentLabel = 1 + ((pre.countP (opensLabel m) : Nat) : Int) := by
  intro pre
  induction pre using List.reverseRecOn with
  | nil =>
    intro suf _
    rfl
  | append_singleton pre a ih =>
    intro suf h
    obtain ⟨r, c⟩ := a
    have h' : pixels m.rows m.cols = pre ++ (r, c) :: suf := by
      rw [h, List.append_assoc]
      rfl
    have hin := (pixels_split h').1
    rw [firstPassUpTo_snoc, List.countP_append, List.countP_singleton]
    have ih' := ih _ h'
    by_cases hpx : m.px r c = 0
    · have hno : opensLabel m (r, c) = false := by
        cases ho : opensLabel m (r, c)
        · rfl
        · exact absurd hpx ((opensLabel_iff m r c).1 ho).1.2.2
      rw [firstPassPixel_skip m _ hpx, hno, ih']
      simp
    · by_cases hemp : (scanWindow m.rows m.cols (firstPassUpTo m pre).labels r c).1 = []
      · have hyes : opensLabel m (r, c) = true :=
          (opensLabel_iff m r c).2 ⟨⟨hin.1, hin.2, hpx⟩, (scan_empty_iff m h').1 hemp⟩
        rw [firstPassPixel_open m _ hpx hemp, hyes]
        simp only [if_true]
        rw [ih']
        push_cast
        ring
      · have hno : opensLabel m (r, c) = false := by
          cases ho : opensLabel m (r, c)
          · rfl
          · exact absurd ((scan_empty_iff m h').2 ((opensLabel_iff m r c).1 ho).2) hemp
        rw [firstPassPixel_join m _ hpx hemp, hno]
        simp only
        rw [ih']
        simp

/-! ## Consequences of a label counter that stays within `int` -/

theorem prov_lt_intmax (m : Mask) (hno : NoOverflow m) {r c : Nat} (hf : fg m r c) :
    (firstPass m).labels r c < INT_MAX := by
  have := ((firstPass_inv m).pos r c ((fg_iff_mem m r c).1 hf).1 hf.2.2).2
  unfold NoOverflow at hno
  omega

/-- Without overflow the label of a pixel that sees earlier foreground pixels
is the label of one of them. -/
theorem prov_min_attained (m : Mask) (hno : NoOverflow m) {r c r' c' : Nat} (hf : fg m r c)
    (hs : seen m r c r' c') :
    ∃ r'' c'', seen m r c r'' c'' ∧ (firstPass m).labels r'' c'' = (firstPass m).labels r c := by
  rcases (prov_min_mem m hf hs).2 with h | h
  · have := prov_lt_intmax m hno hf
    omega
  · exact h

/-- Without overflow `smallestLabel` is a member of a nonempty neighbour set. -/
theorem smallest_mem (m : Mask) (hno : NoOverflow m) {pre suf : List (Nat × Nat)} {r c : Nat}
    (hsplit : pixels m.rows m.cols = pre ++ (r, c) :: suf)
    (hne : (scanWindow m.rows m.cols (firstPassUpTo m pre).labels r c).1 ≠ []) :
    (scanWindow m.rows m.cols (firstPassUpTo m pre).labels r c).2
      ∈ (scanWindow m.rows m.cols (firstPassUpTo m pre).labels r c).1 := by
  have inv := firstInv_upTo m pre _ hsplit
  have hseen := scanWindow_seen m hsplit inv
  obtain ⟨_, _, k3, _, k5⟩ :=
    scanWindow_spec m.rows m.cols (firstPassUpTo m pre).labels r c
  rcases k5 with h | h
  · exfalso
    obtain ⟨x0, hx0⟩ : ∃ x0, x0 ∈ (scanWindow m.rows m.cols (firstPassUpTo m pre).labels r c).1 := by
      cases hl : (scanWindow m.rows m.cols (firstPassUpTo m pre).labels r c).1 with
      | nil => exact absurd hl hne
      | cons a t => exact ⟨a, List.mem_cons_self _ _⟩
    obtain ⟨r', c', hs, hlab⟩ := (hseen x0).1 hx0
    have hpre : (r', c') ∈ pre := ((pixels_split hsplit).2 r' c').2 ⟨hs.1.1, hs.1.2.1, hs.2.1⟩
    have h1 := (inv.pos r' c' hpre hs.1.2.2).2
    have h2 := upTo_currentLabel_le m hsplit
    have h3 := k3 x0 hx0
    unfold NoOverflow at hno
    omega
  · exact h

/-! ## Labels never join two components -/

theorem tolerantStep_symm {m : Mask} {p q : Nat × Nat} (h : tolerantStep m p q) :
    tolerantStep m q p :=
  ⟨h.2.1, h.1, near_symm h.2.2⟩

theorem connected_symm {m : Mask} {p q : Nat × Nat} (h : connected m p q) : connected m q p :=
  Relation.ReflTransGen.symmetric (fun _ _ h => tolerantStep_symm h) h

theorem connected_trans {m : Mask} {p q r : Nat × Nat} (h1 : connected m p q)
    (h2 : connected m q r) : connected m p r :=
  Relation.ReflTransGen.trans h1 h2

theorem connected_of_seen {m : Mask} {r c r' c' : Nat} (hf : fg m r c)
    (hs : seen m r c r' c') : connected m (r, c) (r', c') :=
  Relation.ReflTransGen.single ⟨hf, hs.1, hs.2.2⟩

/-- Without overflow every foreground pixel is joined to the root that opened
its label. -/
theorem connected_root (m : Mask) (hno : NoOverflow m) :
    ∀ r c, fg m r c → ∃ r0 c0, isRoot m r0 c0 ∧
      (firstPass m).labels r0 c0 = (firstPass m).labels r c ∧ connected m (r, c) (r0, c0) := by
  apply before_induction
  intro r c ih hf
  by_cases hroot : ∀ r' c', ¬ seen m r c r' c'
  · exact ⟨r, c, ⟨hf, hroot⟩, rfl, Relation.ReflTransGen.refl⟩
  · push_neg at hroot
    obtain ⟨r', c', hs⟩ := hroot
    obtain ⟨r2, c2, hs2, hl2⟩ := prov_min_attained m hno hf hs
    obtain ⟨r0, c0, h0, hl0, hc0⟩ := ih r2 c2 hs2.2.1 hs2.1
    exact ⟨r0, c0, h0, hl0.trans hl2, connected_trans (connected_of_seen hf hs2) hc0⟩

theorem root_unique (m : Mask) {r c r' c' : Nat} (h1 : isRoot m r c) (h2 : isRoot m r' c')
    (hl : (firstPass m).labels r c = (firstPass m).labels r' c') : r = r' ∧ c = c' := by
  rcases before_total r c r' c' with hb | he | hb
  · have := root_gt m h2 h1.1 hb
    omega
  · exact he
  · have := root_gt m h1 h2.1 hb
    omega

theorem connected_same_prov (m : Mask) (hno : NoOverflow m) {r c r' c' : Nat}
    (hp : fg m r c) (hq : fg m r' c')
    (hl : (firstPass m).labels r c = (firstPass m).labels r' c') :
    connected m (r, c) (r', c') := by
  obtain ⟨r1, c1, h1, l1, k1⟩ := connected_root m hno r c hp
  obtain ⟨r2, c2, h2, l2, k2⟩ := connected_root m hno r' c' hq
  obtain ⟨rfl, rfl⟩ := root_unique m h1 h2 (by rw [l1, l2, hl])
  exact connected_trans k1 (connected_symm k2)

/-- Two labels related in `labelMap` are carried by two joined pixels. -/
theorem related_connected (m : Mask) {a b : Int} (h : related (firstPass m).labelMap a b) :
    ∃ r c r' c', fg m r c ∧ fg m r' c' ∧ (firstPass m).labels r c = a ∧
      (firstPass m).labels r' c' = b ∧ connected m (r, c) (r', c') := by
  rcases rel_only m h with ⟨h1, r, c, hf, hl⟩ | ⟨r, c, hf, r', c', hs, ha, hb⟩
  · exact ⟨r, c, r, c, hf, hf, hl, by rw [hl, h1], Relation.ReflTransGen.refl⟩
  · have k1 : connected m (r', c') (r, c) := connected_symm (connected_of_seen hf hs)
    rcases hb with hb | ⟨r2, c2, hs2, hb⟩
    · exact ⟨r', c', r, c, hs.1, hf, ha, hb, k1⟩
    · exact ⟨r', c', r2, c2, hs.1, hs2.1, ha, hb, connected_trans k1 (connected_of_seen hf hs2)⟩

/-- Without overflow two pixels that end with the same label are joined. -/
theorem connected_same_final (m : Mask) (hno : NoOverflow m) {r c r' c' : Nat}
    (hp : fg m r c) (hq : fg m r' c')
    (hl : (secondPass m).labels r c = (secondPass m).labels r' c') :
    connected m (r, c) (r', c') := by
  rw [final_fg m hp, final_fg m hq] at hl
  obtain ⟨a1, b1, a2, b2, f1, f2, l1, l2, k1⟩ :=
    related_connected m (canonical_spec m (prov_self m hp)).1
  obtain ⟨a3, b3, a4, b4, f3, f4, l3, l4, k2⟩ :=
    related_connected m (canonical_spec m (prov_self m hq)).1
  have e1 := connected_same_prov m hno hp f1 l1.symm
  have e2 := connected_same_prov m hno f2 f4 (by rw [l2, l4, hl])
  have e3 := connected_same_prov m hno f3 hq l3
  exact connected_trans e1 (connected_trans k1 (connected_trans e2
    (connected_trans (connected_symm k2) e3)))

/-! ## The recorded relation between two pixels -/

theorem fresh_key_absent {m : Mask} {pre : List (Nat × Nat)} {s : LabelState}
    (inv : FirstInv m pre s) : mapFind s.currentLabel s.labelMap = none := by
  cases hf : mapFind s.currentLabel s.labelMap with
  | none => rfl
  | some set =>
    exfalso
    have hmem := headD_mem (inv.wf _ _ hf).2
    have hrel : related s.labelMap s.currentLabel (set.headD 0) := by
      unfold related
      rw [hf]
      exact hmem
    have := (inv.rel_range _ _ hrel).2.1
    omega

theorem related_open {m : Mask} {pre : List (Nat × Nat)} {s : LabelState}
    (inv : FirstInv m pre s) (a b : Int) :
    related (mapInsert s.currentLabel [s.currentLabel] s.labelMap) a b ↔
      related s.labelMap a b ∨ (a = s.currentLabel ∧ b = s.currentLabel) := by
  have hnone := fresh_key_absent inv
  unfold related
  rw [mapFind_mapInsert_absent _ _ _ _ hnone]
  by_cases h : a = s.currentLabel
  · subst h
    rw [if_pos rfl, hnone]
    simp
  · rw [if_neg h]
    simp [h]

/-- Without overflow the relation recorded in `labelMap` is symmetric at every
point between two pixels. -/
theorem upTo_symm (m : Mask) (hno : NoOverflow m) :
    ∀ (pre suf : List (Nat × Nat)), pixels m.rows m.cols = pre ++ suf →
      ∀ a b, related (firstPassUpTo m pre).labelMap a b →
        related (firstPassUpTo m pre).labelMap b a := by
  intro pre
  induction pre using List.reverseRecOn with
  | nil =>
    intro suf _ a b h
    simp [firstPassUpTo, related, mapFind] at h
  | append_singleton pre p ih =>
    intro suf h a b hab
    obtain ⟨r, c⟩ := p
    have h' : pixels m.rows m.cols = pre ++ (r, c) :: suf := by
      rw [h, List.append_assoc]
      rfl
    have ih' := ih _ h'
    have inv := firstInv_upTo m pre _ h'
    rw [firstPassUpTo_snoc] at hab ⊢
    by_cases hpx : m.px r c = 0
    · rw [firstPassPixel_skip m _ hpx] at hab ⊢
      exact ih' a b hab
    · by_cases hemp : (scanWindow m.rows m.cols (firstPassUpTo m pre).labels r c).1 = []
      · rw [firstPassPixel_open m _ hpx hemp] at hab ⊢
        rw [related_open inv] at hab ⊢
        rcases hab with hab | ⟨rfl, rfl⟩
        · exact Or.inl (ih' a b hab)
        · exact Or.inr ⟨rfl, rfl⟩
      · have hsm := smallest_mem m hno h' hemp
        rw [firstPassPixel_join m _ hpx hemp] at hab ⊢
        rw [related_mergeNeighbours] at hab ⊢
        rcases hab with hab | ⟨ha, hb | rfl⟩ | ⟨rfl, rfl⟩
        · exact Or.inl (ih' a b hab)
        · exact Or.inr (Or.inl ⟨hb, Or.inl ha⟩)
        · exact Or.inr (Or.inl ⟨hsm, Or.inl ha⟩)
        · exact Or.inr (Or.inr ⟨rfl, rfl⟩)

/-! ## The neighbour set in the words of the specification -/

theorem pairwise_ext {l1 l2 : List Int} (h1 : l1.Pairwise (· < ·)) (h2 : l2.Pairwise (· < ·))
    (h : ∀ x, x ∈ l1 ↔ x ∈ l2) : l1 = l2 := by
  induction l1 generalizing l2 with
  | nil =>
    cases l2 with
    | nil => rfl
    | cons b t2 => exact absurd ((h b).2 (List.mem_cons_self _ _)) (List.not_mem_nil _)
  | cons a t ih =>
    cases l2 with
    | nil => exact absurd ((h a).1 (List.mem_cons_self _ _)) (List.not_mem_nil _)
    | cons b t2 =>
      rw [List.pairwise_cons] at h1 h2
      have hab : a = b := by
        have ha := (h a).1 (List.mem_cons_self _ _)
        have hb := (h b).2 (List.mem_cons_self _ _)
        rcases List.mem_cons.1 ha with e | ha
        · exact e
        · rcases List.mem_cons.1 hb with e | hb
          · exact e.symm
          · have := h1.1 b hb
            have := h2.1 a ha
            omega
      subst hab
      congr 1
      apply ih h1.2 h2.2
      intro x
      constructor
      · intro hx
        rcases List.mem_cons.1 ((h x).1 (List.mem_cons_of_mem _ hx)) with e | hx'
        · have := h1.1 x hx
          omega
        · exact hx'
      · intro hx
        rcases List.mem_cons.1 ((h x).2 (List.mem_cons_of_mem _ hx)) with e | hx'
        · have := h2.1 x hx
          omega
        · exact hx'

theorem foldl_setInsert (labels : Nat → Nat → Int) (l : List (Nat × Nat)) (acc : List Int) :
    (∀ x, x ∈ l.foldl (fun acc q => setInsert (labels q.1 q.2) acc) acc ↔
      x ∈ acc ∨ ∃ q, q ∈ l ∧ labels q.1 q.2 = x) ∧
    (acc.Pairwise (· < ·) →
      (l.foldl (fun acc q => setInsert (labels q.1 q.2) acc) acc).Pairwise (· < ·)) := by
  induction l generalizing acc with
  | nil => simp
  | cons q t ih =>
    rw [List.foldl_cons]
    obtain ⟨h1, h2⟩ := ih (setInsert (labels q.1 q.2) acc)
    refine ⟨?_, fun hs => h2 (setInsert_pairwise hs)⟩
    intro x
    rw [h1 x, mem_setInsert]
    constructor
    · rintro ((e | hx) | ⟨q', hq', hl⟩)
      · exact Or.inr ⟨q, List.mem_cons_self _ _, e.symm⟩
      · exact Or.inl hx
      · exact Or.inr ⟨q', List.mem_cons_of_mem _ hq', hl⟩
    · rintro (hx | ⟨q', hq', hl⟩)
      · exact Or.inl (Or.inr hx)
      · rcases List.mem_cons.1 hq' with e | hq'
        · subst e
          exact Or.inl (Or.inl hl.symm)
        · exact Or.inr ⟨q', hq', hl⟩

theorem mem_earlierNeighbours (m : Mask) (labels : Nat → Nat → Int) (r c : Nat) (x : Int) :
    x ∈ earlierNeighbours m labels r c ↔ ∃ r' c', seen m r c r' c' ∧ labels r' c' = x := by
  unfold earlierNeighbours
  rw [(foldl_setInsert labels _ []).1 x]
  constructor
  · rintro (h | ⟨⟨r', c'⟩, hq, hl⟩)
    · exact absurd h (List.not_mem_nil _)
    · rw [List.mem_filter] at hq
      exact ⟨r', c', by simpa using hq.2, hl⟩
  · rintro ⟨r', c', hs, hl⟩
    refine Or.inr ⟨(r', c'), ?_, hl⟩
    rw [List.mem_filter]
    exact ⟨mem_pixels.2 ⟨hs.1.1, hs.1.2.1⟩, by simpa using hs⟩

theorem earlierNeighbours_pairwise (m : Mask) (labels : Nat → Nat → Int) (r c : Nat) :
    (earlierNeighbours m labels r c).Pairwise (· < ·) :=
  (foldl_setInsert labels _ []).2 List.Pairwise.nil

/-! ## The square scenario -/

theorem squareFrame_fg (r c : Nat) :
    fg squareFrame.mask_frame r c ↔ inRect 10 10 30 30 r c := by
  constructor
  · intro hf
    by_contra hcond
    apply hf.2.2
    apply if_neg
    unfold inRect at hcond
    omega
  · intro hcond
    unfold inRect at hcond
    refine ⟨?_, ?_, ?_⟩
    · show r < 100
      omega
    · show c < 100
      omega
    · show (if 10 ≤ r ∧ r ≤ 39 ∧ 10 ≤ c ∧ c ≤ 39 then 255 else 0) ≠ 0
      rw [if_pos (by omega)]; decide

/-- The square scenario: label 1 alone passes the size test, and its padded
rectangle is (-10, -10, 69, 69). -/
theorem square_rect :
    survivors squareFrame = [1] ∧ rectFor squareFrame 1 = ⟨-10, -10, 69, 69⟩ := by
  obtain ⟨_, _, hbs, hbox⟩ :=
    one_rect squareFrame.mask_frame 10 10 30 30 (by decide) (by decide) squareFrame_fg
  have hsurv : survivors squareFrame = [1] := by
    unfold survivors
    rw [hbs]
    decide
  refine ⟨hsurv, ?_⟩
  unfold rectFor
  have hbox' : boundingBox squareFrame.mask_frame.rows squareFrame.mask_frame.cols
      (secondPass squareFrame.mask_frame).labels 1 = ⟨10, 10, 39, 39⟩ := hbox
  rw [hbox']
  rfl

/-- The square scenario: the call throws at the view of line 117. -/
theorem square_extract :
    extract_player_from_frame squareFrame
      = Except.error cv_Exception.roi_outside_image := by
  rw [extract_error_iff]
  refine ⟨1, ?_, ?_⟩
  · rw [square_rect.1]
    exact List.mem_singleton.2 rfl
  · rw [square_rect.2]
    decide

theorem centreFrame_fg (r c : Nat) :
    fg centreFrame.mask_frame r c ↔ inRect 30 30 30 30 r c := by
  constructor
  · intro hf
    by_contra hcond
    apply hf.2.2
    apply if_neg
    unfold inRect at hcond
    omega
  · intro hcond
    unfold inRect at hcond
    refine ⟨?_, ?_, ?_⟩
    · show r < 100
      omega
    · show c < 100
      omega
    · show (if 30 ≤ r ∧ r ≤ 59 ∧ 30 ≤ c ∧ c ≤ 59 then 255 else 0) ≠ 0
      rw [if_pos (by omega)]; decide

/-- The centred square: label 1 alone passes the size test, and its padded
rectangle is (10, 10, 69, 69). -/
theorem centre_rect :
    survivors centreFrame = [1] ∧ rectFor centreFrame 1 = ⟨10, 10, 69, 69⟩ := by
  obtain ⟨_, _, hbs, hbox⟩ :=
    one_rect centreFrame.mask_frame 30 30 30 30 (by decide) (by decide) centreFrame_fg
  have hsurv : survivors centreFrame = [1] := by
    unfold survivors
    rw [hbs]
    decide
  refine ⟨hsurv, ?_⟩
  unfold rectFor
  have hbox' : boundingBox centreFrame.mask_frame.rows centreFrame.mask_frame.cols
      (secondPass centreFrame.mask_frame).labels 1 = ⟨30, 30, 59, 59⟩ := hbox
  rw [hbox']
  rfl

/-- The centred square: the call returns one candidate. -/
theorem centre_extract :
    extract_player_from_frame centreFrame = Except.ok [⟨⟨10, 10, 69, 69⟩, 3⟩] := by
  rw [extract_ok_iff, centre_rect.1]
  constructor
  · intro l hl
    rw [List.mem_singleton.1 hl, centre_rect.2]
    decide
  · simp only [List.map_cons, List.map_nil]
    unfold candidateFor
    have h := centre_rect.2
    unfold rectFor at h
    rw [h]
    rfl

/-- The recording of equivalences is the outer loop run over all the
neighbours, followed by line 60. -/
theorem mergeNeighbours_eq_outer (neighbours : List Int) (smallestLabel : Int)
    (labelMap : List (Int × List Int)) :
    mergeNeighbours neighbours smallestLabel labelMap
      = mapSetInsert smallestLabel smallestLabel
          (mergeOuter neighbours neighbours smallestLabel labelMap) := rfl

/-! ## Claims on the square scenario and on the first pass -/

/-- C2, on `centreFrame`: the call returns one candidate, for label 1, and its
`pos_frame` is the padded tight box of the label. -/
theorem C2_pos_frame_is_padded_tight_box_witness :
    extract_player_from_frame centreFrame = Except.ok [⟨⟨10, 10, 69, 69⟩, 3⟩] ∧
    List.Forall₂
      (fun (p : player_t) (l : Int) => ∃ minRow maxRow minCol maxCol : Nat,
        tightBox centreFrame.mask_frame.rows centreFrame.mask_frame.cols
          (secondPass centreFrame.mask_frame).labels l minRow maxRow minCol maxCol ∧
        p.pos_frame = ⟨(minCol : Int) - 20, (minRow : Int) - 20,
          ((maxCol : Int) - minCol) + 40, ((maxRow : Int) - minRow) + 40⟩)
      [⟨⟨10, 10, 69, 69⟩, 3⟩] (survivors centreFrame) :=
  ⟨centre_extract,
   (C2_pos_frame_is_padded_tight_box centreFrame).2 _ centre_extract⟩

/-- C11 (as stated): for the square scenario the rectangle built for the single
label that passes the size test is not `(-10, -10, 70, 70)`, and the call does
not return a list whose rectangles are `[(-10, -10, 70, 70)]`: it returns no
list. -/
theorem C11_square_is_not_70 :
    rectFor squareFrame 1 ≠ ⟨-10, -10, 70, 70⟩ ∧
    ¬ ∃ players, extract_player_from_frame squareFrame = Except.ok players ∧
        players.map (fun p => p.pos_frame) = [⟨-10, -10, 70, 70⟩] := by
  constructor
  · rw [square_rect.2]
    decide
  · rintro ⟨players, h, _⟩
    rw [square_extract] at h
    exact Except.noConfusion h

/-- C11 (amended): for the 100 by 100 mask that is zero except on the filled
square over rows and columns 10 to 39, a single label passes the size test, and
the rectangle built for it at line 116 is
`(x, y, width, height) = (-10, -10, 69, 69)`: the width and the height are
`(39 - 10) + 40`. This rectangle does not lie inside the 100 by 100 image, so
the view of line 117 throws `cv::Exception` and the call returns no
candidate. -/
theorem C11_square_padded_rectangle :
    survivors squareFrame = [1] ∧
    rectFor squareFrame 1 = ⟨-10, -10, 69, 69⟩ ∧
    ¬ insideImage squareFrame.mask_frame.rows squareFrame.mask_frame.cols
        (rectFor squareFrame 1) ∧
    extract_player_from_frame squareFrame
      = Except.error cv_Exception.roi_outside_image := by
  refine ⟨square_rect.1, square_rect.2, ?_, square_extract⟩
  rw [square_rect.2]
  decide

theorem scan_nil_iff_window (rows cols : Nat) (labels : Nat → Nat → Int) (r c : Nat) :
    (scanWindow rows cols labels r c).1 = [] ↔
      ∀ r' c', r' < rows → c' < cols → near r c r' c' → labels r' c' = 0 := by
  have hspec := (scanWindow_spec rows cols labels r c).1
  constructor
  · intro hemp r' c' hr hc hn
    by_contra hne
    have := (hspec (labels r' c')).2 ⟨hne, r', c', hr, hc, hn, rfl⟩
    rw [hemp] at this
    exact List.not_mem_nil _ this
  · intro hall
    apply List.eq_nil_iff_forall_not_mem.2
    intro x hx
    obtain ⟨hx0, r', c', hr, hc, hn, hl⟩ := (hspec x).1 hx
    exact hx0 (hl ▸ hall r' c' hr hc hn)

/-- C14: when the first pass, with a label counter that stays within `int`,
reaches a foreground pixel `(r, c)` after the cells of `pre`: if the window
holds no nonzero label, the pixel takes the counter value, which no cell and no
key of `labelMap` carries yet and which is one more than the number of earlier
pixels that opened a label, its set becomes the singleton of the label, and the
counter grows by one; if the window holds a nonzero label, the pixel takes the
minimum of the nonzero labels of the window and the counter stays. At the end
the labels in the grid are exactly `1..k`, `k` the number of pixels that opened
a label. -/
theorem C14_new_label_or_window_minimum (m : Mask) (hno : NoOverflow m) :
    (∀ pre suf r c, pixels m.rows m.cols = pre ++ (r, c) :: suf → m.px r c ≠ 0 →
      ((∀ r' c', r' < m.rows → c' < m.cols → near r c r' c' →
          (firstPassUpTo m pre).labels r' c' = 0) →
        (firstPassUpTo m (pre ++ [(r, c)])).labels r c = (firstPassUpTo m pre).currentLabel ∧
        (firstPassUpTo m pre).currentLabel = 1 + ((pre.countP (opensLabel m) : Nat) : Int) ∧
        (∀ r' c', (firstPassUpTo m pre).labels r' c' ≠ (firstPassUpTo m pre).currentLabel) ∧
        mapFind (firstPassUpTo m pre).currentLabel (firstPassUpTo m pre).labelMap = none ∧
        mapFind (firstPassUpTo m pre).currentLabel (firstPassUpTo m (pre ++ [(r, c)])).labelMap
          = some [(firstPassUpTo m pre).currentLabel] ∧
        (firstPassUpTo m (pre ++ [(r, c)])).currentLabel
          = (firstPassUpTo m pre).currentLabel + 1) ∧
      ((∃ r' c', r' < m.rows ∧ c' < m.cols ∧ near r c r' c' ∧
          (firstPassUpTo m pre).labels r' c' ≠ 0) →
        (∃ r' c', r' < m.rows ∧ c' < m.cols ∧ near r c r' c' ∧
          (firstPassUpTo m pre).labels r' c' ≠ 0 ∧
          (firstPassUpTo m pre).labels r' c' = (firstPassUpTo m (pre ++ [(r, c)])).labels r c) ∧
        (∀ r' c', r' < m.rows → c' < m.cols → near r c r' c' →
          (firstPassUpTo m pre).labels r' c' ≠ 0 →
          (firstPassUpTo m (pre ++ [(r, c)])).labels r c ≤ (firstPassUpTo m pre).labels r' c') ∧
        (firstPassUpTo m (pre ++ [(r, c)])).currentLabel = (firstPassUpTo m pre).currentLabel)) ∧
    (firstPass m).currentLabel
      = 1 + (((pixels m.rows m.cols).countP (opensLabel m) : Nat) : Int) ∧
    (∀ j : Int, (∃ r c, r < m.rows ∧ c < m.cols ∧ (firstPass m).labels r c = j ∧ j ≠ 0) ↔
      1 ≤ j ∧ j ≤ (((pixels m.rows m.cols).countP (opensLabel m) : Nat) : Int)) := by
  have hcur : (firstPass m).currentLabel
      = 1 + (((pixels m.rows m.cols).countP (opensLabel m) : Nat) : Int) := by
    rw [firstPass_eq_upTo]
    exact upTo_currentLabel m _ [] (List.append_nil _).symm
  refine ⟨?_, hcur, ?_⟩
  · intro pre suf r c hsplit hpx
    have inv := firstInv_upTo m pre _ hsplit
    have hspec := scanWindow_spec m.rows m.cols (firstPassUpTo m pre).labels r c
    rw [firstPassUpTo_snoc]
    constructor
    · intro hwin
      have hemp := (scan_nil_iff_window _ _ _ _ _).2 hwin
      rw [firstPassPixel_open m _ hpx hemp]
      refine ⟨setAt_same _ _ _ _, upTo_currentLabel m pre _ hsplit, ?_, fresh_key_absent inv,
        ?_, rfl⟩
      · intro r' c' he
        by_cases h0 : (firstPassUpTo m pre).labels r' c' = 0
        · have := inv.cur_pos
          omega
        · have hz := inv.zero r' c' h0
          have := (inv.pos r' c' hz.1 hz.2).2
          omega
      · show mapFind _ (mapInsert _ _ _) = _
        rw [mapFind_mapInsert_absent _ _ _ _ (fresh_key_absent inv), if_pos rfl]
    · rintro ⟨r0, c0, hr0, hc0, hn0, hl0⟩
      have hemp : (scanWindow m.rows m.cols (firstPassUpTo m pre).labels r c).1 ≠ [] := by
        intro hemp
        exact hl0 ((scan_nil_iff_window _ _ _ _ _).1 hemp r0 c0 hr0 hc0 hn0)
      have hsm := smallest_mem m hno hsplit hemp
      rw [firstPassPixel_join m _ hpx hemp]
      refine ⟨?_, ?_, rfl⟩
      · obtain ⟨hx0, r', c', hr, hc, hn, hl⟩ := (hspec.1 _).1 hsm
        refine ⟨r', c', hr, hc, hn, ?_, ?_⟩
        · rw [hl]; exact hx0
        · rw [hl]; exact (setAt_same _ _ _ _).symm
      · intro r' c' hr hc hn hl
        show setAt _ r c _ r c ≤ _
        rw [setAt_same]
        exact hspec.2.2.1 _ ((hspec.1 _).2 ⟨hl, r', c', hr, hc, hn, rfl⟩)
  · intro j
    constructor
    · rintro ⟨r, c, hr, hc, hl, hj⟩
      have hz := (firstPass_inv m).zero r c (by rw [hl]; exact hj)
      have hp := (firstPass_inv m).pos r c hz.1 hz.2
      rw [hl] at hp
      omega
    · rintro ⟨h1, h2⟩
      obtain ⟨r, c, hmem, _, hl⟩ := (firstPass_inv m).fresh j h1 (by omega)
      rw [mem_pixels] at hmem
      exact ⟨r, c, hmem.1, hmem.2, hl, by omega⟩

theorem chain_split : pixels chainMask.rows chainMask.cols = chainPre ++ (1, 16) :: chainSuf := by
  decide

set_option maxRecDepth 100000 in
/-- C14, on `chainMask`: the pass opens three labels, and at the pixel (1, 16),
whose window holds the labels 2 and 3, the pixel takes label 2 and the counter
stays at 4. -/
theorem C14_new_label_or_window_minimum_witness :
    NoOverflow chainMask ∧
    (firstPass chainMask).currentLabel
      = 1 + (((pixels chainMask.rows chainMask.cols).countP (opensLabel chainMask) : Nat) : Int) ∧
    ((∃ r' c', r' < chainMask.rows ∧ c' < chainMask.cols ∧ near 1 16 r' c' ∧
        (firstPassUpTo chainMask chainPre).labels r' c' ≠ 0) →
      (∃ r' c', r' < chainMask.rows ∧ c' < chainMask.cols ∧ near 1 16 r' c' ∧
        (firstPassUpTo chainMask chainPre).labels r' c' ≠ 0 ∧
        (firstPassUpTo chainMask chainPre).labels r' c'
          = (firstPassUpTo chainMask (chainPre ++ [(1, 16)])).labels 1 16) ∧
      (∀ r' c', r' < chainMask.rows → c' < chainMask.cols → near 1 16 r' c' →
        (firstPassUpTo chainMask chainPre).labels r' c' ≠ 0 →
        (firstPassUpTo chainMask (chainPre ++ [(1, 16)])).labels 1 16
          ≤ (firstPassUpTo chainMask chainPre).labels r' c') ∧
      (firstPassUpTo chainMask (chainPre ++ [(1, 16)])).currentLabel
        = (firstPassUpTo chainMask chainPre).currentLabel) :=
  ⟨by decide,
   (C14_new_label_or_window_minimum chainMask (by decide)).2.1,
   ((C14_new_label_or_window_minimum chainMask (by decide)).1 chainPre chainSuf 1 16
      chain_split (by decide)).2⟩

/-- C15: when the first pass reaches `(r, c)` after the cells of `pre`, every
cell that is not strictly earlier than `(r, c)` in raster order still holds 0,
and the neighbour set gathered over the whole window is the set of the
provisional labels of the foreground pixels strictly earlier in raster order
whose two offsets from `(r, c)` are at most 10. -/
theorem C15_neighbours_are_earlier_labels (m : Mask) (pre suf : List (Nat × Nat)) (r c : Nat)
    (hsplit : pixels m.rows m.cols = pre ++ (r, c) :: suf) :
    (∀ r' c', ¬ before r' c' r c → (firstPassUpTo m pre).labels r' c' = 0) ∧
    (scanWindow m.rows m.cols (firstPassUpTo m pre).labels r c).1
      = earlierNeighbours m (firstPass m).labels r c := by
  have hpre := (pixels_split hsplit).2
  have hlab := upTo_labels m hsplit
  constructor
  · intro r' c' hb
    rw [hlab, if_neg]
    intro hm
    exact hb ((hpre r' c').1 hm).2.2
  · apply pairwise_ext (scanWindow_spec _ _ _ _ _).2.1 (earlierNeighbours_pairwise _ _ _ _)
    intro x
    rw [scanWindow_seen m hsplit (firstInv_upTo m pre _ hsplit), mem_earlierNeighbours]
    constructor
    · rintro ⟨r', c', hs, hl⟩
      refine ⟨r', c', hs, ?_⟩
      rw [hlab, if_pos ((hpre r' c').2 ⟨hs.1.1, hs.1.2.1, hs.2.1⟩)] at hl
      exact hl
    · rintro ⟨r', c', hs, hl⟩
      refine ⟨r', c', hs, ?_⟩
      rw [hlab, if_pos ((hpre r' c').2 ⟨hs.1.1, hs.1.2.1, hs.2.1⟩)]
      exact hl

set_option maxRecDepth 100000 in
/-- C15, on `chainMask` at the pixel (1, 16): the neighbour set is `[2, 3]`. -/
theorem C15_neighbours_are_earlier_labels_witness :
    pixels chainMask.rows chainMask.cols = chainPre ++ (1, 16) :: chainSuf ∧
    earlierNeighbours chainMask (firstPass chainMask).labels 1 16 = [2, 3] ∧
    (scanWindow chainMask.rows chainMask.cols (firstPassUpTo chainMask chainPre).labels 1 16).1
      = earlierNeighbours chainMask (firstPass chainMask).labels 1 16 :=
  ⟨chain_split, by decide,
   (C15_neighbours_are_earlier_labels chainMask chainPre chainSuf 1 16 chain_split).2⟩

/-- C16: after the first pass, the provisional label of every labelled cell has
a set in `labelMap` that contains the label itself; the label that the second
pass writes in the cell is the first element of that set, is at most every
element of the set, and is at most the provisional label. -/
theorem C16_label_in_own_set (m : Mask) (r c : Nat) (h : (firstPass m).labels r c ≠ 0) :
    ∃ set, mapFind ((firstPass m).labels r c) (firstPass m).labelMap = some set ∧
      (firstPass m).labels r c ∈ set ∧
      set.head? = some ((secondPass m).labels r c) ∧
      (∀ x ∈ set, (secondPass m).labels r c ≤ x) ∧
      (secondPass m).labels r c ≤ (firstPass m).labels r c := by
  have hf : fg m r c := (fg_iff_mem m r c).2 ((firstPass_inv m).zero r c h)
  have hself := prov_self m hf
  cases hfind : mapFind ((firstPass m).labels r c) (firstPass m).labelMap with
  | none =>
    unfold related at hself
    rw [hfind] at hself
    exact absurd hself (List.not_mem_nil _)
  | some set =>
    have hmem : (firstPass m).labels r c ∈ set := by
      unfold related at hself
      rw [hfind] at hself
      exact hself
    have hwf := (firstPass_inv m).wf _ _ hfind
    have hfin : (secondPass m).labels r c = set.headD 0 := by
      rw [final_fg m hf]
      unfold canonical
      rw [hfind]
      rfl
    refine ⟨set, rfl, hmem, ?_, ?_, ?_⟩
    · rw [hfin]
      cases set with
      | nil => exact absurd rfl hwf.2
      | cons a t => rfl
    · intro x hx
      rw [hfin]
      exact headD_le hwf.1 hx
    · rw [hfin]
      exact headD_le hwf.1 hmem

set_option maxRecDepth 100000 in
/-- C16, on `chainMask` at the pixel (0, 22): its provisional label is 3, the
set of 3 is `[2, 3]` and the second pass writes 2. -/
theorem C16_label_in_own_set_witness :
    (firstPass chainMask).labels 0 22 = 3 ∧
    mapFind 3 (firstPass chainMask).labelMap = some [2, 3] ∧
    (secondPass chainMask).labels 0 22 = 2 ∧
    ∃ set, mapFind ((firstPass chainMask).labels 0 22) (firstPass chainMask).labelMap
        = some set ∧
      (firstPass chainMask).labels 0 22 ∈ set ∧
      set.head? = some ((secondPass chainMask).labels 0 22) ∧
      (∀ x ∈ set, (secondPass chainMask).labels 0 22 ≤ x) ∧
      (secondPass chainMask).labels 0 22 ≤ (firstPass chainMask).labels 0 22 :=
  ⟨by decide, by decide, by decide, C16_label_in_own_set chainMask 0 22 (by decide)⟩

/-- C17: when the label counter stays within `int`, two foreground pixels that
end with the same label lie in the same tolerant-connected component of the
foreground. -/
theorem C17_never_over_merges (m : Mask) (hno : NoOverflow m) (r c r' c' : Nat)
    (hp : fg m r c) (hq : fg m r' c')
    (hl : (secondPass m).labels r c = (secondPass m).labels r' c') :
    connected m (r, c) (r', c') :=
  connected_same_final m hno hp hq hl

set_option maxRecDepth 100000 in
/-- C17, on `chainMask` at the pixels (0, 0) and (1, 16), which both end with
label 1. -/
theorem C17_never_over_merges_witness :
    NoOverflow chainMask ∧
    (secondPass chainMask).labels 0 0 = (secondPass chainMask).labels 1 16 ∧
    connected chainMask (0, 0) (1, 16) :=
  ⟨by decide, by decide,
   C17_never_over_merges chainMask (by decide) 0 0 1 16 (by decide) (by decide) (by decide)⟩

set_option maxRecDepth 100000 in
/-- C20 (as stated): on `chainMask`, at pixel (1, 16), the neighbour set is
`{2, 3}` and `smallestLabel` is 2; when the outer loop of lines 54-59 has run
for the neighbour 2 and not yet for the neighbour 3, `labelMap[2]` holds 3 and
`labelMap[3]` does not hold 2. -/
theorem C20_asymmetric_inside_loops :
    chainMask.px 1 16 ≠ 0 ∧
    scanWindow chainMask.rows chainMask.cols (firstPassUpTo chainMask chainPre).labels 1 16
      = ([2, 3], 2) ∧
    related (mergeOuter [2] [2, 3] 2 (firstPassUpTo chainMask chainPre).labelMap) 2 3 ∧
    ¬ related (mergeOuter [2] [2, 3] 2 (firstPassUpTo chainMask chainPre).labelMap) 3 2 ∧
    (firstPassUpTo chainMask (chainPre ++ [(1, 16)])).labelMap
      = mapSetInsert 2 2
          (mergeOuter [2, 3] [2, 3] 2 (firstPassUpTo chainMask chainPre).labelMap) := by
  refine ⟨by decide, by decide, by decide, by decide, by decide⟩

/-- C20 (amended): when the label counter stays within `int`, at every point of
the first pass between two pixels (before the first cell, after the last, and
between two consecutive cells) the relation recorded in `labelMap` is
symmetric; and at a pixel with a nonempty neighbour set, `smallestLabel` is one
of the neighbours, so that what the pixel adds to the relation is exactly the
pairs of neighbours. -/
theorem C20_recorded_relation_symmetric (m : Mask) (hno : NoOverflow m)
    (pre suf : List (Nat × Nat)) (hsplit : pixels m.rows m.cols = pre ++ suf) :
    (∀ a b, related (firstPassUpTo m pre).labelMap a b ↔
      related (firstPassUpTo m pre).labelMap b a) ∧
    (∀ r c suf', suf = (r, c) :: suf' → m.px r c ≠ 0 →
      (scanWindow m.rows m.cols (firstPassUpTo m pre).labels r c).1 ≠ [] →
      (scanWindow m.rows m.cols (firstPassUpTo m pre).labels r c).2
        ∈ (scanWindow m.rows m.cols (firstPassUpTo m pre).labels r c).1 ∧
      ∀ a b, related (firstPassUpTo m (pre ++ [(r, c)])).labelMap a b ↔
        related (firstPassUpTo m pre).labelMap a b ∨
        (a ∈ (scanWindow m.rows m.cols (firstPassUpTo m pre).labels r c).1 ∧
          b ∈ (scanWindow m.rows m.cols (firstPassUpTo m pre).labels r c).1)) := by
  constructor
  · intro a b
    exact ⟨upTo_symm m hno pre suf hsplit a b, upTo_symm m hno pre suf hsplit b a⟩
  · intro r c suf' hsuf hpx hne
    subst hsuf
    have hsm := smallest_mem m hno hsplit hne
    refine ⟨hsm, ?_⟩
    intro a b
    rw [firstPassUpTo_snoc, firstPassPixel_join m _ hpx hne]
    show related (mergeNeighbours _ _ _) a b ↔ _
    rw [related_mergeNeighbours]
    constructor
    · rintro (h | ⟨ha, hb | rfl⟩ | ⟨rfl, rfl⟩)
      · exact Or.inl h
      · exact Or.inr ⟨ha, hb⟩
      · exact Or.inr ⟨ha, hsm⟩
      · exact Or.inr ⟨hsm, hsm⟩
    · rintro (h | ⟨ha, hb⟩)
      · exact Or.inl h
      · exact Or.inr (Or.inl ⟨ha, Or.inl hb⟩)

set_option maxRecDepth 100000 in
/-- C20 (amended), on `chainMask` at the point where the pass reaches (1, 16). -/
theorem C20_recorded_relation_symmetric_witness :
    NoOverflow chainMask ∧
    pixels chainMask.rows chainMask.cols = chainPre ++ (1, 16) :: chainSuf ∧
    related (firstPassUpTo chainMask chainPre).labelMap 1 2 ∧
    (∀ a b, related (firstPassUpTo chainMask chainPre).labelMap a b ↔
      related (firstPassUpTo chainMask chainPre).labelMap b a) :=
  ⟨by decide, chain_split, by decide,
   (C20_recorded_relation_symmetric chainMask (by decide) chainPre ((1, 16) :: chainSuf)
      chain_split).1⟩

/-! ## Claims on torso inference -/

theorem extractTorso_few {Img : Type} (roi : Img → Rect → Option Img)
    (p : DPMDetector.player_t Img) (h3 : p.features.body_parts.length < 3) :
    DPMDetector.extractTorsoForPlayer roi (some p)
      = (some p, Except.error
          (DPMDetector.exception.std DPMDetector.invalid_argument.not_enough_body_parts)) := by
  unfold DPMDetector.extractTorsoForPlayer
  simp only
  rw [if_pos h3]

/-- Both views are taken: the call returns with the three fields written. -/
theorem extractTorso_ok {Img : Type} (roi : Img → Rect → Option Img)
    (p : DPMDetector.player_t Img) (h3 : 3 ≤ p.features.body_parts.length) (t tm : Img)
    (h1 : roi p.original_image
      (DPMDetector.meanRect (DPMDetector.vectorAt p.features.body_parts 1)
        (DPMDetector.vectorAt p.features.body_parts 2)) = some t)
    (h2 : roi p.mask_image
      (DPMDetector.meanRect (DPMDetector.vectorAt p.features.body_parts 1)
        (DPMDetector.vectorAt p.features.body_parts 2)) = some tm) :
    DPMDetector.extractTorsoForPlayer roi (some p)
      = (some { p with features :=
          { p.features with
            torso := t
            torso_mask := tm
            torso_pos :=
              DPMDetector.meanRect (DPMDetector.vectorAt p.features.body_parts 1)
                (DPMDetector.vectorAt p.features.body_parts 2) } },
        Except.ok ()) := by
  unfold DPMDetector.extractTorsoForPlayer
  simp only
  rw [if_neg (by omega), h1]
  simp only
  rw [h2]

/-- The view of line 352 throws: nothing is written. -/
theorem extractTorso_throw1 {Img : Type} (roi : Img → Rect → Option Img)
    (p : DPMDetector.player_t Img) (h3 : 3 ≤ p.features.body_parts.length)
    (h1 : roi p.original_image
      (DPMDetector.meanRect (DPMDetector.vectorAt p.features.body_parts 1)
        (DPMDetector.vectorAt p.features.body_parts 2)) = none) :
    DPMDetector.extractTorsoForPlayer roi (some p)
      = (some p, Except.error
          (DPMDetector.exception.cv cv_Exception.roi_outside_image)) := by
  unfold DPMDetector.extractTorsoForPlayer
  simp only
  rw [if_neg (by omega), h1]

/-- The view of line 353 throws: `torso` has been written, `torso_mask` and
`torso_pos` have not. -/
theorem extractTorso_throw2 {Img : Type} (roi : Img → Rect → Option Img)
    (p : DPMDetector.player_t Img) (h3 : 3 ≤ p.features.body_parts.length) (t : Img)
    (h1 : roi p.original_image
      (DPMDetector.meanRect (DPMDetector.vectorAt p.features.body_parts 1)
        (DPMDetector.vectorAt p.features.body_parts 2)) = some t)
    (h2 : roi p.mask_image
      (DPMDetector.meanRect (DPMDetector.vectorAt p.features.body_parts 1)
        (DPMDetector.vectorAt p.features.body_parts 2)) = none) :
    DPMDetector.extractTorsoForPlayer roi (some p)
      = (some { p with features := { p.features with torso := t } },
        Except.error (DPMDetector.exception.cv cv_Exception.roi_outside_image)) := by
  unfold DPMDetector.extractTorsoForPlayer
  simp only
  rw [if_neg (by omega), h1]
  simp only
  rw [h2]

theorem tdiv_two_of_nonneg {a : Int} (h : 0 ≤ a) : Int.tdiv a 2 = Int.fdiv a 2 := by
  rw [Int.tdiv_eq_ediv h (by decide), Int.fdiv_eq_ediv _ (by decide)]

theorem tdiv_double (x : Int) : Int.tdiv (x + x) 2 = x := by
  have : x + x = 2 * x := by ring
  rw [this, Int.mul_tdiv_cancel_left _ (by decide)]

theorem meanRect_same (b : Rect) : DPMDetector.meanRect b b = b := by
  unfold DPMDetector.meanRect
  rw [tdiv_double, tdiv_double]
  rw [tdiv_double, tdiv_double]
  cases b
  simp

theorem meanRect_swap (b c : Rect) : DPMDetector.meanRect b c = DPMDetector.meanRect c b := by
  unfold DPMDetector.meanRect
  rw [Int.add_comm b.x c.x, Int.add_comm b.y c.y,
    Int.add_comm (b.x + b.width) (c.x + c.width),
    Int.add_comm (b.y + b.height) (c.y + c.height)]

/-- C12 (as stated): for `negPlayer`, whose images are 8 by 8 and whose parts 1
and 2 are (-1, 0, 4, 4) and (0, 0, 4, 4), both views are taken, the call
returns, and the stored torso rectangle is (0, 0, 3, 4): its abscissa is 0,
while the floor of `(-1 + 0) / 2` is -1. -/
theorem C12_floor_origin_fails :
    negPlayer.features.body_parts = [⟨0, 0, 8, 8⟩, ⟨-1, 0, 4, 4⟩, ⟨0, 0, 4, 4⟩] ∧
    matView negPlayer.original_image ⟨0, 0, 3, 4⟩ = some ⟨4, 3⟩ ∧
    matView negPlayer.mask_image ⟨0, 0, 3, 4⟩ = some ⟨4, 3⟩ ∧
    (DPMDetector.extractTorsoForPlayer matView (some negPlayer)).2 = Except.ok () ∧
    (DPMDetector.extractTorsoForPlayer matView (some negPlayer)).1.map
        (fun p => p.features.torso_pos) = some ⟨0, 0, 3, 4⟩ ∧
    Int.fdiv ((DPMDetector.vectorAt negPlayer.features.body_parts 1).x
        + (DPMDetector.vectorAt negPlayer.features.body_parts 2).x) 2 = -1 ∧
    (DPMDetector.extractTorsoForPlayer matView (some negPlayer)).1.map
        (fun p => p.features.torso_pos.x)
      ≠ some (Int.fdiv ((DPMDetector.vectorAt negPlayer.features.body_parts 1).x
          + (DPMDetector.vectorAt negPlayer.features.body_parts 2).x) 2) := by
  refine ⟨rfl, by decide, by decide, rfl, by decide, by decide, by decide⟩

/-- C12 (amended): for a player whose body parts are `p0, (x1,y1,w1,h1),
(x2,y2,w2,h2), ...`, the rectangle `mean` computed at lines 343-351 has the
origin `((x1+x2)/2, (y1+y2)/2)` and the far corner (origin + size)
`(((x1+w1)+(x2+w2))/2, ((y1+h1)+(y2+h2))/2)`, where `/` truncates toward zero;
each of the four quotients is the floor when its dividend is not negative.
When the views of the two images under `mean` are taken (lines 352-353), the
call returns and `mean` is stored in `torso_pos`, with the two views in `torso`
and `torso_mask`. When one of the two views is refused, the call throws
`cv::Exception` and `torso_pos` is as it was. -/
theorem C12_torso_rectangle {Img : Type} (roi : Img → Rect → Option Img)
    (p : DPMDetector.player_t Img) (p0 t1 t2 : Rect) (rest : List Rect)
    (hparts : p.features.body_parts = p0 :: t1 :: t2 :: rest) :
    ∃ mean : Rect,
      mean = DPMDetector.meanRect t1 t2 ∧
      mean.x = Int.tdiv (t1.x + t2.x) 2 ∧
      mean.y = Int.tdiv (t1.y + t2.y) 2 ∧
      mean.x + mean.width = Int.tdiv ((t1.x + t1.width) + (t2.x + t2.width)) 2 ∧
      mean.y + mean.height = Int.tdiv ((t1.y + t1.height) + (t2.y + t2.height)) 2 ∧
      (0 ≤ t1.x + t2.x → mean.x = Int.fdiv (t1.x + t2.x) 2) ∧
      (0 ≤ t1.y + t2.y → mean.y = Int.fdiv (t1.y + t2.y) 2) ∧
      (0 ≤ (t1.x + t1.width) + (t2.x + t2.width) →
        mean.x + mean.width = Int.fdiv ((t1.x + t1.width) + (t2.x + t2.width)) 2) ∧
      (0 ≤ (t1.y + t1.height) + (t2.y + t2.height) →
        mean.y + mean.height = Int.fdiv ((t1.y + t1.height) + (t2.y + t2.height)) 2) ∧
      (∀ t tm, roi p.original_image mean = some t → roi p.mask_image mean = some tm →
        DPMDetector.extractTorsoForPlayer roi (some p)
          = (some { p with features :=
              { p.features with torso := t, torso_mask := tm, torso_pos := mean } },
            Except.ok ())) ∧
      ((roi p.original_image mean = none ∨ roi p.mask_image mean = none) →
        (DPMDetector.extractTorsoForPlayer roi (some p)).2
          = Except.error (DPMDetector.exception.cv cv_Exception.roi_outside_image) ∧
        (DPMDetector.extractTorsoForPlayer roi (some p)).1.map
            (fun q => q.features.torso_pos) = some p.features.torso_pos) := by
  have h3 : 3 ≤ p.features.body_parts.length := by
    rw [hparts]
    simp
  have e1 : DPMDetector.vectorAt p.features.body_parts 1 = t1 := by rw [hparts]; rfl
  have e2 : DPMDetector.vectorAt p.features.body_parts 2 = t2 := by rw [hparts]; rfl
  refine ⟨DPMDetector.meanRect t1 t2, rfl, rfl, rfl, ?_, ?_, ?_, ?_, ?_, ?_, ?_, ?_⟩
  · simp only [DPMDetector.meanRect]
    omega
  · simp only [DPMDetector.meanRect]
    omega
  · exact fun h => tdiv_two_of_nonneg h
  · exact fun h => tdiv_two_of_nonneg h
  · intro h
    rw [← tdiv_two_of_nonneg h]
    simp only [DPMDetector.meanRect]
    omega
  · intro h
    rw [← tdiv_two_of_nonneg h]
    simp only [DPMDetector.meanRect]
    omega
  · intro t tm h1 h2
    rw [← e1, ← e2] at h1 h2 ⊢
    exact extractTorso_ok roi p h3 t tm h1 h2
  · intro hfail
    rw [← e1, ← e2] at hfail
    cases h1 : roi p.original_image
        (DPMDetector.meanRect (DPMDetector.vectorAt p.features.body_parts 1)
          (DPMDetector.vectorAt p.features.body_parts 2)) with
    | none =>
      rw [extractTorso_throw1 roi p h3 h1]
      exact ⟨rfl, rfl⟩
    | some t =>
      rcases hfail with h | h2
      · rw [h1] at h
        exact Option.noConfusion h
      · rw [extractTorso_throw2 roi p h3 t h1 h2]
        exact ⟨rfl, rfl⟩

/-- C12 (amended), on `posPlayer`: the images have 90 rows and 40 columns,
parts 1 and 2 are (10, 20, 20, 30) and (13, 25, 21, 31), both views are taken
and the stored torso rectangle is (11, 22, 21, 31). -/
theorem C12_torso_rectangle_witness :
    posPlayer.features.body_parts
      = [⟨0, 0, 40, 90⟩, ⟨10, 20, 20, 30⟩, ⟨13, 25, 21, 31⟩] ∧
    matView posPlayer.original_image ⟨11, 22, 21, 31⟩ = some ⟨31, 21⟩ ∧
    matView posPlayer.mask_image ⟨11, 22, 21, 31⟩ = some ⟨31, 21⟩ ∧
    (DPMDetector.extractTorsoForPlayer matView (some posPlayer)).2 = Except.ok () ∧
    (DPMDetector.extractTorsoForPlayer matView (some posPlayer)).1.map
        (fun p => p.features.torso_pos)
      = some ⟨11, 22, 21, 31⟩ ∧
    ∃ mean : Rect,
      mean = DPMDetector.meanRect ⟨10, 20, 20, 30⟩ ⟨13, 25, 21, 31⟩ ∧
      mean.x = Int.tdiv (10 + 13) 2 ∧
      mean.y = Int.tdiv (20 + 25) 2 ∧
      mean.x + mean.width = Int.tdiv ((10 + 20) + (13 + 21)) 2 ∧
      mean.y + mean.height = Int.tdiv ((20 + 30) + (25 + 31)) 2 ∧
      (0 ≤ (10 : Int) + 13 → mean.x = Int.fdiv (10 + 13) 2) ∧
      (0 ≤ (20 : Int) + 25 → mean.y = Int.fdiv (20 + 25) 2) ∧
      (0 ≤ ((10 : Int) + 20) + (13 + 21) →
        mean.x + mean.width = Int.fdiv ((10 + 20) + (13 + 21)) 2) ∧
      (0 ≤ ((20 : Int) + 30) + (25 + 31) →
        mean.y + mean.height = Int.fdiv ((20 + 30) + (25 + 31)) 2) ∧
      (∀ t tm, matView posPlayer.original_image mean = some t →
        matView posPlayer.mask_image mean = some tm →
        DPMDetector.extractTorsoForPlayer matView (some posPlayer)
          = (some { posPlayer with features :=
              { posPlayer.features with torso := t, torso_mask := tm, torso_pos := mean } },
            Except.ok ())) ∧
      ((matView posPlayer.original_image mean = none ∨
          matView posPlayer.mask_image mean = none) →
        (DPMDetector.extractTorsoForPlayer matView (some posPlayer)).2
          = Except.error (DPMDetector.exception.cv cv_Exception.roi_outside_image) ∧
        (DPMDetector.extractTorsoForPlayer matView (some posPlayer)).1.map
            (fun q => q.features.torso_pos) = some posPlayer.features.torso_pos) :=
  ⟨rfl, by decide, by decide, rfl, by decide,
   C12_torso_rectangle matView posPlayer ⟨0, 0, 40, 90⟩ ⟨10, 20, 20, 30⟩ ⟨13, 25, 21, 31⟩ []
     rfl⟩

/-- C13: `extractTorsoForPlayer` throws `std::invalid_argument` exactly when
the pointer is null or the player has fewer than 3 body parts, and when it
throws it the player is as it was. -/
theorem C13_invalid_argument_iff {Img : Type} (roi : Img → Rect → Option Img)
    (player : Option (DPMDetector.player_t Img)) :
    ((∃ e, (DPMDetector.extractTorsoForPlayer roi player).2
        = Except.error (DPMDetector.exception.std e)) ↔
      (player = none ∨ ∃ p, player = some p ∧ p.features.body_parts.length < 3)) ∧
    ((∃ e, (DPMDetector.extractTorsoForPlayer roi player).2
        = Except.error (DPMDetector.exception.std e)) →
      (DPMDetector.extractTorsoForPlayer roi player).1 = player) := by
  cases player with
  | none =>
    refine ⟨⟨fun _ => Or.inl rfl, fun _ => ⟨_, rfl⟩⟩, fun _ => rfl⟩
  | some p =>
    by_cases h3 : p.features.body_parts.length < 3
    · rw [extractTorso_few roi p h3]
      exact ⟨⟨fun _ => Or.inr ⟨p, rfl, h3⟩, fun _ => ⟨_, rfl⟩⟩, fun _ => rfl⟩
    · have hnot : ¬ ∃ e, (DPMDetector.extractTorsoForPlayer roi (some p)).2
          = Except.error (DPMDetector.exception.std e) := by
        rintro ⟨e, he⟩
        cases h1 : roi p.original_image
            (DPMDetector.meanRect (DPMDetector.vectorAt p.features.body_parts 1)
              (DPMDetector.vectorAt p.features.body_parts 2)) with
        | none =>
          rw [extractTorso_throw1 roi p (by omega) h1] at he
          injection he with he
          exact DPMDetector.exception.noConfusion he
        | some t =>
          cases h2 : roi p.mask_image
              (DPMDetector.meanRect (DPMDetector.vectorAt p.features.body_parts 1)
                (DPMDetector.vectorAt p.features.body_parts 2)) with
          | none =>
            rw [extractTorso_throw2 roi p (by omega) t h1 h2] at he
            injection he with he
            exact DPMDetector.exception.noConfusion he
          | some tm =>
            rw [extractTorso_ok roi p (by omega) t tm h1 h2] at he
            exact Except.noConfusion he
      constructor
      · constructor
        · intro h
          exact absurd h hnot
        · rintro (h | ⟨p', hp', hlt⟩)
          · exact Option.noConfusion h
          · injection hp' with hp'
            subst hp'
            exact absurd hlt h3
      · intro h
        exact absurd h hnot

/-- C18: `extractBodyParts` on a player that is not null: when the detector
returns no rectangle the call returns, with `body_parts` empty and `torso`,
`torso_mask` and `torso_pos` as they were; when it returns 1 or 2 rectangles
the call throws `std::invalid_argument` from `extractTorsoForPlayer`, and the
player then holds the returned list in `body_parts`, the rest as it was. -/
theorem C18_extractBodyParts_few_parts {Img : Type} (getPartBoxesForImage : Img → List Rect)
    (roi : Img → Rect → Option Img) (p : DPMDetector.player_t Img) :
    (getPartBoxesForImage p.original_image = [] →
      DPMDetector.extractBodyParts getPartBoxesForImage roi (some p)
        = (some { p with features := { p.features with body_parts := [] } }, Except.ok ())) ∧
    (((getPartBoxesForImage p.original_image).length = 1 ∨
        (getPartBoxesForImage p.original_image).length = 2) →
      DPMDetector.extractBodyParts getPartBoxesForImage roi (some p)
        = (some { p with features :=
              { p.features with body_parts := getPartBoxesForImage p.original_image } },
            Except.error
              (DPMDetector.exception.std
                DPMDetector.invalid_argument.not_enough_body_parts))) := by
  constructor
  · intro h
    unfold DPMDetector.extractBodyParts
    simp only [h, List.length_nil, gt_iff_lt, lt_self_iff_false, if_false]
  · intro h
    unfold DPMDetector.extractBodyParts
    simp only
    rw [if_pos (by simp only [gt_iff_lt]; omega)]
    exact extractTorso_few roi _ (by simp only; omega)

/-- C19: for a player whose body parts are `p0, b, c, ...`: when `b` and `c` are
the same rectangle, the torso rectangle computed at lines 343-351 is that
rectangle, and it is the rectangle stored in `torso_pos` when the call
returns; and when `b` and `c` are exchanged the computed rectangle is the same,
the call ends the same way (it returns, or throws the same exception), and
`torso_pos`, `torso` and `torso_mask` are the same after the call. -/
theorem C19_torso_same_and_swap {Img : Type} (roi : Img → Rect → Option Img) (orig msk : Img)
    (f : DPMDetector.features_t Img) (p0 b c : Rect) (rest : List Rect) :
    DPMDetector.meanRect b b = b ∧
    (∀ t tm, roi orig b = some t → roi msk b = some tm →
      DPMDetector.extractTorsoForPlayer roi
          (some ⟨orig, msk, { f with body_parts := p0 :: b :: b :: rest }⟩)
        = (some ⟨orig, msk,
            { body_parts := p0 :: b :: b :: rest
              torso := t
              torso_mask := tm
              torso_pos := b }⟩, Except.ok ())) ∧
    (∀ q, DPMDetector.extractTorsoForPlayer roi
          (some ⟨orig, msk, { f with body_parts := p0 :: b :: b :: rest }⟩)
        = (some q, Except.ok ()) → q.features.torso_pos = b) ∧
    DPMDetector.meanRect b c = DPMDetector.meanRect c b ∧
    (DPMDetector.extractTorsoForPlayer roi
        (some ⟨orig, msk, { f with body_parts := p0 :: b :: c :: rest }⟩)).2
      = (DPMDetector.extractTorsoForPlayer roi
        (some ⟨orig, msk, { f with body_parts := p0 :: c :: b :: rest }⟩)).2 ∧
    ((DPMDetector.extractTorsoForPlayer roi
        (some ⟨orig, msk, { f with body_parts := p0 :: b :: c :: rest }⟩)).1.map
      (fun p => (p.features.torso_pos, p.features.torso, p.features.torso_mask))
      = (DPMDetector.extractTorsoForPlayer roi
        (some ⟨orig, msk, { f with body_parts := p0 :: c :: b :: rest }⟩)).1.map
      (fun p => (p.features.torso_pos, p.features.torso, p.features.torso_mask))) := by
  have hsame := meanRect_same b
  have hswap := meanRect_swap b c
  have hcases : ∀ x y : Rect,
      (∃ t tm, roi orig (DPMDetector.meanRect x y) = some t ∧
        roi msk (DPMDetector.meanRect x y) = some tm ∧
        DPMDetector.extractTorsoForPlayer roi
            (some ⟨orig, msk, { f with body_parts := p0 :: x :: y :: rest }⟩)
          = (some ⟨orig, msk,
              { body_parts := p0 :: x :: y :: rest
                torso := t
                torso_mask := tm
                torso_pos := DPMDetector.meanRect x y }⟩, Except.ok ())) ∨
      (roi orig (DPMDetector.meanRect x y) = none ∧
        DPMDetector.extractTorsoForPlayer roi
            (some ⟨orig, msk, { f with body_parts := p0 :: x :: y :: rest }⟩)
          = (some ⟨orig, msk, { f with body_parts := p0 :: x :: y :: rest }⟩,
              Except.error (DPMDetector.exception.cv cv_Exception.roi_outside_image))) ∨
      (∃ t, roi orig (DPMDetector.meanRect x y) = some t ∧
        roi msk (DPMDetector.meanRect x y) = none ∧
        DPMDetector.extractTorsoForPlayer roi
            (some ⟨orig, msk, { f with body_parts := p0 :: x :: y :: rest }⟩)
          = (some ⟨orig, msk,
              { body_parts := p0 :: x :: y :: rest
                torso := t
                torso_mask := f.torso_mask
                torso_pos := f.torso_pos }⟩,
              Except.error (DPMDetector.exception.cv cv_Exception.roi_outside_image))) := by
    intro x y
    cases h1 : roi orig (DPMDetector.meanRect x y) with
    | none =>
      exact Or.inr (Or.inl ⟨rfl, extractTorso_throw1 roi _ (by simp) h1⟩)
    | some t =>
      cases h2 : roi msk (DPMDetector.meanRect x y) with
      | none =>
        exact Or.inr (Or.inr ⟨t, rfl, rfl, extractTorso_throw2 roi _ (by simp) t h1 h2⟩)
      | some tm =>
        exact Or.inl ⟨t, tm, rfl, rfl, extractTorso_ok roi _ (by simp) t tm h1 h2⟩
  refine ⟨hsame, ?_, ?_, hswap, ?_⟩
  · intro t tm h1 h2
    rw [← hsame] at h1 h2
    have h := extractTorso_ok roi
      ⟨orig, msk, { f with body_parts := p0 :: b :: b :: rest }⟩ (by simp) t tm h1 h2
    rw [h]
    show _ = (some ⟨orig, msk,
      { body_parts := p0 :: b :: b :: rest
        torso := t
        torso_mask := tm
        torso_pos := b }⟩, Except.ok ())
    have e : DPMDetector.meanRect
        (DPMDetector.vectorAt (p0 :: b :: b :: rest) 1)
        (DPMDetector.vectorAt (p0 :: b :: b :: rest) 2) = b := hsame
    simp only [e]
  · intro q hq
    rcases hcases b b with ⟨t, tm, _, _, h⟩ | ⟨_, h⟩ | ⟨t, _, _, h⟩
    · rw [h] at hq
      injection hq with hq1 _
      injection hq1 with hq1
      rw [← hq1]
      exact hsame
    · rw [h] at hq
      injection hq with _ hq2
      exact Except.noConfusion hq2
    · rw [h] at hq
      injection hq with _ hq2
      exact Except.noConfusion hq2
  · rcases hcases b c with ⟨t, tm, h1, h2, h⟩ | ⟨h1, h⟩ | ⟨t, h1, h2, h⟩
    · rcases hcases c b with ⟨t', tm', h1', h2', h'⟩ | ⟨h1', h'⟩ | ⟨t', h1', h2', h'⟩
      · rw [← hswap, h1] at h1'
        rw [← hswap, h2] at h2'
        injection h1' with h1'
        injection h2' with h2'
        rw [h, h', ← h1', ← h2', ← hswap]
        exact ⟨rfl, rfl⟩
      · rw [← hswap, h1] at h1'
        exact Option.noConfusion h1'
      · rw [← hswap, h2] at h2'
        exact Option.noConfusion h2'
    · rcases hcases c b with ⟨t', tm', h1', h2', h'⟩ | ⟨h1', h'⟩ | ⟨t', h1', h2', h'⟩
      · rw [← hswap, h1] at h1'
        exact Option.noConfusion h1'
      · rw [h, h']
        exact ⟨rfl, rfl⟩
      · rw [← hswap, h1] at h1'
        exact Option.noConfusion h1'
    · rcases hcases c b with ⟨t', tm', h1', h2', h'⟩ | ⟨h1', h'⟩ | ⟨t', h1', h2', h'⟩
      · rw [← hswap, h2] at h2'
        exact Option.noConfusion h2'
      · rw [← hswap, h1] at h1'
        exact Option.noConfusion h1'
      · rw [← hswap, h1] at h1'
        injection h1' with h1'
        rw [h, h', ← h1']
        exact ⟨rfl, rfl⟩

/-- C19, on images of 90 rows and 40 columns with parts 1 and 2 both equal to
(10, 20, 20, 30): the views under that rectangle are taken and the call stores
it in `torso_pos`. -/
theorem C19_torso_same_and_swap_witness :
    matView ⟨90, 40⟩ ⟨10, 20, 20, 30⟩ = some ⟨30, 20⟩ ∧
    DPMDetector.extractTorsoForPlayer matView
        (some ⟨⟨90, 40⟩, ⟨90, 40⟩,
          { posPlayer.features with
            body_parts := [⟨0, 0, 40, 90⟩, ⟨10, 20, 20, 30⟩, ⟨10, 20, 20, 30⟩] }⟩)
      = (some ⟨⟨90, 40⟩, ⟨90, 40⟩,
          { body_parts := [⟨0, 0, 40, 90⟩, ⟨10, 20, 20, 30⟩, ⟨10, 20, 20, 30⟩]
            torso := ⟨30, 20⟩
            torso_mask := ⟨30, 20⟩
            torso_pos := ⟨10, 20, 20, 30⟩ }⟩, Except.ok ()) :=
  ⟨by decide,
   (C19_torso_same_and_swap matView ⟨90, 40⟩ ⟨90, 40⟩ posPlayer.features ⟨0, 0, 40, 90⟩
      ⟨10, 20, 20, 30⟩ ⟨10, 20, 20, 30⟩ []).2.1 ⟨30, 20⟩ ⟨30, 20⟩ (by decide) (by decide)⟩

end tmd
